import Mathlib

/-!
# Verification of the Simage metadata normalization / extraction pipeline

Shallow embedding of the core of the Simage repository:

* `simage/core/ingest.py` — text cleaning, prompt separation, prompt
  tokenization, sampler/scheduler normalization, ComfyUI node-graph
  extraction, A1111 text-block extraction, keyed-field extraction and the
  `normalize_record` orchestrator, plus the JSONL ingest loop of `main`.
* `pipe_parse.py` — resource extraction and `dedupe_resources`.
* `pipe_resolve.py` — `merge_extra_json`, `upsert_mv`, `rewrite_resources`.

Modelling conventions, used throughout and noted again at the definitions
they concern:

* Python strings are `List Char` (`Str`); case folding and the `\s` / `\w`
  character classes are modelled on their ASCII behaviour, which covers every
  marker string and every concrete input appearing below.  Non-ASCII
  characters are treated as word characters for `\w` (letters are by far the
  common case there).
* Python `float` is modelled as an exact rational plus the `inf`/`-inf`/`nan`
  special values (`PyFloat`).  The code under verification never performs
  float arithmetic: floats are only parsed, compared, truncated and stored,
  and all of those are exact on the values reachable in the theorems below
  (binary64 rounding of huge literals is not modelled).
* Python `dict` is an insertion-ordered association list with unique keys;
  `None` and "key absent" are conflated only where the source itself only
  uses `d.get(k)` (this is noted where it applies).
* Code that can raise a Python exception is modelled in `Except PyErr`;
  total code stays pure.
* Values supplied by the environment (clock, uuid generation, filesystem
  hashing and path resolution) are passed in an explicit `Env` record;
  no theorem depends on their values.
-/

namespace Simage

/-! ## Strings and character classes -/

/-- Python strings, modelled as lists of characters. -/
abbrev Str := List Char

/-- Shorthand to write a model string from a Lean string literal. -/
def S (s : String) : Str := s.data

/-- Python's `\s` class / `str.strip` whitespace, ASCII part.
Unicode whitespace is not modelled (no marker or input below uses it). -/
def isSpaceCh (c : Char) : Bool :=
  c = ' ' || c = '\t' || c = '\n' || c = '\r' || c = '\x0b' || c = '\x0c'

/-- Python's `\w` class: ASCII alphanumerics and underscore; non-ASCII
characters are approximated as word characters (the common case: letters). -/
def isWordCh (c : Char) : Bool :=
  c.isAlphanum || c = '_' || decide (128 ≤ c.toNat)

/-- ASCII lowercase fold, as used by `str.lower()` and `re.IGNORECASE`
on the ASCII marker strings of the source. -/
def lowerCh (c : Char) : Char := c.toLower

def lowerStr (s : Str) : Str := s.map lowerCh

/-- `str.strip()` (ASCII whitespace). -/
def pyStrip (s : Str) : Str :=
  ((s.dropWhile isSpaceCh).reverse.dropWhile isSpaceCh).reverse

/-- Leading-whitespace strip only (`str.lstrip()` over `\s`). -/
def pyLStrip (s : Str) : Str := s.dropWhile isSpaceCh

/-! ## Python numbers -/

/-- Python `float`: an exact rational or one of the special values.
The source never does float arithmetic, so this carries exactly the
information the code observes (comparisons, truncation, storage). -/
inductive PyFloat where
  | finite (q : ℚ)
  | inf
  | ninf
  | nan
  deriving DecidableEq, Repr

namespace PyFloat

/-- Computable `p ≤ q` on rationals (`Rat.blt` decides `<`). -/
def ratLeB (p q : ℚ) : Bool := !(Rat.blt q p)

/-- `float ≤ float` comparison; any comparison with `nan` is false. -/
def le (a b : PyFloat) : Bool :=
  match a, b with
  | .nan, _ | _, .nan => false
  | .ninf, _ => true
  | _, .ninf => false
  | _, .inf => true
  | .inf, _ => false
  | .finite p, .finite q => ratLeB p q

/-- `float == float`. `nan` is not equal to anything, including itself. -/
def beqF (a b : PyFloat) : Bool :=
  match a, b with
  | .nan, _ | _, .nan => false
  | .inf, .inf => true
  | .ninf, .ninf => true
  | .finite p, .finite q => decide (p = q)
  | _, _ => false

/-- Truncation toward zero of a rational. -/
def ratTrunc (q : ℚ) : Int := if 0 ≤ q then ⌊q⌋ else ⌈q⌉

/-- Python `int(f)`: truncation toward zero; raises (`none`) on
`nan`/`inf`/`-inf`. -/
def toIntTrunc : PyFloat → Option Int
  | .finite q => some (ratTrunc q)
  | _ => none

end PyFloat

/-- Parse the fractional-digit part: `ds` are digits already guaranteed. -/
def digitsToNat (ds : Str) : Nat :=
  ds.foldl (fun n c => n * 10 + (c.toNat - '0'.toNat)) 0

/-- Python `float(string)` on the core decimal grammar:
optional surrounding whitespace, optional sign, then either
`digits[.digits][exponent]`, `.digits[exponent]`, or the keywords
`inf`/`infinity`/`nan` (case-insensitive).  Returns `none` where Python
raises `ValueError`.  Underscored literals are not modelled. -/
def pyParseFloat (s : Str) : Option PyFloat :=
  let t := pyStrip s
  let (neg, t) :=
    match t with
    | '-' :: r => (true, r)
    | '+' :: r => (false, r)
    | _ => (false, t)
  let lt := lowerStr t
  if lt = S "inf" || lt = S "infinity" then
    some (if neg then .ninf else .inf)
  else if lt = S "nan" then
    some .nan
  else
    let intPart := t.takeWhile Char.isDigit
    let rest := t.drop intPart.length
    let (fracPart, rest) :=
      match rest with
      | '.' :: r => (r.takeWhile Char.isDigit, r.drop (r.takeWhile Char.isDigit).length)
      | _ => ([], rest)
    if intPart.isEmpty && fracPart.isEmpty then none
    else
      let signInt : Int := if neg then -1 else 1
      let baseNum : Int :=
        signInt * ((digitsToNat intPart) * 10 ^ fracPart.length + digitsToNat fracPart)
      let mkVal : Int → ℚ := fun e =>
        if 0 ≤ e then mkRat (baseNum * (10 : Int) ^ e.toNat) (10 ^ fracPart.length)
        else mkRat baseNum (10 ^ fracPart.length * 10 ^ (-e).toNat)
      match rest with
      | [] => some (.finite (mkVal 0))
      | c :: r =>
        if c = 'e' || c = 'E' then
          let (esgn, r) :=
            match r with
            | '-' :: rr => ((-1 : Int), rr)
            | '+' :: rr => ((1 : Int), rr)
            | _ => ((1 : Int), r)
          let eds := r.takeWhile Char.isDigit
          if eds.isEmpty || r.drop eds.length ≠ [] then none
          else some (.finite (mkVal (esgn * (digitsToNat eds : Int))))
        else none

/-- Python `int(string)`: optional surrounding whitespace, optional sign,
then decimal digits (ASCII).  Returns `none` where Python raises.
Underscore separators and non-ASCII decimal digits are not modelled. -/
def pyParseInt (s : Str) : Option Int :=
  let t := pyStrip s
  let (sgn, t) :=
    match t with
    | '-' :: r => ((-1 : Int), r)
    | '+' :: r => ((1 : Int), r)
    | _ => ((1 : Int), t)
  if t ≠ [] && t.all Char.isDigit then some (sgn * (digitsToNat t : Int)) else none

/-- Python `str.isdigit()`.  True for ASCII digits and also for characters
such as the superscripts `¹²³`, which have Unicode `Numeric_Type=Digit` but
are **not** accepted by `int()`.  Only the superscripts are included beyond
ASCII; that is enough to model the `isdigit`/`int` mismatch faithfully on
every input appearing below. -/
def pyIsDigitCh (c : Char) : Bool :=
  c.isDigit || c = '¹' || c = '²' || c = '³'

def pyIsDigitStr (s : Str) : Bool :=
  !s.isEmpty && s.all pyIsDigitCh

/-! ## Python values

`PyVal` models the JSON-shaped dynamic values the pipeline manipulates:
`None`, booleans, ints, floats, strings, lists and (insertion-ordered)
dicts with string keys. -/

inductive PyVal where
  | none
  | bool (b : Bool)
  | int (n : Int)
  | float (f : PyFloat)
  | str (s : Str)
  | list (xs : List PyVal)
  | dict (entries : List (Str × PyVal))
  deriving Repr

namespace PyVal

mutual
def beq : PyVal → PyVal → Bool
  | .none, .none => true
  | .bool a, .bool b => a = b
  | .int a, .int b => a = b
  | .float a, .float b => a = b
  | .str a, .str b => a = b
  | .list xs, .list ys => beqList xs ys
  | .dict xs, .dict ys => beqEntries xs ys
  | _, _ => false
  termination_by structural a => a
def beqList : List PyVal → List PyVal → Bool
  | [], [] => true
  | x :: xs, y :: ys => beq x y && beqList xs ys
  | _, _ => false
  termination_by structural a => a
def beqEntries : List (Str × PyVal) → List (Str × PyVal) → Bool
  | [], [] => true
  | (k, v) :: xs, (l, w) :: ys => k = l && beq v w && beqEntries xs ys
  | _, _ => false
  termination_by structural a => a
end

mutual
theorem beq_refl : ∀ v : PyVal, beq v v = true
  | .none => rfl
  | .bool _ => by simp [beq]
  | .int _ => by simp [beq]
  | .float _ => by simp [beq]
  | .str _ => by simp [beq]
  | .list xs => by simp [beq, beqList_refl xs]
  | .dict xs => by simp [beq, beqEntries_refl xs]
theorem beqList_refl : ∀ xs : List PyVal, beqList xs xs = true
  | [] => rfl
  | x :: xs => by simp [beqList, beq_refl x, beqList_refl xs]
theorem beqEntries_refl : ∀ xs : List (Str × PyVal), beqEntries xs xs = true
  | [] => rfl
  | (k, v) :: xs => by simp [beqEntries, beq_refl v, beqEntries_refl xs]
end

mutual
theorem eq_of_beq : ∀ {a b : PyVal}, beq a b = true → a = b
  | .none, .none, _ => rfl
  | .bool _, .bool _, h => by simpa [beq] using h
  | .int _, .int _, h => by simpa [beq] using h
  | .float _, .float _, h => by simpa [beq] using h
  | .str _, .str _, h => by simpa [beq] using h
  | .list xs, .list ys, h => by
      simp only [beq] at h; exact congrArg PyVal.list (eqList_of_beq h)
  | .dict xs, .dict ys, h => by
      simp only [beq] at h; exact congrArg PyVal.dict (eqEntries_of_beq h)
  | .none, .bool _, h | .none, .int _, h | .none, .float _, h
  | .none, .str _, h | .none, .list _, h | .none, .dict _, h
  | .bool _, .none, h | .bool _, .int _, h | .bool _, .float _, h
  | .bool _, .str _, h | .bool _, .list _, h | .bool _, .dict _, h
  | .int _, .none, h | .int _, .bool _, h | .int _, .float _, h
  | .int _, .str _, h | .int _, .list _, h | .int _, .dict _, h
  | .float _, .none, h | .float _, .bool _, h | .float _, .int _, h
  | .float _, .str _, h | .float _, .list _, h | .float _, .dict _, h
  | .str _, .none, h | .str _, .bool _, h | .str _, .int _, h
  | .str _, .float _, h | .str _, .list _, h | .str _, .dict _, h
  | .list _, .none, h | .list _, .bool _, h | .list _, .int _, h
  | .list _, .float _, h | .list _, .str _, h | .list _, .dict _, h
  | .dict _, .none, h | .dict _, .bool _, h | .dict _, .int _, h
  | .dict _, .float _, h | .dict _, .str _, h | .dict _, .list _, h
    => by simp [beq] at h
theorem eqList_of_beq : ∀ {xs ys : List PyVal}, beqList xs ys = true → xs = ys
  | [], [], _ => rfl
  | x :: xs, y :: ys, h => by
      simp only [beqList, Bool.and_eq_true] at h
      rw [eq_of_beq h.1, eqList_of_beq h.2]
  | [], _ :: _, h => by simp [beqList] at h
  | _ :: _, [], h => by simp [beqList] at h
theorem eqEntries_of_beq :
    ∀ {xs ys : List (Str × PyVal)}, beqEntries xs ys = true → xs = ys
  | [], [], _ => rfl
  | (k, v) :: xs, (l, w) :: ys, h => by
      simp only [beqEntries, Bool.and_eq_true, decide_eq_true_eq] at h
      rw [h.1.1, eq_of_beq h.1.2, eqEntries_of_beq h.2]
  | [], _ :: _, h => by simp [beqEntries] at h
  | _ :: _, [], h => by simp [beqEntries] at h
end

instance : DecidableEq PyVal := fun a b =>
  if h : beq a b = true then .isTrue (eq_of_beq h)
  else .isFalse (fun he => h (he ▸ beq_refl a))

end PyVal

/-! ## Insertion-ordered dictionaries (Python `dict` semantics) -/

section Dict

variable {κ : Type} {β : Type} [DecidableEq κ]

/-- `d.get(k)` — first (and only, by construction) binding of `k`. -/
def dGet : List (κ × β) → κ → Option β
  | [], _ => Option.none
  | (k', v) :: d, k => if k' = k then some v else dGet d k

/-- `k in d`. -/
def dMem (d : List (κ × β)) (k : κ) : Bool :=
  d.any (fun e => e.1 = k)

/-- `d[k] = v`: overwrite in place if the key exists, else append
(Python dicts keep the key's original insertion position). -/
def dSet (d : List (κ × β)) (k : κ) (v : β) : List (κ × β) :=
  match d with
  | [] => [(k, v)]
  | (k', v') :: rest =>
    if k' = k then (k', v) :: rest else (k', v') :: dSet rest k v

/-- `d.setdefault(k, v)`. -/
def dSetDefault (d : List (κ × β)) (k : κ) (v : β) : List (κ × β) :=
  if dMem d k then d else d ++ [(k, v)]

/-- `d.pop(k, None)` — drop the binding of `k` if present. -/
def dPop (d : List (κ × β)) (k : κ) : List (κ × β) :=
  d.filter (fun e => e.1 ≠ k)

end Dict

namespace PyVal

/-- Python truthiness: `None`, `False`, `0`, `0.0`, `""`, `[]`, `{}` are
falsy; everything else (including `nan`) is truthy. -/
def truthy : PyVal → Bool
  | .none => false
  | .bool b => b
  | .int n => n ≠ 0
  | .float (.finite q) => q ≠ 0
  | .float _ => true
  | .str s => !s.isEmpty
  | .list xs => !xs.isEmpty
  | .dict d => !d.isEmpty

/-- `x is None` — Python identity test against the `None` singleton. -/
def isNone : PyVal → Bool
  | .none => true
  | _ => false

/-- `x in (None, "")` — the pervasive "unset" test of the source. -/
def isNoneOrEmptyStr : PyVal → Bool
  | .none => true
  | .str [] => true
  | _ => false

/-- Same test applied to an optional slot (`rec.get(fld) in (None, "")`:
an absent key reads as `None`). -/
def optUnset : Option PyVal → Bool
  | Option.none => true
  | Option.some v => isNoneOrEmptyStr v

/-- Decimal rendering of an integer, as Python `str(int)`. -/
def intRepr (n : Int) : Str := (toString n).data

/-- Rendering of a float, as Python `str(float)`.  Python prints the
shortest decimal that round-trips; this model prints `num.0` for integral
values and `num/den` otherwise (documented approximation — every rendering
still contains a non-digit, which is all the code under verification
observes about it). -/
def floatRepr : PyFloat → Str
  | .inf => S "inf"
  | .ninf => S "-inf"
  | .nan => S "nan"
  | .finite q =>
    if q.den = 1 then intRepr q.num ++ S ".0"
    else intRepr q.num ++ S "/" ++ (toString q.den).data

def joinComma : List Str → Str
  | [] => []
  | [x] => x
  | x :: xs => x ++ ',' :: ' ' :: joinComma xs

mutual
/-- Python `repr`, approximately: used only through `str()` on non-string
values (dict keys in dedup maps and similar); string escaping inside
containers is not modelled. -/
def reprOf : PyVal → Str
  | .none => S "None"
  | .bool b => if b then S "True" else S "False"
  | .int n => intRepr n
  | .float f => floatRepr f
  | .str s => '\'' :: s ++ ['\'']
  | .list xs => '[' :: joinComma (reprList xs) ++ [']']
  | .dict d => '{' :: joinComma (reprEntries d) ++ ['}']
  termination_by structural a => a
def reprList : List PyVal → List Str
  | [] => []
  | x :: xs => reprOf x :: reprList xs
  termination_by structural a => a
def reprEntries : List (Str × PyVal) → List Str
  | [] => []
  | (k, v) :: xs => ('\'' :: k ++ '\'' :: ':' :: ' ' :: reprOf v) :: reprEntries xs
  termination_by structural a => a
end

/-- Python `str(x)`. -/
def strOf : PyVal → Str
  | .str s => s
  | v => reprOf v

end PyVal

/-! ## Tolerant numeric coercion (ingest.py / pipe_parse.py helpers) -/

/-- Python `float(x)` on a dynamic value: `none` where Python raises. -/
def pyFloatOf : PyVal → Option PyFloat
  | .bool b => some (.finite (if b then mkRat 1 1 else mkRat 0 1))
  | .int n => some (.finite (mkRat n 1))
  | .float f => some f
  | .str s => pyParseFloat s
  | _ => Option.none

/-- `_to_int` from `simage/core/ingest.py`: rejects `bool`, `None` and `""`,
then `int(float(x))`; any failure (unparsable string, `nan`, `inf`)
is caught and yields `None`. -/
def to_int' (x : PyVal) : Option Int :=
  match x with
  | .bool _ => Option.none
  | .none => Option.none
  | .str [] => Option.none
  | _ => (pyFloatOf x).bind PyFloat.toIntTrunc

/-- `_to_float` from `simage/core/ingest.py`. -/
def to_float' (x : PyVal) : Option PyFloat :=
  match x with
  | .bool _ => Option.none
  | .none => Option.none
  | .str [] => Option.none
  | _ => pyFloatOf x

/-- `to_int` from `simage/core/ingest.py` (no bool guard: `int(float(True)) = 1`). -/
def to_int (x : PyVal) : Option Int :=
  match x with
  | .none => Option.none
  | .str [] => Option.none
  | _ => (pyFloatOf x).bind PyFloat.toIntTrunc

/-- `to_float` from `simage/core/ingest.py`. -/
def to_float (x : PyVal) : Option PyFloat :=
  match x with
  | .none => Option.none
  | .str [] => Option.none
  | _ => pyFloatOf x

/-- `as_float` from `pipe_parse.py` (same body as `to_float`). -/
def as_float (x : PyVal) : Option PyFloat := to_float x

/-! ## `clean_ws` (ingest.py) -/

/-- Stage 1 of `clean_ws`: `replace("\r\n", "\n").replace("\r", "\n")`. -/
def cleanCR : Str → Str
  | [] => []
  | '\r' :: '\n' :: t => '\n' :: cleanCR t
  | '\r' :: t => '\n' :: cleanCR t
  | c :: t => c :: cleanCR t

def isSpTab (c : Char) : Bool := c = ' ' || c = '\t'

mutual
/-- Stage 2: `re.sub(r"[ \t]+", " ", s)` — a run of spaces/tabs becomes one
space.  (`skipSpTab` consumes the rest of a run.) -/
def collapseSpTab : Str → Str
  | [] => []
  | c :: t => if isSpTab c then ' ' :: skipSpTab t else c :: collapseSpTab t
def skipSpTab : Str → Str
  | [] => []
  | c :: t => if isSpTab c then skipSpTab t else c :: collapseSpTab t
end

mutual
/-- Stage 3: `re.sub(r"\n{3,}", "\n\n", s)` — runs of three or more
newlines become exactly two.  (`nlRun k` has seen `k` newlines of the
current run.) -/
def collapseNL : Str → Str
  | [] => []
  | c :: t => if c = '\n' then nlRun 1 t else c :: collapseNL t
def nlRun (k : Nat) : Str → Str
  | [] => List.replicate (min k 2) '\n'
  | c :: t =>
    if c = '\n' then nlRun (k + 1) t
    else List.replicate (min k 2) '\n' ++ c :: collapseNL t
end

/-- `clean_ws` from `simage/core/ingest.py`. -/
def clean_ws (s : Str) : Str :=
  pyStrip (collapseNL (collapseSpTab (cleanCR s)))

/-! ## Marker patterns (`RE_TAIL_ANY`, `RE_NEG_MARKER`)

The tail-marker regex of the source is an alternation of case-insensitive
literals, one of which (`CFG\s*scale:`) carries an internal `\s*`.  A pattern
is a list of tokens: a (lowercase) literal character or `\s*`.  The trailing
`\s*` of `RE_TAIL_ANY` does not affect match start positions, which is all
`cut_at_tail_markers` uses (`m.start()`), so it is not represented. -/

inductive PTok where
  | lit (c : Char)
  | wsStar
  deriving DecidableEq, Repr

/-- All suffixes of `s` reachable by skipping leading whitespace
(the choice points of `\s*`). -/
def wsSuffixes : Str → List Str
  | [] => [[]]
  | c :: t => (c :: t) :: (if isSpaceCh c then wsSuffixes t else [])

/-- Does the pattern match a prefix of `s` (case-insensitive)? -/
def patMatch : List PTok → Str → Bool
  | [], _ => true
  | .lit _ :: _, [] => false
  | .lit c :: ps, d :: rest => lowerCh d = c && patMatch ps rest
  | .wsStar :: ps, s => (wsSuffixes s).any (fun s' => patMatch ps s')

/-- A pattern made of literal characters only. -/
def litPat (s : String) : List PTok := s.data.map PTok.lit

/-- The alternatives of `RE_TAIL_ANY` (ingest.py), in source order. -/
def tailPats : List (List PTok) :=
  [ litPat "steps:"
  , litPat "sampler:"
  , litPat "cfg" ++ [PTok.wsStar] ++ litPat "scale:"
  , litPat "seed:"
  , litPat "size:"
  , litPat "model hash:"
  , litPat "model:"
  , litPat "denoising strength:"
  , litPat "hires"
  , litPat "clip skip:"
  , litPat "created date:"
  , litPat "civitai resources:"
  , litPat "civitai metadata:"
  , litPat "hashes:" ]

/-- Some tail-marker alternative matches at offset `i` of `s`. -/
def tailMatchAt (s : Str) (i : Nat) : Bool :=
  tailPats.any (fun p => patMatch p (s.drop i))

/-- Least index `i` with `start ≤ i < start + fuel` satisfying `p`
(the regex engine's left-to-right scan). -/
def findLeast (p : Nat → Bool) : Nat → Nat → Option Nat
  | _, 0 => Option.none
  | i, fuel + 1 => if p i then some i else findLeast p (i + 1) fuel

/-- `RE_TAIL_ANY.search(s)` start position. -/
def firstTailIdx (s : Str) : Option Nat :=
  findLeast (tailMatchAt s) 0 (s.length + 1)

/-- `cut_at_tail_markers` from `simage/core/ingest.py`. -/
def cut_at_tail_markers (s : Str) : Str :=
  match firstTailIdx s with
  | Option.none => pyStrip s
  | some i => pyStrip (s.take i)

/-- Case-insensitive literal-prefix test (`pat` is given lowercase). -/
def isPrefixCI (pat : Str) (s : Str) : Bool :=
  lowerStr (s.take pat.length) = pat

/-- The literal of `RE_NEG_MARKER` (lowercase), 16 characters. -/
def negLit : Str := S "negative prompt:"

/-- `\b` immediately before offset `i` (the marker starts with a word
character, so the boundary holds iff `i = 0` or the previous character is
not a word character). -/
def boundaryBefore (s : Str) (i : Nat) : Bool :=
  if i = 0 then true
  else
    match s[i-1]? with
    | some c => !isWordCh c
    | Option.none => true

/-- `RE_NEG_MARKER` (`\bNegative prompt:\s*`) matches at offset `i`. -/
def negMatchAt (s : Str) (i : Nat) : Bool :=
  boundaryBefore s i && isPrefixCI negLit (s.drop i)

/-- `RE_NEG_MARKER.search(s)` start position. -/
def firstNegIdx (s : Str) : Option Nat :=
  findLeast (negMatchAt s) 0 (s.length + 1)

/-- The input normalization of `enforce_pos_neg_separation`:
`clean_ws(x) if isinstance(x, str) and x.strip() else None`. -/
def cleanPNInput : PyVal → Option Str
  | .str s => if pyStrip s ≠ [] then some (clean_ws s) else Option.none
  | _ => Option.none

/-- The `"Negative prompt:"` split step of `enforce_pos_neg_separation`.

The source splits at `m.end()`, which swallows the marker's trailing `\s*`;
the model drops exactly the 16 marker characters and lets the subsequent
`.strip()` remove that same whitespace — the results coincide because the
right part is always stripped. -/
def splitNeg (p0 n0 : Option Str) : Option Str × Option Str :=
  match p0 with
  | Option.none => (Option.none, n0)
  | some p =>
    match firstNegIdx p with
    | Option.none => (some p, n0)
    | some i =>
      let left := pyStrip (p.take i)
      let right := pyStrip (p.drop (i + negLit.length))
      ( if left ≠ [] then some left else Option.none
      , if right ≠ [] ∧ n0 = Option.none then some right else n0 )

/-- The tail-marker truncation step applied to an optional field
(`if p: p = cut_at_tail_markers(p) or None`). -/
def cutOptTail (o : Option Str) : Option Str :=
  o.bind (fun s =>
    let s2 := cut_at_tail_markers s
    if s2 ≠ [] then some s2 else Option.none)

/-- `enforce_pos_neg_separation` from `simage/core/ingest.py`. -/
def enforce_pos_neg_separation (pos neg : PyVal) : Option Str × Option Str :=
  let pn1 := splitNeg (cleanPNInput pos) (cleanPNInput neg)
  (cutOptTail pn1.1, cutOptTail pn1.2)

/-! ## Resource records and `dedupe_resources` (pipe_parse.py) -/

/-- A resource record as `pipe_parse.py` manipulates it: a dict with keys
`kind`, `name`, `weight`, `extra`.  The source only reads these through
`d.get(k)`, which conflates a missing key with `None`, so each field holds
a `PyVal` with `.none` for "absent or None". -/
structure RItem where
  kind : PyVal := .none
  name : PyVal := .none
  weight : PyVal := .none
  extra : PyVal := .none
  deriving DecidableEq, Repr

/-- `x or {}` as the source writes it. -/
def pyOrEmptyDict (v : PyVal) : PyVal :=
  if v.truthy then v else .dict []

/-- The dedup key `(str(kind), str(name))`. -/
def rkey (it : RItem) : Str × Str := (PyVal.strOf it.kind, PyVal.strOf it.name)

/-- The duplicate-merge step of `dedupe_resources`, applied to the current
base record and one further duplicate:

* the duplicate's weight is adopted only when the base's weight `is None`
  and the new one `is not None`;
* `extra` dicts are merged with `setdefault` (existing keys always win),
  after `x or {}` normalization; non-dict extras are left untouched. -/
def mergeExtra (eo en : PyVal) : PyVal :=
  match pyOrEmptyDict eo, pyOrEmptyDict en with
  | .dict dOld, .dict dNew =>
    .dict (dNew.foldl (fun d kv => dSetDefault d kv.1 kv.2) dOld)
  | _, _ => eo

def mergeDup (cur it : RItem) : RItem :=
  { cur with
    weight := if cur.weight.isNone && !it.weight.isNone then it.weight
              else cur.weight
    extra := mergeExtra cur.extra it.extra }

/-- One loop iteration of `dedupe_resources` over the `seen` map. -/
def dedupeStep (seen : List ((Str × Str) × RItem)) (it : RItem) :
    List ((Str × Str) × RItem) :=
  if !it.kind.truthy || !it.name.truthy then seen
  else
    let key := rkey it
    match dGet seen key with
    | Option.none => seen ++ [(key, it)]
    | some cur => dSet seen key (mergeDup cur it)

/-- `dedupe_resources` from `pipe_parse.py`. -/
def dedupe_resources (items : List RItem) : List RItem :=
  (items.foldl dedupeStep []).map (·.2)

/-- First-occurrence deduplication (specification side). -/
def dedupKeepFirst {α : Type} [DecidableEq α] (xs : List α) : List α :=
  xs.foldl (fun acc x => if x ∈ acc then acc else acc ++ [x]) []

/-- Specification-side merge of one key group, following the claim's words:
the first occurrence is the base and each later duplicate is folded in. -/
def mergeGroupOpt (g : List RItem) : Option RItem :=
  match g with
  | [] => Option.none
  | base :: rest => some (rest.foldl mergeDup base)

/-- The items that take part in deduplication (`if not kind or not name:
continue`). -/
def validItems (items : List RItem) : List RItem :=
  items.filter (fun it => it.kind.truthy && it.name.truthy)

/-! ## JSON serialization and parsing

`pyJsonDumps` models `json.dumps(..., ensure_ascii=False)` (default
separators `", "` / `": "`); `pyJsonLoads` models `json.loads` including
Python's non-strict extensions `NaN` / `Infinity` / `-Infinity`.
Approximations, noted here once: `\uXXXX` escapes decode to the scalar of
the hex value (no surrogate pairs); number syntax accepts any digit run
(Python additionally rejects leading zeros); float repr follows
`PyVal.floatRepr`. -/

def jsonEscape (s : Str) : Str :=
  s.foldr (fun c acc =>
    if c = '"' then '\\' :: '"' :: acc
    else if c = '\\' then '\\' :: '\\' :: acc
    else if c = '\n' then '\\' :: 'n' :: acc
    else if c = '\t' then '\\' :: 't' :: acc
    else if c = '\r' then '\\' :: 'r' :: acc
    else c :: acc) []

def jsonFloatRepr : PyFloat → Str
  | .inf => S "Infinity"
  | .ninf => S "-Infinity"
  | .nan => S "NaN"
  | f => PyVal.floatRepr f

mutual
def pyJsonDumps : PyVal → Str
  | .none => S "null"
  | .bool b => if b then S "true" else S "false"
  | .int n => PyVal.intRepr n
  | .float f => jsonFloatRepr f
  | .str s => '"' :: jsonEscape s ++ ['"']
  | .list xs => '[' :: PyVal.joinComma (dumpsList xs) ++ [']']
  | .dict d => '{' :: PyVal.joinComma (dumpsEntries d) ++ ['}']
  termination_by structural a => a
def dumpsList : List PyVal → List Str
  | [] => []
  | x :: xs => pyJsonDumps x :: dumpsList xs
  termination_by structural a => a
def dumpsEntries : List (Str × PyVal) → List Str
  | [] => []
  | (k, v) :: d => ('"' :: jsonEscape k ++ '"' :: ':' :: ' ' :: pyJsonDumps v) :: dumpsEntries d
  termination_by structural a => a
end

def isJsonWs (c : Char) : Bool :=
  c = ' ' || c = '\t' || c = '\n' || c = '\r'

def jsonSkipWs (s : Str) : Str := s.dropWhile isJsonWs

def hexVal (c : Char) : Option Nat :=
  if c.isDigit then some (c.toNat - '0'.toNat)
  else if 'a' ≤ c ∧ c ≤ 'f' then some (c.toNat - 'a'.toNat + 10)
  else if 'A' ≤ c ∧ c ≤ 'F' then some (c.toNat - 'A'.toNat + 10)
  else Option.none

/-- Parse the body of a JSON string (after the opening quote), with fuel. -/
def jsonParseStr : Nat → Str → Option (Str × Str)
  | 0, _ => Option.none
  | _ + 1, [] => Option.none
  | fuel + 1, c :: r =>
    if c = '"' then some ([], r)
    else if c = '\\' then
      match r with
      | [] => Option.none
      | e :: r2 =>
        let dec : Option (Char × Str) :=
          if e = '"' then some ('"', r2)
          else if e = '\\' then some ('\\', r2)
          else if e = '/' then some ('/', r2)
          else if e = 'b' then some ('\x08', r2)
          else if e = 'f' then some ('\x0c', r2)
          else if e = 'n' then some ('\n', r2)
          else if e = 'r' then some ('\r', r2)
          else if e = 't' then some ('\t', r2)
          else if e = 'u' then
            match r2 with
            | h1 :: h2 :: h3 :: h4 :: r3 =>
              match hexVal h1, hexVal h2, hexVal h3, hexVal h4 with
              | some a, some b, some c3, some d =>
                let n := ((a * 16 + b) * 16 + c3) * 16 + d
                if h : n.isValidChar then some (Char.ofNatAux n h, r3)
                else some ('?', r3)
              | _, _, _, _ => Option.none
            | _ => Option.none
          else Option.none
        match dec with
        | some (ch, rest) =>
          match jsonParseStr fuel rest with
          | some (out, rest2) => some (ch :: out, rest2)
          | Option.none => Option.none
        | Option.none => Option.none
    else
      match jsonParseStr fuel r with
      | some (out, rest2) => some (c :: out, rest2)
      | Option.none => Option.none

/-- Parse a JSON number starting at `s` (first char a digit or `-`). -/
def jsonParseNum (s : Str) : Option (PyVal × Str) :=
  let (neg, t) := match s with
    | '-' :: r => (true, r)
    | _ => (false, s)
  let ds := t.takeWhile Char.isDigit
  if ds.isEmpty then Option.none
  else
    let t1 := t.drop ds.length
    let (frac, t2) := match t1 with
      | '.' :: r => (r.takeWhile Char.isDigit, r.drop (r.takeWhile Char.isDigit).length)
      | _ => ([], t1)
    let hasFrac := match t1 with | '.' :: _ => true | _ => false
    if hasFrac ∧ frac.isEmpty then Option.none
    else
      let (hasExp, esgn, eds, t3) : Bool × Int × Str × Str := match t2 with
        | 'e' :: r | 'E' :: r =>
          match r with
          | '-' :: rr => (true, -1, rr.takeWhile Char.isDigit, rr.drop (rr.takeWhile Char.isDigit).length)
          | '+' :: rr => (true, 1, rr.takeWhile Char.isDigit, rr.drop (rr.takeWhile Char.isDigit).length)
          | _ => (true, 1, r.takeWhile Char.isDigit, r.drop (r.takeWhile Char.isDigit).length)
        | _ => (false, 1, [], t2)
      if hasExp ∧ eds.isEmpty then Option.none
      else
        let signInt : Int := if neg then -1 else 1
        if hasFrac ∨ hasExp then
          let baseNum : Int := signInt * ((digitsToNat ds) * 10 ^ frac.length + digitsToNat frac)
          let e : Int := esgn * (digitsToNat eds : Int)
          let q : ℚ :=
            if 0 ≤ e then mkRat (baseNum * (10 : Int) ^ e.toNat) (10 ^ frac.length)
            else mkRat baseNum (10 ^ frac.length * 10 ^ (-e).toNat)
          some (.float (.finite q), t3)
        else
          some (.int (signInt * (digitsToNat ds : Int)), t3)

mutual
/-- JSON value parser with fuel (`json.loads` core). -/
def jsonParseVal : Nat → Str → Option (PyVal × Str)
  | 0, _ => Option.none
  | fuel + 1, s =>
    let t := jsonSkipWs s
    match t with
    | [] => Option.none
    | c :: r =>
      if c = 'n' then
        if r.take 3 = S "ull" then some (.none, r.drop 3) else Option.none
      else if c = 't' then
        if r.take 3 = S "rue" then some (.bool true, r.drop 3) else Option.none
      else if c = 'f' then
        if r.take 4 = S "alse" then some (.bool false, r.drop 4) else Option.none
      else if c = 'N' then
        if r.take 2 = S "aN" then some (.float .nan, r.drop 2) else Option.none
      else if c = 'I' then
        if r.take 7 = S "nfinity" then some (.float .inf, r.drop 7) else Option.none
      else if c = '-' ∧ r.take 8 = S "Infinity" then
        some (.float .ninf, r.drop 8)
      else if c = '"' then
        match jsonParseStr fuel r with
        | some (str, rest) => some (.str str, rest)
        | Option.none => Option.none
      else if c = '[' then
        match jsonSkipWs r with
        | ']' :: rest => some (.list [], rest)
        | _ => jsonParseArr fuel r []
      else if c = '{' then
        match jsonSkipWs r with
        | '}' :: rest => some (.dict [], rest)
        | _ => jsonParseObj fuel r []
      else if c = '-' ∨ c.isDigit then
        jsonParseNum t
      else Option.none
  termination_by structural fuel => fuel
/-- Array elements (after `[` or `,`), accumulating in order. -/
def jsonParseArr : Nat → Str → List PyVal → Option (PyVal × Str)
  | 0, _, _ => Option.none
  | fuel + 1, s, acc =>
    match jsonParseVal fuel s with
    | Option.none => Option.none
    | some (v, rest) =>
      match jsonSkipWs rest with
      | ',' :: r2 => jsonParseArr fuel r2 (acc ++ [v])
      | ']' :: r2 => some (.list (acc ++ [v]), r2)
      | _ => Option.none
  termination_by structural fuel => fuel
/-- Object members (after `{` or `,`); duplicate keys keep the last value. -/
def jsonParseObj : Nat → Str → List (Str × PyVal) → Option (PyVal × Str)
  | 0, _, _ => Option.none
  | fuel + 1, s, acc =>
    match jsonSkipWs s with
    | '"' :: r =>
      match jsonParseStr fuel r with
      | Option.none => Option.none
      | some (key, rest) =>
        match jsonSkipWs rest with
        | ':' :: r2 =>
          match jsonParseVal fuel r2 with
          | Option.none => Option.none
          | some (v, rest2) =>
            let acc2 := dSet acc key v
            match jsonSkipWs rest2 with
            | ',' :: r3 => jsonParseObj fuel r3 acc2
            | '}' :: r3 => some (.dict acc2, r3)
            | _ => Option.none
        | _ => Option.none
    | _ => Option.none
  termination_by structural fuel => fuel
end

/-- `json.loads`: parse one value and require only whitespace after it. -/
def pyJsonLoads (s : Str) : Option PyVal :=
  match jsonParseVal (s.length + 1) s with
  | some (v, rest) => if jsonSkipWs rest = [] then some v else Option.none
  | Option.none => Option.none

/-! ## `pipe_resolve.py`: lookup table, upsert, and the rewrite pass -/

/-- A row of the `civitai_model_versions` table. -/
structure MVRow where
  model_version_id : Int
  kind : Option Str := Option.none
  name : Option Str := Option.none
  urn : Option Str := Option.none
  sha256 : Option Str := Option.none
  extra_json : Option Str := Option.none
  deriving DecidableEq, Repr

/-- `SELECT ... WHERE model_version_id=?` (primary-key lookup). -/
def mvLookup (table : List MVRow) (mvid : Int) : Option MVRow :=
  table.find? (fun r => r.model_version_id = mvid)

/-- `upsert_mv` from `pipe_resolve.py`: the `INSERT ... ON CONFLICT
(model_version_id) DO UPDATE SET col=COALESCE(excluded.col, existing.col)`
statement, with `extra_json` bound to `json.dumps(extra)` when `extra` is
not `None`.  The table is a list in insertion order; a conflicting row is
updated in place. -/
def upsert_mv (table : List MVRow) (mvid : Int) (kind name urn sha : Option Str)
    (extra : Option (List (Str × PyVal))) : List MVRow :=
  let extra_json := extra.map (fun d => pyJsonDumps (.dict d))
  if table.any (fun r => r.model_version_id = mvid) then
    table.map (fun r =>
      if r.model_version_id = mvid then
        { model_version_id := mvid
          kind := kind.orElse (fun _ => r.kind)
          name := name.orElse (fun _ => r.name)
          urn := urn.orElse (fun _ => r.urn)
          sha256 := sha.orElse (fun _ => r.sha256)
          extra_json := extra_json.orElse (fun _ => r.extra_json) }
      else r)
  else
    table ++ [⟨mvid, kind, name, urn, sha, extra_json⟩]

/-- A row of the `resources` table as the rewrite pass reads it. -/
structure ResRow where
  image_id : Option Str := Option.none
  kind : Option Str := Option.none
  name : Option Str := Option.none
  hash : Option Str := Option.none
  extra_json : Option Str := Option.none
  weight : Option ℚ := Option.none
  deriving DecidableEq, Repr

/-- `merge_extra_json` from `pipe_resolve.py`.  The existing TEXT value is
parsed when truthy (parse failure keeps it under `_raw_extra_json`;
a non-dict parse is discarded); patch keys are merged non-destructively,
accumulating genuinely-colliding values into a list.  Python's `==` on
parsed JSON values is modelled by structural equality (cross-type numeric
equality such as `1 == 1.0` is not modelled; the trace values compared here
are same-typed). -/
def merge_extra_json (existing : Option Str) (patch : List (Str × PyVal)) : Str :=
  let base : List (Str × PyVal) :=
    match existing with
    | some s =>
      if s ≠ [] then
        match pyJsonLoads s with
        | some (.dict d) => d
        | some _ => []
        | Option.none => [(S "_raw_extra_json", .str s)]
      else []
    | Option.none => []
  let merged := patch.foldl (fun b kv =>
    match dGet b kv.1 with
    | Option.none => dSet b kv.1 kv.2
    | some old =>
      if old = kv.2 then b
      else
        match old with
        | .list xs =>
          if xs.any (fun x => x = kv.2) then b
          else dSet b kv.1 (.list (xs ++ [kv.2]))
        | _ => dSet b kv.1 (.list [old, kv.2])) base
  pyJsonDumps (.dict merged)

/-- `RE_MVID` (`^modelVersionId:(\d+)$`, case-insensitive) applied to the
stripped name, returning the captured integer. -/
def parseMvidRef (name : Str) : Option Nat :=
  let t := pyStrip name
  if isPrefixCI (S "modelversionid:") t then
    let rest := t.drop (S "modelversionid:").length
    if rest ≠ [] ∧ rest.all Char.isDigit then some (digitsToNat rest)
    else Option.none
  else Option.none

/-- Python `a or b` for optional TEXT columns (`""` counts as falsy). -/
def orFalsyStr (a b : Option Str) : Option Str :=
  match a with
  | some s => if s ≠ [] then some s else b
  | Option.none => b

/-- Python `a or d` yielding a plain string default. -/
def pyOrStr (a : Option Str) (d : Str) : Str :=
  match a with
  | some s => if s ≠ [] then s else d
  | Option.none => d

def optStrVal : Option Str → PyVal
  | some s => .str s
  | Option.none => .none

/-- The `SELECT` filter of `rewrite_resources`:
`kind='resource_ref' AND name LIKE 'modelVersionId:%'` (SQLite `LIKE` is
ASCII case-insensitive; `=` is exact). -/
def resSelected (r : ResRow) : Bool :=
  r.kind = some (S "resource_ref")
    && (match r.name with
        | some n => isPrefixCI (S "modelversionid:") n
        | Option.none => false)

/-- `RE_MVID.match((r["name"] or "").strip())`. -/
def rowMvidRef (r : ResRow) : Option Nat :=
  match r.name with
  | some n => parseMvidRef n
  | Option.none => parseMvidRef []

/-- One row of the rewrite pass of `rewrite_resources`: a selected
`resource_ref` row whose name parses and whose id is in the lookup table is
overwritten (kind, name, hash, extra_json); anything else is returned
unchanged.  (`name = r["name"] or ""` makes a `NULL` name unparseable.) -/
def rewriteRow (mvTable : List MVRow) (r : ResRow) : ResRow :=
  if resSelected r then
    match rowMvidRef r with
    | Option.none => r
    | some mvid =>
      match mvLookup mvTable (mvid : Int) with
      | Option.none => r
      | some mv =>
        { r with
          kind := some (pyOrStr mv.kind (S "unknown"))
          name := some (pyOrStr mv.urn
            (pyOrStr mv.name (S "modelVersionId:" ++ PyVal.intRepr (mvid : Int))))
          hash := orFalsyStr mv.sha256 r.hash
          extra_json := some (merge_extra_json r.extra_json
            [(S "resource_ref", .dict
              [ (S "original_kind", optStrVal r.kind)
              , (S "original_name", optStrVal r.name)
              , (S "original_hash", optStrVal r.hash)
              , (S "model_version_id", .int (mvid : Int)) ])]) }
  else r

/-- `rewrite_resources` from `pipe_resolve.py`.  The source fetches the
selected rows first and then issues one `UPDATE ... WHERE rowid=?` per
resolved row; since each update is keyed by that row's unique rowid and
depends only on the row itself and the lookup table, the pass is the
per-row map of `rewriteRow` over the table (the printed
`(scanned, rewritten)` counters are not modelled). -/
def rewrite_resources (mvTable : List MVRow) (resources : List ResRow) :
    List ResRow :=
  resources.map (rewriteRow mvTable)

/-- The tail-marker substrings as the specification lists them
(lowercase; containment is checked case-insensitively). -/
def claimTailMarkers : List Str :=
  [ S "steps:", S "sampler:", S "cfg scale:", S "seed:", S "size:"
  , S "model hash:", S "model:", S "denoising strength:", S "hires"
  , S "clip skip:", S "created date:", S "civitai resources:"
  , S "civitai metadata:", S "hashes:" ]

/-! ## ComfyUI extractor (`ingest.py`): node iteration and the KSampler
widget heuristic -/

/-- `needle in hay` — Python substring containment. -/
def strContains (hay needle : Str) : Bool :=
  (List.range (hay.length + 1)).any (fun i => needle.isPrefixOf (hay.drop i))

/-- `_looks_like_sampler` from `simage/core/ingest.py`. -/
def looks_like_sampler (s : Str) : Bool :=
  [ S "euler", S "dpm", S "ddim", S "heun", S "lms", S "uni", S "plms"
  , S "ancestral" ].any (fun t => strContains (lowerStr s) t)

/-- The key set of `SCHEDULER_MAP` in `simage/core/ingest.py` (only
membership of the lowercased widget string is tested). -/
def schedulerKeys : List Str :=
  [ S "karras", S "exponential", S "normal", S "simple", S "ddim"
  , S "sgm uniform", S "sgm_uniform" ]

/-- `v.lower() in SCHEDULER_MAP`. -/
def isSchedulerKey (s : Str) : Bool :=
  schedulerKeys.contains (lowerStr s)

/-- The `out` dict built by `parse_ksampler_widgets` (its five possible
keys as optional fields; a key is "in `out`" iff the field is `some`). -/
structure KOut where
  sampler : Option Str := Option.none
  scheduler : Option Str := Option.none
  seed : Option Int := Option.none
  steps : Option Int := Option.none
  cfg_scale : Option PyFloat := Option.none
  deriving DecidableEq, Repr

/-- String pass of `parse_ksampler_widgets`: a string that looks like a
sampler fills `sampler` if unset, and (independently) a string whose
lowercase form is a `SCHEDULER_MAP` key fills `scheduler` if unset.  The
source's two sequential `if`s touch distinct keys, so they are written
field-wise. -/
def kstep1 (o : KOut) (v : PyVal) : KOut :=
  match v with
  | .str s =>
    { o with
      sampler := if looks_like_sampler s && o.sampler.isNone
        then some s else o.sampler
      scheduler := if isSchedulerKey s && o.scheduler.isNone
        then some s else o.scheduler }
  | _ => o

/-- Seed classification: an int `>= 10000`. -/
def seedPred (i : Int) : Bool := decide (10000 ≤ i)

/-- Steps classification: an int in `[1, 200]`. -/
def stepsPred (i : Int) : Bool := decide (1 ≤ i) && decide (i ≤ 200)

/-- Integer pass of `parse_ksampler_widgets`: an `_to_int`-coercible value
`>= 10000` fills `seed` if unset (then `continue`); otherwise a value in
`[1, 200]` fills `steps` if unset. -/
def kstep2 (o : KOut) (v : PyVal) : KOut :=
  match to_int' v with
  | Option.none => o
  | some i =>
    if seedPred i && o.seed.isNone then { o with seed := some i }
    else if stepsPred i && o.steps.isNone then { o with steps := some i }
    else o

/-- Float pass of `parse_ksampler_widgets`: an `_to_float`-coercible value
in `[0.1, 30]` fills `cfg_scale` if unset, unless its `int()` truncation
equals the assigned `steps` or `seed` (`out.get("steps") == int(f)` in the
source).  A non-finite float never satisfies `0.1 <= f <= 30`, so only
finite values are examined. -/
def kstep3 (o : KOut) (v : PyVal) : KOut :=
  match to_float' v with
  | some (.finite q) =>
    if (PyFloat.ratLeB (mkRat 1 10) q && PyFloat.ratLeB q (mkRat 30 1))
        && o.cfg_scale.isNone then
      if o.steps == some (PyFloat.ratTrunc q)
          || o.seed == some (PyFloat.ratTrunc q) then o
      else { o with cfg_scale := some (.finite q) }
    else o
  | _ => o

/-- `parse_ksampler_widgets` from `simage/core/ingest.py`: three passes
over the flat widget list — strings, then ints, then floats. -/
def parse_ksampler_widgets (values : List PyVal) : KOut :=
  values.foldl kstep3 (values.foldl kstep2 (values.foldl kstep1 {}))

/-- `isinstance(v, bool)`. -/
def PyVal.isBool : PyVal → Bool
  | .bool _ => true
  | _ => false

/-! ### Spec-side restatement of the widget heuristic (amended C5) -/

/-- First-`some` choice (`a if a is not None else b`). -/
def optOr {α : Type} (a b : Option α) : Option α :=
  match a with
  | some x => some x
  | Option.none => b

/-- The string widget entries, in order. -/
def strValsOf (values : List PyVal) : List Str :=
  values.filterMap (fun v => match v with
    | .str s => some s
    | _ => Option.none)

/-- The `_to_int`-coercible widget entries, in order. -/
def intValsOf (values : List PyVal) : List Int :=
  values.filterMap to_int'

/-- The `_to_float`-coercible finite widget entries, in order. -/
def finFloatsOf (values : List PyVal) : List ℚ :=
  values.filterMap (fun v => match to_float' v with
    | some (.finite q) => some q
    | _ => Option.none)

/-- Cfg classification against fixed final `steps`/`seed`: a finite float
in `[0.1, 30]` whose truncation equals neither. -/
def cfgPred (st sd : Option Int) (q : ℚ) : Bool :=
  (PyFloat.ratLeB (mkRat 1 10) q && PyFloat.ratLeB q (mkRat 30 1))
  && !(st == some (PyFloat.ratTrunc q)) && !(sd == some (PyFloat.ratTrunc q))

/-- Declarative form of the widget heuristic, following the (amended)
specification text: each field is the **first** entry of its kind that
passes its classification test; `cfg_scale` additionally requires that the
truncated value differ from the already-assigned `steps` and `seed`. -/
def kwidgetSpec (values : List PyVal) : KOut :=
  let seed := (intValsOf values).find? seedPred
  let steps := (intValsOf values).find? stepsPred
  { sampler := (strValsOf values).find? looks_like_sampler
    scheduler := (strValsOf values).find? isSchedulerKey
    seed := seed
    steps := steps
    cfg_scale := ((finFloatsOf values).find? (cfgPred steps seed)).map PyFloat.finite }

/-! ### `iter_node_dicts` and `extract_comfyui_params` -/

mutual

/-- Tree depth of a value (fuel bound for `iter_node_dicts`). -/
def pyDepth : PyVal → Nat
  | .list xs => pyDepthList xs + 1
  | .dict xs => pyDepthEntries xs + 1
  | _ => 1
termination_by structural a => a

def pyDepthList : List PyVal → Nat
  | [] => 0
  | x :: xs => max (pyDepth x) (pyDepthList xs)
termination_by structural a => a

def pyDepthEntries : List (Str × PyVal) → Nat
  | [] => 0
  | e :: xs => max (pyDepth e.2) (pyDepthEntries xs)
termination_by structural a => a

end

/-- The dict items of a list (`yield item` for each dict element). -/
def dictItems (items : List PyVal) : List (List (Str × PyVal)) :=
  items.filterMap (fun v => match v with
    | .dict d => some d
    | _ => Option.none)

/-- Fuelled `iter_node_dicts` from `simage/core/ingest.py`, in source
order: the `prompt`/`workflow`/`graph` containers (recursively), then the
`nodes` value (recursively if a dict, its dict items if a list), then
every dict value carrying a `class_type`/`inputs`/`type` key.  Each
recursive call descends to a strictly shallower value, so fuel
`pyDepth w` is always sufficient. -/
def iterNodeDictsF : Nat → PyVal → List (List (Str × PyVal))
  | 0, _ => []
  | fuel + 1, w =>
    match w with
    | .dict entries =>
      ([S "prompt", S "workflow", S "graph"].foldr (fun k acc =>
          (match dGet entries k with
           | some v => iterNodeDictsF fuel v
           | Option.none => []) ++ acc) [])
      ++ (match dGet entries (S "nodes") with
          | some (.dict nds) => iterNodeDictsF fuel (.dict nds)
          | some (.list items) => dictItems items
          | _ => [])
      ++ entries.filterMap (fun e => match e.2 with
          | .dict d =>
            if dMem d (S "class_type") || dMem d (S "inputs") || dMem d (S "type")
              then some d else Option.none
          | _ => Option.none)
    | .list items => dictItems items
    | _ => []

/-- `iter_node_dicts`, with enough fuel for the whole tree. -/
def iter_node_dicts (w : PyVal) : List (List (Str × PyVal)) :=
  iterNodeDictsF (pyDepth w) w

/-- `d.get(k)` read as a value (`None` when the key is absent). -/
def pyGet (d : List (Str × PyVal)) (k : Str) : PyVal :=
  (dGet d k).getD .none

/-- Python `a or b` on values (falsy chain). -/
def pyOrV (a b : PyVal) : PyVal :=
  if PyVal.truthy a then a else b

/-- `isinstance(v, str) and v.strip()` guard: the stripped string when it
is a non-empty string, else `None`. -/
def stripSome (v : PyVal) : Option Str :=
  match v with
  | .str s => if pyStrip s = [] then Option.none else some (pyStrip s)
  | _ => Option.none

/-- The dict returned by `extract_comfyui_params`. -/
structure CParams where
  model : Option Str := Option.none
  sampler : Option Str := Option.none
  scheduler : Option Str := Option.none
  seed : Option Int := Option.none
  steps : Option Int := Option.none
  cfg_scale : Option PyFloat := Option.none
  deriving DecidableEq, Repr

/-- `node.get("inputs") if isinstance(node.get("inputs"), dict) else {}`. -/
def inputsOf (node : List (Str × PyVal)) : List (Str × PyVal) :=
  match dGet node (S "inputs") with
  | some (.dict d) => d
  | _ => []

/-- The `params` dict built from a KSampler node's named `inputs` (each
key present exactly when its guard in the source passes). -/
def kparamsOfInputs (inputs : List (Str × PyVal)) : KOut :=
  { seed := to_int' (pyGet inputs (S "seed"))
    steps := to_int' (pyGet inputs (S "steps"))
    cfg_scale := to_float' (pyOrV (pyGet inputs (S "cfg")) (pyGet inputs (S "cfg_scale")))
    sampler := stripSome (pyOrV (pyGet inputs (S "sampler_name")) (pyGet inputs (S "sampler")))
    scheduler := stripSome (pyGet inputs (S "scheduler")) }

/-- Merge widget-derived params under the named-input params: a widget
value is adopted only for a key the inputs did not set (the source's
values are never `None`/`""`, so `k not in params or params.get(k) in
(None, "")` is exactly "unset"). -/
def mergeKW (p w : KOut) : KOut :=
  { sampler := optOr p.sampler w.sampler
    scheduler := optOr p.scheduler w.scheduler
    seed := optOr p.seed w.seed
    steps := optOr p.steps w.steps
    cfg_scale := optOr p.cfg_scale w.cfg_scale }

/-- One node of `extract_comfyui_params`: checkpoint-loader nodes fill
`model` if unset; KSampler nodes build `params` from named inputs, fill
the gaps from `widgets_values`, and then fill each still-unset output
field. -/
def cnodeStep (out : CParams) (node : List (Str × PyVal)) : CParams :=
  let ct := lowerStr (PyVal.strOf (pyOrV (pyGet node (S "class_type"))
      (pyOrV (pyGet node (S "type")) (.str []))))
  let inputs := inputsOf node
  let out :=
    if (strContains ct (S "checkpoint")
        && (strContains ct (S "loader") || strContains ct (S "load")))
        && out.model.isNone then
      match stripSome (pyOrV (pyGet inputs (S "ckpt_name"))
          (pyOrV (pyGet inputs (S "model_name")) (pyGet inputs (S "checkpoint")))) with
      | some m => { out with model := some m }
      | Option.none => out
    else out
  if strContains ct (S "ksampler") then
    let params := kparamsOfInputs inputs
    let params := match dGet node (S "widgets_values") with
      | some (.list ws) => mergeKW params (parse_ksampler_widgets ws)
      | _ => params
    { out with
      sampler := optOr out.sampler params.sampler
      scheduler := optOr out.scheduler params.scheduler
      seed := optOr out.seed params.seed
      steps := optOr out.steps params.steps
      cfg_scale := optOr out.cfg_scale params.cfg_scale }
  else out

/-- `extract_comfyui_params` from `simage/core/ingest.py`. -/
def extract_comfyui_params (w : PyVal) : CParams :=
  (iter_node_dicts w).foldl cnodeStep {}

/-- The node graph of the C5 example: a `CheckpointLoaderSimple` with
`ckpt_name="model.safetensors"` and a `KSamplerAdvanced` with
`widgets_values=[True, 123456789, "randomize", 20, 7, "euler", "simple"]`. -/
def C5graph : PyVal :=
  .dict
    [ (S "1", .dict
        [ (S "class_type", .str (S "CheckpointLoaderSimple"))
        , (S "inputs", .dict [(S "ckpt_name", .str (S "model.safetensors"))]) ])
    , (S "2", .dict
        [ (S "class_type", .str (S "KSamplerAdvanced"))
        , (S "inputs", .dict [])
        , (S "widgets_values", .list
            [ .bool true, .int 123456789, .str (S "randomize"), .int 20
            , .int 7, .str (S "euler"), .str (S "simple") ]) ]) ]

/-! ## Prompt tokenization (`ingest.py`): `split_tokens_top_level`,
`parse_weighted_token`, `token_norm`, `tokenize_prompt` -/

mutual

/-- `re.sub(r"\s+", " ", t)` — a whitespace run becomes one space. -/
def collapseWs : Str → Str
  | [] => []
  | c :: t => if isSpaceCh c then ' ' :: skipWs t else c :: collapseWs t

def skipWs : Str → Str
  | [] => []
  | c :: t => if isSpaceCh c then skipWs t else c :: collapseWs t

end

/-- `token_norm` from `simage/core/ingest.py`:
`t.strip().lower()` then whitespace-run collapse. -/
def token_norm (t : Str) : Str :=
  collapseWs (lowerStr (pyStrip t))

/-- `s.replace("\n", ",")`. -/
def nlToComma (s : Str) : Str :=
  s.map (fun c => if c = '\n' then ',' else c)

/-- Fuelled left-to-right `re.sub(r"\bBREAK\b", ",", s, flags=IGNORECASE)`:
`prevWord` records whether the previously consumed character is a word
character (`\b` fires when word-ness flips; `B` and `K` are word
characters, so the boundaries require a non-word neighbour or the string
edge on each side).  Each replacement consumes five characters, so fuel
`s.length` suffices. -/
def breakSubF : Nat → Bool → Str → Str
  | 0, _, s => s
  | fuel + 1, prevWord, s =>
    match s with
    | [] => []
    | c :: rest =>
      if !prevWord && isPrefixCI (S "break") s
          && (match s.drop 5 with
              | [] => true
              | d :: _ => !isWordCh d) then
        ',' :: breakSubF fuel false (rest.drop 4)
      else c :: breakSubF fuel (isWordCh c) rest

def breakSub (s : Str) : Str := breakSubF s.length false s

/-- One character of the bracket-aware comma split: state is
`((out, buf), (paren, bracket, brace))`; depths update first (close
saturates at 0), then a comma at all-zero depth flushes the stripped
buffer. -/
def splitStep (st : (List Str × Str) × (Nat × Nat × Nat)) (ch : Char) :
    (List Str × Str) × (Nat × Nat × Nat) :=
  let out := st.1.1
  let buf := st.1.2
  let dp := if ch = '(' then st.2.1 + 1
    else if ch = ')' then st.2.1 - 1 else st.2.1
  let dk := if ch = '[' then st.2.2.1 + 1
    else if ch = ']' then st.2.2.1 - 1 else st.2.2.1
  let db := if ch = '{' then st.2.2.2 + 1
    else if ch = '}' then st.2.2.2 - 1 else st.2.2.2
  if ch = ',' && dp = 0 && dk = 0 && db = 0 then
    ((if pyStrip buf = [] then out else out ++ [pyStrip buf], []), (dp, dk, db))
  else ((out, buf ++ [ch]), (dp, dk, db))

/-- `split_tokens_top_level` from `simage/core/ingest.py`. -/
def split_tokens_top_level (s : Str) : List Str :=
  let s1 := breakSub (nlToComma (clean_ws s))
  let st := s1.foldl splitStep (([], []), (0, 0, 0))
  let out := match pyStrip st.1.2 with
    | [] => st.1.1
    | tail => st.1.1 ++ [tail]
  (out.filter (fun t => !t.isEmpty && !(pyStrip t).isEmpty)).map pyStrip

/-- `[0-9.]`. -/
def isDigitDot (c : Char) : Bool := c.isDigit || c = '.'

/-- `float(m.group(2))` with the source's `except: w = 1.0` fallback. -/
def weightOf (digits : Str) : PyFloat :=
  match pyParseFloat digits with
  | some f => f
  | Option.none => .finite (mkRat 1 1)

/-- The fixed tail `:\s*([0-9.]+)\)\s*$` of `RE_WEIGHT_PAREN` after a
candidate lazy group: spaces, a maximal digit/dot run (nonempty), `)`,
then only whitespace to the end.  (`)` is outside `[0-9.]` and `\s`, so
the greedy runs cannot backtrack into a different split.) -/
def parenTail (after : Str) : Option PyFloat :=
  let after2 := after.dropWhile isSpaceCh
  let digits := after2.takeWhile isDigitDot
  if digits = [] then Option.none
  else match after2.drop digits.length with
    | ')' :: rest2 =>
      if rest2.all isSpaceCh then some (weightOf digits) else Option.none
    | _ => Option.none

/-- The lazy scan of `RE_WEIGHT_PAREN = ^\((.+?):\s*([0-9.]+)\)\s*$`:
the shortest nonempty group before a `:` whose tail matches wins; `.`
does not match a newline, so a newline in the group aborts. -/
def parenScan : Str → Str → Option (Str × PyFloat)
  | _, [] => Option.none
  | acc, c :: rest =>
    if c = ':' && acc ≠ [] then
      match parenTail rest with
      | some w => some (acc.reverse, w)
      | Option.none =>
        if c = '\n' then Option.none else parenScan (c :: acc) rest
    else if c = '\n' then Option.none
    else parenScan (c :: acc) rest

/-- `RE_WEIGHT_PAREN.match(r)`: `(group1, weight)`. -/
def matchWeightParen (r : Str) : Option (Str × PyFloat) :=
  match r with
  | '(' :: rest => parenScan [] rest
  | _ => Option.none

/-- `RE_WEIGHT_ANGLE = ^<lora:([^:>]+):\s*([0-9.]+)\s*>\s*$`
(case-insensitive on the literal): `(group1, weight)`. -/
def matchWeightAngle (r : Str) : Option (Str × PyFloat) :=
  if isPrefixCI (S "<lora:") r then
    let rest := r.drop 6
    let name := rest.takeWhile (fun c => c ≠ ':' && c ≠ '>')
    if name = [] then Option.none
    else match rest.drop name.length with
      | ':' :: after =>
        let after2 := after.dropWhile isSpaceCh
        let digits := after2.takeWhile isDigitDot
        if digits = [] then Option.none
        else match (after2.drop digits.length).dropWhile isSpaceCh with
          | '>' :: rest2 =>
            if rest2.all isSpaceCh then some (name, weightOf digits)
            else Option.none
          | _ => Option.none
      | _ => Option.none
  else Option.none

/-- `parse_weighted_token` from `simage/core/ingest.py`. -/
def parse_weighted_token (raw : Str) : Str × PyFloat :=
  let r := pyStrip raw
  match matchWeightParen r with
  | some (g1, w) => (pyStrip g1, w)
  | Option.none =>
    match matchWeightAngle r with
    | some (name, w) => (S "lora:" ++ pyStrip name, w)
    | Option.none => (r, .finite (mkRat 1 1))

/-- One `{t, t_norm, w}` record of `tokenize_prompt`. -/
structure Tok where
  t : Str
  t_norm : Str
  w : PyFloat
  deriving DecidableEq, Repr

/-- The body of `tokenize_prompt`'s loop for one raw token: parse the
weight, strip, drop empties and pure `break` tokens. -/
def tokEntry (raw : Str) : Option Tok :=
  let p := parse_weighted_token raw
  let token := pyStrip p.1
  if token = [] then Option.none
  else
    let tn := token_norm token
    if tn = S "break" then Option.none
    else some { t := token, t_norm := tn, w := p.2 }

/-- `dedup[tn] = rec`. -/
def tstep (d : List (Str × Tok)) (e : Tok) : List (Str × Tok) :=
  dSet d e.t_norm e

/-- One loop iteration of `tokenize_prompt`: an accepted record overwrites
its key's binding in place. -/
def tloopStep (d : List (Str × Tok)) (raw : Str) : List (Str × Tok) :=
  match tokEntry raw with
  | some e => tstep d e
  | Option.none => d

/-- `tokenize_prompt` from `simage/core/ingest.py`: the insertion-ordered
dict fold, then `list(dedup.values())`. -/
def tokenize_prompt (s : Str) : List Tok :=
  ((split_tokens_top_level s).foldl tloopStep []).map (·.2)

/-- The accepted token records, in stream order (before deduplication). -/
def tokStream (s : Str) : List Tok :=
  (split_tokens_top_level s).filterMap tokEntry

/-! ## A1111 field regexes and `parse_a1111_parameters` (ingest.py)

Each field regex is `\b<lit>\s*<group>` with an optional trailing `\b`;
`re.search` takes the leftmost start position where the whole pattern
matches.  Greedy classes disjoint from their successor never backtrack;
where backtracking is observable (`\s*` before the `[^,\\n]` class, and a
trailing `\b` after a class that contains non-word characters) it is
modelled exactly: the widest `\s*` is tried first, and the group is the
longest nonempty prefix of the class run whose end forms a word boundary.
Note the source's `r"([^,\\n]+)"` class excludes comma, backslash and the
**letter n/N** (with `re.IGNORECASE`), not the newline. -/

def findMapLeast {α : Type} (f : Nat → Option α) : Nat → Nat → Option α
  | _, 0 => Option.none
  | i, fuel + 1 =>
    match f i with
    | some a => some a
    | Option.none => findMapLeast f (i + 1) fuel

/-- `re.search`: the leftmost position where `f` matches, with its value. -/
def searchWith {α : Type} (f : Nat → Option α) (t : Str) : Option α :=
  findMapLeast f 0 (t.length + 1)

/-- The longest nonempty prefix of `run` whose last character forms a word
boundary with the following character (`run`'s next char, or `next` past
the run): the greedy-with-backtracking group `(<class>+)\b`. -/
def bSplitDown (run : Str) (next : Option Char) : Nat → Option Nat
  | 0 => Option.none
  | l + 1 =>
    let lastC := run.getD l ' '
    let nw := match run.drop (l + 1) with
      | c :: _ => isWordCh c
      | [] => match next with
        | some c => isWordCh c
        | Option.none => false
    if isWordCh lastC ≠ nw then some (l + 1) else bSplitDown run next l

def boundaryPrefix (run : Str) (next : Option Char) : Option Str :=
  (bSplitDown run next run.length).map (fun l => run.take l)

/-- `\b<lit>\s*(\d+)\b` at position `i` (digits are all word characters,
so only the full digit run can close the boundary). -/
def matchIntFieldAt (lit : Str) (t : Str) (i : Nat) : Option Int :=
  if boundaryBefore t i && isPrefixCI lit (t.drop i) then
    let after := (t.drop (i + lit.length)).dropWhile isSpaceCh
    let ds := after.takeWhile Char.isDigit
    if ds = [] then Option.none
    else
      match after.drop ds.length with
      | [] => some (digitsToNat ds : Int)
      | c :: _ =>
        if isWordCh c then Option.none else some (digitsToNat ds : Int)
  else Option.none

def searchIntField (lit : Str) (t : Str) : Option Int :=
  searchWith (matchIntFieldAt lit t) t

/-- `RE_A1111_SIZE = \bSize:\s*(\d+)\s*x\s*(\d+)\b` at position `i`. -/
def matchSizeAt (t : Str) (i : Nat) : Option (Int × Int) :=
  if boundaryBefore t i && isPrefixCI (S "size:") (t.drop i) then
    let a1 := (t.drop (i + 5)).dropWhile isSpaceCh
    let d1 := a1.takeWhile Char.isDigit
    if d1 = [] then Option.none
    else
      match (a1.drop d1.length).dropWhile isSpaceCh with
      | x :: a3 =>
        if lowerCh x = 'x' then
          let a4 := a3.dropWhile isSpaceCh
          let d2 := a4.takeWhile Char.isDigit
          if d2 = [] then Option.none
          else
            match a4.drop d2.length with
            | [] => some ((digitsToNat d1 : Int), (digitsToNat d2 : Int))
            | c :: _ =>
              if isWordCh c then Option.none
              else some ((digitsToNat d1 : Int), (digitsToNat d2 : Int))
        else Option.none
      | [] => Option.none
  else Option.none

def searchSize (t : Str) : Option (Int × Int) :=
  searchWith (matchSizeAt t) t

/-- `RE_A1111_CFG = \bCFG\s*scale:\s*([0-9.]+)\b` at position `i`:
returns the raw captured group (its `float()` happens at the caller and
can raise). -/
def matchCfgAt (t : Str) (i : Nat) : Option Str :=
  if boundaryBefore t i && isPrefixCI (S "cfg") (t.drop i) then
    let r1 := (t.drop (i + 3)).dropWhile isSpaceCh
    if isPrefixCI (S "scale:") r1 then
      let after := (r1.drop 6).dropWhile isSpaceCh
      let run := after.takeWhile isDigitDot
      let nxt := match after.drop run.length with
        | c :: _ => some c
        | [] => Option.none
      boundaryPrefix run nxt
    else Option.none
  else Option.none

def searchCfgGroup (t : Str) : Option Str :=
  searchWith (matchCfgAt t) t

/-- The `[^,\\n]` class of the sampler/scheduler/model regexes: comma,
backslash and the letter n/N (case-insensitive class) are excluded. -/
def a1111Class (c : Char) : Bool :=
  c ≠ ',' && c ≠ '\\' && c ≠ 'n' && c ≠ 'N'

/-- One `\s*`-width attempt of `\s*([^,\\n]+)\b`. -/
def tailAttempt (rest : Str) (w : Nat) : Option Str :=
  let run := (rest.drop w).takeWhile a1111Class
  let nxt := match (rest.drop w).drop run.length with
    | c :: _ => some c
    | [] => Option.none
  boundaryPrefix run nxt

/-- `\s*` backtracking: widest whitespace first, then narrower. -/
def tailTryW (rest : Str) : Nat → Option Str
  | 0 => tailAttempt rest 0
  | w + 1 =>
    match tailAttempt rest (w + 1) with
    | some g => some g
    | Option.none => tailTryW rest w

/-- `\b<lit>\s*([^,\\n]+)\b` at position `i`. -/
def matchTailFieldAt (lit : Str) (t : Str) (i : Nat) : Option Str :=
  if boundaryBefore t i && isPrefixCI lit (t.drop i) then
    let rest := t.drop (i + lit.length)
    tailTryW rest (rest.takeWhile isSpaceCh).length
  else Option.none

def searchTailField (lit : Str) (t : Str) : Option Str :=
  searchWith (matchTailFieldAt lit t) t

/-- The dict built by `parse_a1111_parameters` (typed fields; a key is in
the dict iff the field is `some`; `raw_text` and `format_hint` are always
set). -/
structure A1Rec where
  prompt : Option Str := Option.none
  negative_prompt : Option Str := Option.none
  width : Option Int := Option.none
  height : Option Int := Option.none
  steps : Option Int := Option.none
  cfg_scale : Option PyFloat := Option.none
  seed : Option Int := Option.none
  sampler : Option Str := Option.none
  scheduler : Option Str := Option.none
  model : Option Str := Option.none
  raw_text : Str := []
  deriving DecidableEq, Repr

/-- `some` for a nonempty string, else `none` (`if pos: out[...] = pos`). -/
def someIfNonempty (s : Str) : Option Str :=
  if s = [] then Option.none else some s

/-- `parse_a1111_parameters` from `simage/core/ingest.py`.  The only
raising spot is `float(m.group(1))` on the CFG group (`[0-9.]+` accepts
strings such as `1.2.3` that `float()` rejects); everything else is
guarded. -/
def parse_a1111_parameters (text : Str) : Except Str A1Rec :=
  let t := clean_ws text
  let pn : Option Str × Option Str :=
    match firstNegIdx t with
    | some i =>
      (someIfNonempty (pyStrip (t.take i)),
       someIfNonempty (cut_at_tail_markers (pyStrip (t.drop (i + negLit.length)))))
    | Option.none => (someIfNonempty (cut_at_tail_markers t), Option.none)
  let base : A1Rec :=
    { prompt := pn.1
      negative_prompt := pn.2
      width := (searchSize t).map (·.1)
      height := (searchSize t).map (·.2)
      steps := searchIntField (S "steps:") t
      seed := searchIntField (S "seed:") t
      sampler := (searchTailField (S "sampler:") t).map pyStrip
      scheduler := (searchTailField (S "scheduler:") t).map pyStrip
      model := (searchTailField (S "model:") t).map pyStrip
      raw_text := t.take 2000 }
  match searchCfgGroup t with
  | Option.none => .ok base
  | some g =>
    match pyParseFloat g with
    | some f => .ok { base with cfg_scale := some f }
    | Option.none => .error (S "ValueError: could not convert string to float")

/-- `" ".join(parts)`. -/
def joinSpaceParts : List Str → Str
  | [] => []
  | [p] => p
  | p :: rest => p ++ ' ' :: joinSpaceParts rest

/-! ## `parse_comfyui_embedded_json` and `extract_comfyui_prompts`
(ingest.py) -/

mutual

/-- The `walk` generator of `parse_comfyui_embedded_json`: every
`(key, value)` pair of every dict in the tree, parents before children,
in insertion order. -/
def walkPairs : PyVal → List (Str × PyVal)
  | .dict es => walkEntries es
  | .list xs => walkList xs
  | _ => []
termination_by structural a => a

def walkEntries : List (Str × PyVal) → List (Str × PyVal)
  | [] => []
  | e :: rest => (e.1, e.2) :: (walkPairs e.2 ++ walkEntries rest)
termination_by structural a => a

def walkList : List PyVal → List (Str × PyVal)
  | [] => []
  | v :: rest => walkPairs v ++ walkList rest
termination_by structural a => a

end

/-- `isinstance(v, (int, float, str))` — Python booleans are ints. -/
def isNumStrLike : PyVal → Bool
  | .int _ => true
  | .float _ => true
  | .str _ => true
  | .bool _ => true
  | _ => false

/-- The `{str(k).lower(): k for k in x.keys()}` lookup: the **last** key
whose lowercase form is `lk` (later duplicates overwrite). -/
def lookupKeyCI (es : List (Str × PyVal)) (lk : Str) : Option Str :=
  ((es.filter (fun e => lowerStr e.1 = lk)).getLast?).map (·.1)

mutual

/-- `find_prompt_pairs` of `parse_comfyui_embedded_json`: the first dict
(depth-first, insertion order) holding a string `prompt`/`negative_prompt`
(or `negative prompt`) pair, else a string `positive`/`negative` pair. -/
def findPromptPairs : PyVal → Option (Str × Str)
  | .dict es =>
    let try1 : Option (Str × Str) :=
      match lookupKeyCI es (S "prompt"),
          (lookupKeyCI es (S "negative_prompt")).orElse
            (fun _ => lookupKeyCI es (S "negative prompt")) with
      | some kp, some kn =>
        match dGet es kp, dGet es kn with
        | some (.str p), some (.str n) => some (p, n)
        | _, _ => Option.none
      | _, _ => Option.none
    match try1 with
    | some r => some r
    | Option.none =>
      let try2 : Option (Str × Str) :=
        match lookupKeyCI es (S "positive"), lookupKeyCI es (S "negative") with
        | some kp, some kn =>
          match dGet es kp, dGet es kn with
          | some (.str p), some (.str n) => some (p, n)
          | _, _ => Option.none
        | _, _ => Option.none
      match try2 with
      | some r => some r
      | Option.none => findPPEntries es
  | .list xs => findPPList xs
  | _ => Option.none
termination_by structural a => a

def findPPEntries : List (Str × PyVal) → Option (Str × Str)
  | [] => Option.none
  | e :: rest =>
    match findPromptPairs e.2 with
    | some r => some r
    | Option.none => findPPEntries rest
termination_by structural a => a

def findPPList : List PyVal → Option (Str × Str)
  | [] => Option.none
  | v :: rest =>
    match findPromptPairs v with
    | some r => some r
    | Option.none => findPPList rest
termination_by structural a => a

end

/-- The dict built by `parse_comfyui_embedded_json` (`format_hint` is
always `"comfyui_like"`, `workflow_json` always the blob; the six numeric
slots hold the raw walked value; `sampler`/`scheduler`/`model` and filled
numeric gaps come from `extract_comfyui_params`). -/
structure CRec where
  workflow_json : PyVal
  seed : Option PyVal := Option.none
  steps : Option PyVal := Option.none
  cfg : Option PyVal := Option.none
  cfg_scale : Option PyVal := Option.none
  width : Option PyVal := Option.none
  height : Option PyVal := Option.none
  prompt : Option Str := Option.none
  negative_prompt : Option Str := Option.none
  sampler : Option Str := Option.none
  scheduler : Option Str := Option.none
  model : Option Str := Option.none
  deriving DecidableEq, Repr

/-- `rec.get(k) in (None, "")` on an optional slot. -/
def slotUnset : Option PyVal → Bool
  | Option.none => true
  | some v => PyVal.isNoneOrEmptyStr v

/-- One walked pair applied to the numeric slots
(`rec[lk] = v`, overwrite). -/
def cwalkStep (r : CRec) (kv : Str × PyVal) : CRec :=
  let lk := lowerStr kv.1
  if isNumStrLike kv.2 then
    if lk = S "seed" then { r with seed := some kv.2 }
    else if lk = S "steps" then { r with steps := some kv.2 }
    else if lk = S "cfg" then { r with cfg := some kv.2 }
    else if lk = S "cfg_scale" then { r with cfg_scale := some kv.2 }
    else if lk = S "width" then { r with width := some kv.2 }
    else if lk = S "height" then { r with height := some kv.2 }
    else r
  else r

/-- Fill a still-unset slot from `extract_comfyui_params`
(`if v not in (None, "") and rec.get(k) in (None, ""): rec[k] = v`). -/
def slotFill (cur : Option PyVal) (new : Option PyVal) : Option PyVal :=
  match new with
  | some v => if slotUnset cur then some v else cur
  | Option.none => cur

def strFill (cur : Option Str) (new : Option Str) : Option Str :=
  match new with
  | some v => if (cur.map (fun s => decide (s = []))).getD true then some v else cur
  | Option.none => cur

/-- `parse_comfyui_embedded_json` from `simage/core/ingest.py`. -/
def parse_comfyui_embedded_json (blob : PyVal) : Option CRec :=
  match blob with
  | .dict _ | .list _ =>
    let r0 : CRec := { workflow_json := blob }
    let r1 := (walkPairs blob).foldl cwalkStep r0
    let r2 := match findPromptPairs blob with
      | some pr => { r1 with prompt := some pr.1, negative_prompt := some pr.2 }
      | Option.none => r1
    let p := extract_comfyui_params blob
    some { r2 with
      seed := slotFill r2.seed (p.seed.map .int)
      steps := slotFill r2.steps (p.steps.map .int)
      cfg_scale := slotFill r2.cfg_scale (p.cfg_scale.map .float)
      sampler := strFill r2.sampler p.sampler
      scheduler := strFill r2.scheduler p.scheduler
      model := strFill r2.model p.model }
  | _ => Option.none

/-- `_best_prompt_candidate`: clean the nonblank strings, keep the longest
(first maximum wins, as Python `max`). -/
def best_prompt_candidate (values : List Str) : Option Str :=
  match (values.filter (fun v => pyStrip v ≠ [])).map clean_ws with
  | [] => Option.none
  | c :: rest =>
    some (rest.foldl (fun b x => if b.length < x.length then x else b) c)

/-- One node of `extract_comfyui_prompts`: appends the prompt candidates
this node contributes, `(positives, negatives)`. -/
def cpromptNode (acc : List Str × List Str) (node : List (Str × PyVal)) :
    List Str × List Str :=
  let label := lowerStr (joinSpaceParts
    ([dGet node (S "class_type"), dGet node (S "type"),
      dGet node (S "title"), dGet node (S "name")].filterMap (fun o =>
        match o with
        | some v => if PyVal.truthy v then some (PyVal.strOf v) else Option.none
        | Option.none => Option.none)))
  let inputs := inputsOf node
  let acc := inputs.foldl (fun acc kv =>
    match kv.2 with
    | .str v =>
      if pyStrip v = [] then acc
      else
        let key := lowerStr kv.1
        if strContains key (S "negative") then (acc.1, acc.2 ++ [v])
        else if key = S "text" || key = S "prompt" || key = S "positive"
            || strContains key (S "positive") then (acc.1 ++ [v], acc.2)
        else acc
    | _ => acc) acc
  match dGet node (S "widgets_values") with
  | some (.list ws) =>
    let wtext := ws.filterMap (fun v => match v with
      | .str s => if pyStrip s = [] then Option.none else some s
      | _ => Option.none)
    if wtext = [] then acc
    else
      match best_prompt_candidate wtext with
      | Option.none => acc
      | some best =>
        if strContains label (S "negative") then (acc.1, acc.2 ++ [best])
        else if strContains label (S "prompt")
            || strContains label (S "cliptextencode") then (acc.1 ++ [best], acc.2)
        else acc
  | _ => acc

/-- `extract_comfyui_prompts` from `simage/core/ingest.py`. -/
def extract_comfyui_prompts (workflow : PyVal) : Option Str × Option Str :=
  match workflow with
  | .dict _ | .list _ =>
    let acc := (iter_node_dicts workflow).foldl cpromptNode ([], [])
    (best_prompt_candidate acc.1, best_prompt_candidate acc.2)
  | _ => (Option.none, Option.none)

/-! ## `extract_keyed_fields` (ingest.py) -/

def PROMPT_KEY_HINTS : List Str :=
  [S "prompt", S "positive", S "pos_prompt", S "positive_prompt"]

def NEG_PROMPT_KEY_HINTS : List Str :=
  [S "negative prompt", S "negative_prompt", S "neg_prompt", S "negprompt",
   S "negative"]

def MODEL_KEY_HINTS : List Str := [S "model", S "checkpoint", S "ckpt"]

/-- `_key_has_any(lk, hints)`: any hint is a substring. -/
def keyHasAny (lk : Str) (hints : List Str) : Bool :=
  hints.any (fun h => strContains lk h)

/-- `_is_camera_model_key`: `exif:model`, `ifd0:model`, `quicktime:model`
(prefix before the first colon). -/
def isCameraModelKey (lk : Str) : Bool :=
  if isPrefixCI (S ":model") (lk.drop (lk.length - 6)) && 6 ≤ lk.length then
    let prefixPart := lk.takeWhile (fun c => c ≠ ':')
    prefixPart = S "exif" || prefixPart = S "ifd0" || prefixPart = S "quicktime"
  else false

/-- The dict built by `extract_keyed_fields` (`prompt`/`negative_prompt`
are chosen at the end from the candidate pools). -/
structure KFRec where
  model : Option Str := Option.none
  sampler : Option Str := Option.none
  scheduler : Option Str := Option.none
  steps : Option Int := Option.none
  cfg_scale : Option PyFloat := Option.none
  seed : Option Int := Option.none
  width : Option Int := Option.none
  height : Option Int := Option.none
  prompt : Option Str := Option.none
  negative_prompt : Option Str := Option.none
  deriving DecidableEq, Repr

/-- `int(v)` on a Python number (`bool` included): truncation; raises on
`nan`/`inf`. -/
def pyIntOfNum : PyVal → Except Str Int
  | .bool b => .ok (if b then 1 else 0)
  | .int n => .ok n
  | .float (.finite q) => .ok (PyFloat.ratTrunc q)
  | .float _ => .error (S "ValueError: cannot convert float NaN to integer")
  | _ => .error (S "TypeError")

/-- `float(v)` on a Python number. -/
def pyFloatOfNum : PyVal → PyFloat
  | .bool b => .finite (if b then mkRat 1 1 else mkRat 0 1)
  | .int n => .finite (mkRat n 1)
  | .float f => f
  | _ => .nan

/-- One item of the `extract_keyed_fields` loop; state is
`(out, pos_candidates, neg_candidates)`.  The string branch is an
if/`continue` chain; the numeric branch is a sequence of independent
`if`s whose `int(v)` can raise. -/
def ekfStep (st : KFRec × List Str × List Str) (k : Str) (v : PyVal) :
    Except Str (KFRec × List Str × List Str) :=
  let out := st.1
  let pos := st.2.1
  let neg := st.2.2
  if PyVal.isNoneOrEmptyStr v then .ok st
  else
    let lk := lowerStr k
    if strContains lk (S "workflow") then .ok st
    else
      match v with
      | .str sv =>
        if keyHasAny lk NEG_PROMPT_KEY_HINTS && strContains lk (S "prompt") then
          .ok (out, pos, neg ++ [sv])
        else if keyHasAny lk PROMPT_KEY_HINTS then
          .ok (out, pos ++ [sv], neg)
        else if keyHasAny lk MODEL_KEY_HINTS && !isCameraModelKey lk then
          .ok (if out.model.isNone then { out with model := some (clean_ws sv) }
               else out, pos, neg)
        else if keyHasAny lk [S "sampler"] && out.sampler.isNone then
          .ok ({ out with sampler := some (clean_ws sv) }, pos, neg)
        else if keyHasAny lk [S "scheduler"] && out.scheduler.isNone then
          .ok ({ out with scheduler := some (clean_ws sv) }, pos, neg)
        else if keyHasAny lk [S "steps"] && out.steps.isNone then
          .ok (match to_int' (.str sv) with
            | some n => ({ out with steps := some n }, pos, neg)
            | Option.none => (out, pos, neg))
        else if keyHasAny lk [S "cfg scale", S "cfg_scale", S "cfgscale", S "cfg"]
            && out.cfg_scale.isNone then
          .ok (if strContains lk (S "config") then (out, pos, neg)
            else match to_float' (.str sv) with
              | some f => ({ out with cfg_scale := some f }, pos, neg)
              | Option.none => (out, pos, neg))
        else if keyHasAny lk [S "seed"] && out.seed.isNone then
          .ok (match to_int' (.str sv) with
            | some n => ({ out with seed := some n }, pos, neg)
            | Option.none => (out, pos, neg))
        else if keyHasAny lk [S "width"] && out.width.isNone then
          .ok (match to_int' (.str sv) with
            | some n => ({ out with width := some n }, pos, neg)
            | Option.none => (out, pos, neg))
        else if keyHasAny lk [S "height"] && out.height.isNone then
          .ok (match to_int' (.str sv) with
            | some n => ({ out with height := some n }, pos, neg)
            | Option.none => (out, pos, neg))
        else .ok st
      | .int _ | .float _ | .bool _ =>
        let step1 : Except Str KFRec :=
          if keyHasAny lk [S "steps"] && out.steps.isNone then
            (pyIntOfNum v).map (fun n => { out with steps := some n })
          else .ok out
        match step1 with
        | .error e => .error e
        | .ok out =>
          let step2 : Except Str KFRec :=
            if keyHasAny lk [S "seed"] && out.seed.isNone then
              (pyIntOfNum v).map (fun n => { out with seed := some n })
            else .ok out
          match step2 with
          | .error e => .error e
          | .ok out =>
            let step3 : Except Str KFRec :=
              if keyHasAny lk [S "width"] && out.width.isNone then
                (pyIntOfNum v).map (fun n => { out with width := some n })
              else .ok out
            match step3 with
            | .error e => .error e
            | .ok out =>
              let step4 : Except Str KFRec :=
                if keyHasAny lk [S "height"] && out.height.isNone then
                  (pyIntOfNum v).map (fun n => { out with height := some n })
                else .ok out
              match step4 with
              | .error e => .error e
              | .ok out =>
                let out :=
                  if (keyHasAny lk [S "cfg scale", S "cfg_scale", S "cfgscale",
                        S "cfg"]) && out.cfg_scale.isNone then
                    if strContains lk (S "config") then out
                    else { out with cfg_scale := some (pyFloatOfNum v) }
                  else out
                .ok (out, pos, neg)
      | _ => .ok st

def ekfLoop : List (Str × PyVal) → (KFRec × List Str × List Str) →
    Except Str (KFRec × List Str × List Str)
  | [], st => .ok st
  | e :: rest, st =>
    match ekfStep st e.1 e.2 with
    | .ok st2 => ekfLoop rest st2
    | .error err => .error err

/-- `extract_keyed_fields` from `simage/core/ingest.py`. -/
def extract_keyed_fields (exif : List (Str × PyVal)) : Except Str KFRec :=
  match ekfLoop exif ({}, [], []) with
  | .error e => .error e
  | .ok (out, pos, neg) =>
    let out := match best_prompt_candidate pos with
      | some p => { out with prompt := some p }
      | Option.none => out
    let out := match best_prompt_candidate neg with
      | some n => { out with negative_prompt := some n }
      | Option.none => out
    .ok out

/-! ## `normalize_record` (ingest.py)

The environment-dependent fields of the source record — `id`
(uuid/stable-id), `source_file`/`file_name`/`ext` (path handling),
`imported_utc` (clock), `sha256` (filesystem), `created_utc` (always
`None`) and `resources` (always `[]`) — are not modelled: none of them
reads the EXIF generation metadata, and none interacts with the field
precedence under study.  Everything else follows the source line by
line. -/

def TEXT_CANDIDATE_KEYS : List Str :=
  [ S "PNG:Parameters", S "PNG:Comment", S "PNG:Description", S "PNG:Prompt"
  , S "PNG:Workflow", S "PNG:Software", S "PNG:Title", S "PNG:TextualData"
  , S "PNG:RawProfileType", S "PNG:RawProfileData", S "XMP:Description"
  , S "XMP:Subject", S "XMP:CreatorTool", S "EXIF:UserComment"
  , S "ExifIFD:UserComment", S "EXIF:ImageDescription", S "EXIF:Software"
  , S "IPTC:Caption-Abstract", S "IPTC:Keywords", S "EXIF:DocumentName"
  , S "IFD0:ImageDescription", S "IFD0:Software" ]

def aiMarkers : List Str :=
  [ S "steps:", S "sampler:", S "cfg scale:", S "negative prompt:"
  , S "comfyui", S "workflow", S "seed:" ]

/-- `extract_candidate_blobs` from `simage/core/ingest.py`. -/
def extract_candidate_blobs (exif : List (Str × PyVal)) : List (Str × Str) :=
  let first := TEXT_CANDIDATE_KEYS.filterMap (fun k =>
    match dGet exif k with
    | some (.str v) => if pyStrip v = [] then Option.none else some (k, v)
    | _ => Option.none)
  let second := exif.filterMap (fun e =>
    match e.2 with
    | .str v =>
      let st := pyStrip v
      if st.length < 30 then Option.none
      else if aiMarkers.any (fun m => strContains (lowerStr st) m) then
        some (e.1, v)
      else Option.none
    | _ => Option.none)
  dedupKeepFirst (first ++ second)

/-- `is_probably_json` from `simage/core/ingest.py`. -/
def is_probably_json (s : Str) : Bool :=
  let t := pyStrip s
  (match t with
   | '\x7b' :: _ => t.getLast? = some '\x7d'
   | '[' :: _ => t.getLast? = some ']'
   | _ => false)

def A1111_MARKERS : List Str :=
  [ S "steps:", S "sampler:", S "cfg scale:", S "seed:", S "size:"
  , S "model hash:", S "model:", S "denoising strength:", S "clip skip:"
  , S "hires", S "lora:", S "<lora:" ]

/-- `looks_like_a1111_text` from `simage/core/ingest.py`. -/
def looks_like_a1111_text (s : Str) : Bool :=
  let low := lowerStr s
  A1111_MARKERS.any (fun m => strContains low m) || strContains low negLit

/-- `first_present` from `simage/core/ingest.py`. -/
def first_present (d : List (Str × PyVal)) : List Str → Option PyVal
  | [] => Option.none
  | k :: ks =>
    match dGet d k with
    | some v => if PyVal.isNoneOrEmptyStr v then first_present d ks else some v
    | Option.none => first_present d ks

def dimWidthKeys : List Str :=
  [S "File:ImageWidth", S "EXIF:ImageWidth", S "PNG:ImageWidth",
   S "QuickTime:ImageWidth"]

def dimHeightKeys : List Str :=
  [S "File:ImageHeight", S "EXIF:ImageHeight", S "PNG:ImageHeight",
   S "QuickTime:ImageHeight"]

/-- `int(width) if isinstance(width, (int, float, str)) and
str(width).isdigit() else None` — `str.isdigit` accepts characters
(superscript digits) that `int()` then rejects, so this can raise. -/
def dimInt (o : Option PyVal) : Except Str (Option Int) :=
  match o with
  | Option.none => .ok Option.none
  | some w =>
    if isNumStrLike w then
      let sw := PyVal.strOf w
      if pyIsDigitStr sw then
        match pyParseInt sw with
        | some n => .ok (some n)
        | Option.none =>
          .error (S "ValueError: invalid literal for int() with base 10")
      else .ok Option.none
    else .ok Option.none

/-- The normalized record (modelled fields). -/
structure NRec where
  width : Option Int := Option.none
  height : Option Int := Option.none
  format_hint : Option Str := Option.none
  prompt : Option Str := Option.none
  negative_prompt : Option Str := Option.none
  steps : Option Int := Option.none
  cfg_scale : Option PyFloat := Option.none
  seed : Option Int := Option.none
  sampler : Option Str := Option.none
  scheduler : Option Str := Option.none
  model : Option Str := Option.none
  raw_text_preview : Option Str := Option.none
  workflow_json : Option PyVal := Option.none
  kv : List (Str × PyVal) := []
  deriving DecidableEq, Repr

/-- `rec.get(fld) in (None, "")` for a string field. -/
def unsetStr (o : Option Str) : Bool :=
  match o with
  | Option.none => true
  | some s => s.isEmpty

/-- The first JSON-looking blob that parses and yields a ComfyUI record
(the `break` of the JSON pass). -/
def firstComfyRec : List (Str × Str) → Option CRec
  | [] => Option.none
  | b :: rest =>
    if is_probably_json b.2 then
      match pyJsonLoads b.2 with
      | some obj =>
        match parse_comfyui_embedded_json obj with
        | some c => some c
        | Option.none => firstComfyRec rest
      | Option.none => firstComfyRec rest
    else firstComfyRec rest

/-- `int(float(x))` with `except: pass` (the JSON pass's numeric copy). -/
def tryIntFloat (v : PyVal) : Option Int :=
  (pyFloatOf v).bind PyFloat.toIntTrunc

/-- The keyed fill for a string field: no value guard, only the
`rec.get(fld) in (None, "")` test. -/
def fillK (cur : Option Str) (new : Option Str) : Option Str :=
  match new with
  | some s => if unsetStr cur then some s else cur
  | Option.none => cur

/-- The JSON pass of `normalize_record` applied to the chosen ComfyUI
record: each listed field fills `rec` if still unset; numeric values go
through `int(float(.))`, `cfg_scale` through `float(.)` (tried from the
`cfg_scale` slot and then the `cfg` slot), and conversion failures leave
the field unset.  The source's sequential per-field `if`s touch pairwise
distinct record fields, so the pass is written field-wise. -/
def applyComfy (r : NRec) (c : CRec) : NRec :=
  { r with
    format_hint := some (S "comfyui_like")
    workflow_json := some c.workflow_json
    kv := dSet r.kv (S "workflow_json") c.workflow_json
    seed := optOr r.seed (c.seed.bind tryIntFloat)
    steps := optOr r.steps (c.steps.bind tryIntFloat)
    width := optOr r.width (c.width.bind tryIntFloat)
    height := optOr r.height (c.height.bind tryIntFloat)
    sampler := fillK r.sampler c.sampler
    scheduler := fillK r.scheduler c.scheduler
    model := fillK r.model c.model
    cfg_scale := optOr r.cfg_scale
      (optOr (c.cfg_scale.bind pyFloatOf) (c.cfg.bind pyFloatOf)) }

/-- The first non-JSON, non-workflow-keyed, A1111-looking blob (the
`break` of the A1111 pass). -/
def firstA1111Blob (blobs : List (Str × Str)) : Option (Str × Str) :=
  blobs.find? (fun b => !is_probably_json b.2
    && !strContains (lowerStr b.1) (S "workflow")
    && looks_like_a1111_text b.2)

/-- `parsed[fld] not in (None, "") and r.get(fld) in (None, "")` fills
for a string field. -/
def fillStr (cur : Option Str) (new : Option Str) : Option Str :=
  match new with
  | some s => if s ≠ [] && unsetStr cur then some s else cur
  | Option.none => cur

def fillInt (cur : Option Int) (new : Option Int) : Option Int :=
  match new with
  | some n => if cur.isNone then some n else cur
  | Option.none => cur

def fillFloat (cur : Option PyFloat) (new : Option PyFloat) : Option PyFloat :=
  match new with
  | some f => if cur.isNone then some f else cur
  | Option.none => cur

/-- The A1111 pass of `normalize_record` applied to the parsed block
(field-wise; the source's updates touch pairwise distinct fields). -/
def applyA1111 (r : NRec) (p : A1Rec) : NRec :=
  { r with
    raw_text_preview := if p.raw_text ≠ [] && unsetStr r.raw_text_preview
      then some p.raw_text else r.raw_text_preview
    format_hint := if unsetStr r.format_hint then some (S "a1111_like")
      else r.format_hint
    prompt := fillStr r.prompt p.prompt
    negative_prompt := fillStr r.negative_prompt p.negative_prompt
    steps := fillInt r.steps p.steps
    cfg_scale := fillFloat r.cfg_scale p.cfg_scale
    seed := fillInt r.seed p.seed
    width := fillInt r.width p.width
    height := fillInt r.height p.height
    sampler := fillStr r.sampler p.sampler
    scheduler := fillStr r.scheduler p.scheduler
    model := fillStr r.model p.model }

/-- The keyed-fallback pass (`merge keyed.items() if rec field unset`;
the keyed loop has **no** value guard). -/
def applyKeyed (r : NRec) (kf : KFRec) : NRec :=
  { r with
    model := fillK r.model kf.model
    sampler := fillK r.sampler kf.sampler
    scheduler := fillK r.scheduler kf.scheduler
    steps := fillInt r.steps kf.steps
    cfg_scale := fillFloat r.cfg_scale kf.cfg_scale
    seed := fillInt r.seed kf.seed
    width := fillInt r.width kf.width
    height := fillInt r.height kf.height
    prompt := fillK r.prompt kf.prompt
    negative_prompt := fillK r.negative_prompt kf.negative_prompt }
/-- `norm_keyish` from `simage/core/ingest.py`. -/
def norm_keyish (s : Str) : Str :=
  pyStrip (collapseWs ((lowerStr (pyStrip s)).map
    (fun c => if c = '-' then ' ' else if c = '_' then ' ' else c)))

def SAMPLER_MAP : List (Str × Str) :=
  [ (S "euler a", S "euler_a"), (S "euler ancestral", S "euler_a")
  , (S "euler_ancestral", S "euler_a"), (S "euler", S "euler")
  , (S "heun", S "heun"), (S "lms", S "lms"), (S "ddim", S "ddim")
  , (S "plms", S "plms"), (S "dpm2", S "dpm2"), (S "dpm 2", S "dpm2")
  , (S "dpm2 a", S "dpm2_a"), (S "dpm 2 a", S "dpm2_a")
  , (S "dpm++ 2m", S "dpmpp_2m"), (S "dpmpp 2m", S "dpmpp_2m")
  , (S "dpm++ 2m karras", S "dpmpp_2m_karras")
  , (S "dpmpp 2m karras", S "dpmpp_2m_karras")
  , (S "dpm++ sde", S "dpmpp_sde"), (S "dpmpp sde", S "dpmpp_sde")
  , (S "dpm++ sde karras", S "dpmpp_sde_karras")
  , (S "dpmpp sde karras", S "dpmpp_sde_karras")
  , (S "uni pc", S "uni_pc"), (S "unipc", S "uni_pc") ]

def SCHEDULER_MAP : List (Str × Str) :=
  [ (S "karras", S "karras"), (S "exponential", S "exponential")
  , (S "normal", S "normal"), (S "simple", S "simple"), (S "ddim", S "ddim")
  , (S "sgm uniform", S "sgm_uniform"), (S "sgm_uniform", S "sgm_uniform") ]

/-- `normalize_sampler` from `simage/core/ingest.py`. -/
def normalize_sampler (v : PyVal) : Option Str :=
  match v with
  | .str s =>
    if pyStrip s = [] then Option.none
    else
      let k := norm_keyish s
      some ((dGet SAMPLER_MAP k).getD
        (k.map (fun c => if c = ' ' then '_' else c)))
  | _ => Option.none

/-- `normalize_scheduler` from `simage/core/ingest.py`. -/
def normalize_scheduler (v : PyVal) : Option Str :=
  match v with
  | .str s =>
    if pyStrip s = [] then Option.none
    else
      let k := norm_keyish s
      some ((dGet SCHEDULER_MAP k).getD
        (k.map (fun c => if c = ' ' then '_' else c)))
  | _ => Option.none

/-- A `{t, t_norm, w}` token record as stored into `kv` JSON. -/
def tokToVal (tok : Tok) : PyVal :=
  .dict [(S "t", .str tok.t), (S "t_norm", .str tok.t_norm),
    (S "w", .float tok.w)]

/-- `kv.get(fld) if fld in kv else rec.get(fld)` for a string-typed rec
field. -/
def kvOrRec (kv : List (Str × PyVal)) (fld : Str) (recv : PyVal) : PyVal :=
  match dGet kv fld with
  | some v => v
  | Option.none => recv

def optIntVal : Option Int → PyVal
  | some n => .int n
  | Option.none => .none

def optFloatVal : Option PyFloat → PyVal
  | some f => .float f
  | Option.none => .none

/-- Normalize a Python-truthy optional string (`if pos:`). -/
def truthyStr (o : Option Str) : Option Str :=
  match o with
  | some s => if s = [] then Option.none else some s
  | Option.none => Option.none

/-- `postprocess_prompts_and_params` from `simage/core/ingest.py`
(mutates `rec`: prompts re-separated and tokenized, norms added to
`kv`). -/
def postprocess_prompts_and_params (r : NRec) : NRec :=
  let kv := r.kv
  let pn := enforce_pos_neg_separation
    (kvOrRec kv (S "prompt") (optStrVal r.prompt))
    (kvOrRec kv (S "negative_prompt") (optStrVal r.negative_prompt))
  let pos := truthyStr pn.1
  let neg := truthyStr pn.2
  let (r, kv) := match pos with
    | some p =>
      ({ r with prompt := some p },
       dSet (dSet (dSet kv (S "prompt") (.str p)) (S "prompt_text") (.str p))
         (S "prompt_tokens") (.list ((tokenize_prompt p).map tokToVal)))
    | Option.none =>
      ({ r with prompt := Option.none },
       dPop (dPop (dPop kv (S "prompt")) (S "prompt_text")) (S "prompt_tokens"))
  let (r, kv) := match neg with
    | some n =>
      ({ r with negative_prompt := some n },
       dSet (dSet (dSet kv (S "negative_prompt") (.str n))
           (S "neg_prompt_text") (.str n))
         (S "neg_tokens") (.list ((tokenize_prompt n).map tokToVal)))
    | Option.none =>
      ({ r with negative_prompt := Option.none },
       dPop (dPop (dPop kv (S "negative_prompt")) (S "neg_prompt_text"))
         (S "neg_tokens"))
  let kv := match normalize_sampler (kvOrRec kv (S "sampler") (optStrVal r.sampler)) with
    | some sn => if sn = [] then kv else dSet kv (S "sampler_norm") (.str sn)
    | Option.none => kv
  let kv := match normalize_scheduler
      (kvOrRec kv (S "scheduler") (optStrVal r.scheduler)) with
    | some sn => if sn = [] then kv else dSet kv (S "scheduler_norm") (.str sn)
    | Option.none => kv
  let kv := match to_int (kvOrRec kv (S "steps") (optIntVal r.steps)) with
    | some n => dSet kv (S "steps_norm") (.int n)
    | Option.none => kv
  let kv := match to_float (kvOrRec kv (S "cfg_scale") (optFloatVal r.cfg_scale)) with
    | some f => dSet kv (S "cfg_scale_norm") (.float f)
    | Option.none => kv
  let kv := match to_int (kvOrRec kv (S "seed") (optIntVal r.seed)) with
    | some n => dSet kv (S "seed_norm") (.int n)
    | Option.none => kv
  let w := to_int (kvOrRec kv (S "width") (optIntVal r.width))
  let h := to_int (kvOrRec kv (S "height") (optIntVal r.height))
  let kv := match w, h with
    | some wn, some hn =>
      if wn ≠ 0 && hn ≠ 0 then
        dSet kv (S "size_norm")
          (.str (PyVal.intRepr wn ++ 'x' :: PyVal.intRepr hn))
      else kv
    | _, _ => kv
  { r with kv := kv }

/-- `kv[fld] = rec[fld]` when the string value is truthy. -/
def putKVStr (kv : List (Str × PyVal)) (fld : Str) (o : Option Str) :
    List (Str × PyVal) :=
  match o with
  | some sv => if sv = [] then kv else dSet kv fld (.str sv)
  | Option.none => kv

def putKVInt (kv : List (Str × PyVal)) (fld : Str) (o : Option Int) :
    List (Str × PyVal) :=
  match o with
  | some n => dSet kv fld (.int n)
  | Option.none => kv

def putKVFloat (kv : List (Str × PyVal)) (fld : Str) (o : Option PyFloat) :
    List (Str × PyVal) :=
  match o with
  | some f => dSet kv fld (.float f)
  | Option.none => kv

/-- The `software` entry of the `kv` block. -/
def putKVSoftware (exif : List (Str × PyVal)) (kv : List (Str × PyVal)) :
    List (Str × PyVal) :=
  match first_present exif
      [S "EXIF:Software", S "PNG:Software", S "XMP:CreatorTool"] with
  | some (.str sw) =>
    if pyStrip sw = [] then kv else dSet kv (S "software") (.str (pyStrip sw))
  | _ => kv

/-- The `kv` population block of `normalize_record` (string/num fields
copied into `kv` when truthy, dims when non-`None`, plus `software`). -/
def buildKVList (exif : List (Str × PyVal)) (r : NRec) : List (Str × PyVal) :=
  putKVSoftware exif
    (putKVInt
      (putKVInt
        (putKVStr
          (putKVStr
            (putKVStr
              (putKVStr
                (putKVInt
                  (putKVFloat
                    (putKVInt
                      (putKVStr
                        (putKVStr r.kv (S "prompt") r.prompt)
                        (S "negative_prompt") r.negative_prompt)
                      (S "steps") r.steps)
                    (S "cfg_scale") r.cfg_scale)
                  (S "seed") r.seed)
                (S "sampler") r.sampler)
              (S "scheduler") r.scheduler)
            (S "model") r.model)
          (S "format_hint") r.format_hint)
        (S "width") r.width)
      (S "height") r.height)

def buildKV (exif : List (Str × PyVal)) (r : NRec) : NRec :=
  { r with kv := buildKVList exif r }

/-- The node-graph prompt override of `normalize_record`
(`if wf_prompt: rec["prompt"] = wf_prompt`, same for the negative). -/
def applyWf (wfp : Option Str × Option Str) (r : NRec) : NRec :=
  let r1 := match truthyStr wfp.1 with
    | some p => { r with prompt := some p }
    | Option.none => r
  match truthyStr wfp.2 with
  | some n => { r1 with negative_prompt := some n }
  | Option.none => r1

/-- Spec-side: a truthy node-graph prompt overrides the chained value. -/
def wfOverride (w : Option Str) (base : Option Str) : Option Str :=
  match truthyStr w with
  | some p => some p
  | Option.none => base

/-- The `raw_text_preview` fallback (`if rec["raw_text_preview"] is None
and blobs: str(blobs[0][1])[:2000]`). -/
def rawFallback (blobs : List (Str × Str)) (r : NRec) : NRec :=
  if r.raw_text_preview.isNone then
    match blobs with
    | b :: _ => { r with raw_text_preview := some (b.2.take 2000) }
    | [] => r
  else r

/-- The first matching A1111 blob parsed (the A1111 pass's outcome:
no blob, a parsed block, or the parse exception). -/
def a1111Of (blobs : List (Str × Str)) : Except Str (Option A1Rec) :=
  match firstA1111Blob blobs with
  | Option.none => .ok Option.none
  | some b =>
    match parse_a1111_parameters b.2 with
    | .error e => .error e
    | .ok p => .ok (some p)

def normalize_record (exif : List (Str × PyVal)) : Except Str NRec :=
  match dimInt (first_present exif dimWidthKeys) with
  | .error e => .error e
  | .ok w0 =>
  match dimInt (first_present exif dimHeightKeys) with
  | .error e => .error e
  | .ok h0 =>
  let r0 : NRec := { width := w0, height := h0 }
  let blobs := extract_candidate_blobs exif
  let r1 := match firstComfyRec blobs with
    | some c => applyComfy r0 c
    | Option.none => r0
  match a1111Of blobs with
  | .error e => .error e
  | .ok pa =>
  let r2 := match pa with
    | some p => applyA1111 r1 p
    | Option.none => r1
  match extract_keyed_fields exif with
  | .error e => .error e
  | .ok kf =>
  let r3 := applyKeyed r2 kf
  let r4 := applyWf
    (extract_comfyui_prompts (r3.workflow_json.getD .none)) r3
  .ok (postprocess_prompts_and_params (buildKV exif (rawFallback blobs r4)))

/-- The ingest loop of `main` in `simage/core/ingest.py`: strip, skip
blank lines, strip a BOM, then an **unguarded** `json.loads` — a line
that is not valid JSON raises `json.JSONDecodeError` and aborts the
whole batch (nothing later on the stream is normalized or ingested). -/
def ingestLines : List Str → List NRec → Except Str (List NRec)
  | [], acc => .ok acc
  | line :: rest, acc =>
    let l := pyStrip line
    if l = [] then ingestLines rest acc
    else
      let l2 := l.dropWhile (fun c => c = '\ufeff')
      match pyJsonLoads l2 with
      | Option.none => .error (S "json.decoder.JSONDecodeError")
      | some obj =>
        match obj with
        | .dict es =>
          match normalize_record es with
          | .ok r => ingestLines rest (acc ++ [r])
          | .error e => .error e
        | _ => .error (S "AttributeError")

/-- `main`'s record collection over the input JSONL lines. -/
def mainIngest (lines : List Str) : Except Str (List NRec) :=
  ingestLines lines []

instance {ε α : Type} [DecidableEq ε] [DecidableEq α] :
    DecidableEq (Except ε α) := fun a b =>
  match a, b with
  | .error x, .error y =>
    if h : x = y then .isTrue (by rw [h])
    else .isFalse (fun hc => h (Except.error.inj hc))
  | .ok x, .ok y =>
    if h : x = y then .isTrue (by rw [h])
    else .isFalse (fun hc => h (Except.ok.inj hc))
  | .error _, .ok _ => .isFalse (fun hc => Except.noConfusion hc)
  | .ok _, .error _ => .isFalse (fun hc => Except.noConfusion hc)

/-- The C1 counterexample input: an embedded JSON graph carrying
`steps = 20` and an A1111 text block carrying `Steps: 30`. -/
def C1exif : List (Str × PyVal) :=
  [ (S "PNG:Comment", .str (S "\x7b\"steps\": 20\x7d"))
  , (S "PNG:Parameters", .str (S "Steps: 30, Sampler: Euler")) ]

/-- The record `normalize_record` produces for `C1exif` (JSON-graph
`steps = 20` wins; A1111's `Steps: 30` is shadowed; the A1111 sampler
fills the gap). -/
def C1rec : NRec :=
  { width := Option.none
    height := Option.none
    format_hint := some (S "comfyui_like")
    prompt := Option.none
    negative_prompt := Option.none
    steps := some 20
    cfg_scale := Option.none
    seed := Option.none
    sampler := some (S "Euler")
    scheduler := Option.none
    model := Option.none
    raw_text_preview := some (S "Steps: 30, Sampler: Euler")
    workflow_json := some (.dict [(S "steps", .int 20)])
    kv :=
      [ (S "workflow_json", .dict [(S "steps", .int 20)])
      , (S "steps", .int 20)
      , (S "sampler", .str (S "Euler"))
      , (S "format_hint", .str (S "comfyui_like"))
      , (S "sampler_norm", .str (S "euler"))
      , (S "steps_norm", .int 20) ] }

/-- The parsed A1111 block of `C1exif`. -/
def C1a1 : A1Rec :=
  { steps := some 30
    sampler := some (S "Euler")
    raw_text := S "Steps: 30, Sampler: Euler" }

/-! # DEFINITIONS END / THEOREMS BEGIN -/

/-! ## Lemmas about the marker machinery -/

theorem toNat_ofNatAux (n : Nat) (h : n.isValidChar) :
    (Char.ofNatAux n h).toNat = n := by
  simp [Char.ofNatAux, Char.toNat, UInt32.toNat]

theorem lowerCh_toNat (c : Char) :
    (lowerCh c).toNat = if 65 ≤ c.toNat ∧ c.toNat ≤ 90 then c.toNat + 32 else c.toNat := by
  unfold lowerCh Char.toLower
  split
  · next h =>
    have hv : (c.toNat + 32).isValidChar := by
      refine Or.inl ?_
      have := c.utf8Size_pos
      omega
    rw [if_pos (by omega)]
    rw [Char.ofNat, dif_pos hv, toNat_ofNatAux]
  · next h =>
    rw [if_neg (by omega)]

theorem char_eq_of_toNat_eq {c d : Char} (h : c.toNat = d.toNat) : c = d :=
  Char.eq_of_val_eq (UInt32.toNat.inj h)

/-- Only a space lowercases to a space. -/
theorem eq_space_of_lowerCh_space {c : Char} (h : lowerCh c = ' ') : c = ' ' := by
  have ht : (lowerCh c).toNat = 32 := by rw [h]; rfl
  rw [lowerCh_toNat] at ht
  split at ht
  · omega
  · exact char_eq_of_toNat_eq (by rw [ht]; rfl)

theorem isSpaceCh_of_lowerCh_space {c : Char} (h : lowerCh c = ' ') :
    isSpaceCh c = true := by
  rw [eq_space_of_lowerCh_space h]; rfl

/-- `\s*` choice points extend along a concatenation. -/
theorem wsSuffixes_append {l r l' : Str} (h : l' ∈ wsSuffixes l) :
    l' ++ r ∈ wsSuffixes (l ++ r) := by
  induction l with
  | nil =>
    simp [wsSuffixes] at h
    subst h
    cases r with
    | nil => simp [wsSuffixes]
    | cons c t => simp [wsSuffixes]
  | cons c t ih =>
    simp only [wsSuffixes, List.mem_cons] at h
    rcases h with h | h
    · subst h; simp [wsSuffixes]
    · by_cases hs : isSpaceCh c
      · simp only [hs, if_true] at h
        simp only [List.cons_append, wsSuffixes, List.mem_cons, hs, if_true]
        exact Or.inr (ih h)
      · simp [hs] at h

/-- Pattern matching is stable under extending the subject on the right. -/
theorem patMatch_append {p : List PTok} {l r : Str}
    (h : patMatch p l = true) : patMatch p (l ++ r) = true := by
  induction p generalizing l with
  | nil => simp [patMatch]
  | cons tk ps ih =>
    cases tk with
    | lit c =>
      cases l with
      | nil => simp [patMatch] at h
      | cons d t =>
        simp only [List.cons_append, patMatch, Bool.and_eq_true] at h ⊢
        exact ⟨h.1, ih h.2⟩
    | wsStar =>
      simp only [patMatch, List.any_eq_true] at h ⊢
      obtain ⟨l', hl', hm⟩ := h
      exact ⟨l' ++ r, wsSuffixes_append hl', ih hm⟩

theorem findLeast_some_spec {p : Nat → Bool} :
    ∀ {start fuel i}, findLeast p start fuel = some i →
      p i = true ∧ start ≤ i ∧ ∀ j, start ≤ j → j < i → p j = false := by
  intro start fuel
  induction fuel generalizing start with
  | zero => intro i h; simp [findLeast] at h
  | succ n ih =>
    intro i h
    simp only [findLeast] at h
    by_cases hp : p start
    · rw [if_pos hp] at h
      obtain rfl := Option.some.inj h
      exact ⟨hp, Nat.le_refl _, fun j h1 h2 => absurd h1 (Nat.not_le_of_lt h2)⟩
    · rw [if_neg hp] at h
      obtain ⟨h1, h2, h3⟩ := ih h
      refine ⟨h1, Nat.le_of_succ_le h2, fun j hj1 hj2 => ?_⟩
      rcases Nat.eq_or_lt_of_le hj1 with rfl | hj
      · exact Bool.of_not_eq_true hp
      · exact h3 j hj hj2

theorem findLeast_none_spec {p : Nat → Bool} :
    ∀ {start fuel}, findLeast p start fuel = Option.none →
      ∀ j, start ≤ j → j < start + fuel → p j = false := by
  intro start fuel
  induction fuel generalizing start with
  | zero => intro _ j h1 h2; omega
  | succ n ih =>
    intro h j h1 h2
    simp only [findLeast] at h
    by_cases hp : p start
    · rw [if_pos hp] at h; cases h
    · rw [if_neg hp] at h
      rcases Nat.eq_or_lt_of_le h1 with rfl | hj
      · exact Bool.of_not_eq_true hp
      · exact ih h j hj (by omega)

/-- No tail-marker alternative matches the empty subject. -/
theorem tailPats_nil : tailPats.all (fun p => !patMatch p []) = true := by decide

theorem patMatch_tail_ne_nil {p : List PTok} (hp : p ∈ tailPats) {l : Str}
    (h : patMatch p l = true) : l ≠ [] := by
  intro he
  subst he
  have := List.all_eq_true.mp tailPats_nil p hp
  simp [h] at this

theorem tailMatchAt_lt_length {s : Str} {i : Nat}
    (h : tailMatchAt s i = true) : i < s.length := by
  simp only [tailMatchAt, List.any_eq_true] at h
  obtain ⟨p, hp, hm⟩ := h
  have hne := patMatch_tail_ne_nil hp hm
  by_contra hlt
  exact hne (List.drop_eq_nil_of_le (by omega))

/-- Transfer a tail-marker occurrence from an infix to the whole string. -/
theorem tailMatchAt_of_parts {pre l suf s : Str} (hs : pre ++ l ++ suf = s)
    {j : Nat} (h : tailMatchAt l j = true) :
    tailMatchAt s (pre.length + j) = true := by
  have hj : j < l.length := tailMatchAt_lt_length h
  simp only [tailMatchAt, List.any_eq_true] at h ⊢
  obtain ⟨p, hp, hm⟩ := h
  refine ⟨p, hp, ?_⟩
  have hdrop : s.drop (pre.length + j) = l.drop j ++ suf := by
    rw [← hs, List.append_assoc, List.drop_append_eq_append_drop]
    have h1 : pre.drop (pre.length + j) = [] := List.drop_eq_nil_of_le (by omega)
    rw [h1, List.nil_append]
    have h2 : pre.length + j - pre.length = j := by omega
    rw [h2, List.drop_append_of_le_length (by omega)]
  rw [hdrop]
  exact patMatch_append hm

/-- `pyStrip` yields an infix. -/
theorem pyStrip_infix (s : Str) : pyStrip s <:+: s := by
  unfold pyStrip
  have h1 : s.dropWhile isSpaceCh <:+ s := List.dropWhile_suffix _
  have h2 : ((s.dropWhile isSpaceCh).reverse.dropWhile isSpaceCh).reverse
      <+: s.dropWhile isSpaceCh := by
    rw [← List.reverse_suffix]
    simpa using List.dropWhile_suffix (l := (s.dropWhile isSpaceCh).reverse) isSpaceCh
  exact h2.isInfix.trans h1.isInfix

/-- The output of `cut_at_tail_markers` carries no tail-marker match. -/
theorem cut_at_tail_markers_clean (s : Str) (j : Nat) :
    tailMatchAt (cut_at_tail_markers s) j = false := by
  by_contra hb
  have h : tailMatchAt (cut_at_tail_markers s) j = true := by
    revert hb; cases tailMatchAt (cut_at_tail_markers s) j <;> simp
  unfold cut_at_tail_markers at h
  cases hidx : firstTailIdx s with
  | none =>
    rw [hidx] at h
    obtain ⟨pre, suf, hps⟩ := pyStrip_infix s
    have h2 := tailMatchAt_of_parts hps h
    have h3 := tailMatchAt_lt_length h2
    have := findLeast_none_spec hidx (pre.length + j) (Nat.zero_le _) (by omega)
    rw [this] at h2
    cases h2
  | some i =>
    rw [hidx] at h
    obtain ⟨pre, suf, hps⟩ := pyStrip_infix (s.take i)
    have h2 := tailMatchAt_of_parts hps h
    have h3 := tailMatchAt_lt_length h2
    have h4 : pre.length + j < i := by
      have := s.length_take_le i
      omega
    have h5 := @tailMatchAt_of_parts [] (s.take i) (s.drop i) s
      (by simp [List.take_append_drop]) (pre.length + j) h2
    simp only [List.length_nil, Nat.zero_add] at h5
    have h6 := (findLeast_some_spec hidx).2.2 (pre.length + j) (Nat.zero_le _) h4
    rw [h6] at h5
    cases h5

/-! ### `isPrefixCI` and the negative-prompt marker -/

theorem isPrefixCI_length {pat s : Str} (h : isPrefixCI pat s = true) :
    pat.length ≤ s.length := by
  simp only [isPrefixCI, decide_eq_true_eq] at h
  have h2 := congrArg List.length h
  simp only [lowerStr, List.length_map, List.length_take] at h2
  calc pat.length = min pat.length s.length := h2.symm
    _ ≤ s.length := Nat.min_le_right _ _

theorem isPrefixCI_append {pat l r : Str} (h : isPrefixCI pat l = true) :
    isPrefixCI pat (l ++ r) = true := by
  have hl := isPrefixCI_length h
  simp only [isPrefixCI, decide_eq_true_eq] at h ⊢
  rw [List.take_append_of_le_length hl]
  exact h

theorem negLit_length : negLit.length = 16 := by decide

theorem negMatchAt_bound {s : Str} {i : Nat} (h : negMatchAt s i = true) :
    i + 16 ≤ s.length := by
  simp only [negMatchAt, Bool.and_eq_true] at h
  have h2 := isPrefixCI_length h.2
  rw [negLit_length, List.length_drop] at h2
  omega

theorem negMatchAt_of_prefix {o p : Str} (hpre : o <+: p) {j : Nat}
    (h : negMatchAt o j = true) : negMatchAt p j = true := by
  obtain ⟨r, rfl⟩ := hpre
  have hb := negMatchAt_bound h
  simp only [negMatchAt, Bool.and_eq_true] at h ⊢
  refine ⟨?_, ?_⟩
  · have h1 := h.1
    simp only [boundaryBefore] at h1 ⊢
    by_cases hj : j = 0
    · simp [hj]
    · rw [if_neg hj] at h1 ⊢
      rw [List.getElem?_append_left (by omega)]
      exact h1
  · rw [List.drop_append_of_le_length (by omega)]
    exact isPrefixCI_append h.2

/-- No leading whitespace. -/
def noLead (l : Str) : Prop := ∀ c, l.head? = some c → isSpaceCh c = false

theorem noLead_of_dropWhile (l : Str) : noLead (l.dropWhile isSpaceCh) := by
  intro c hc
  have h := List.head?_dropWhile_not isSpaceCh l
  rw [hc] at h
  exact h

theorem dropWhile_eq_self_of_noLead {l : Str} (h : noLead l) :
    l.dropWhile isSpaceCh = l := by
  cases l with
  | nil => rfl
  | cons c t =>
    have hc := h c rfl
    simp [List.dropWhile_cons, hc]

theorem pyStrip_prefix_of_noLead {l : Str} (h : noLead l) : pyStrip l <+: l := by
  unfold pyStrip
  rw [dropWhile_eq_self_of_noLead h, ← List.reverse_suffix]
  simpa using (List.dropWhile_suffix isSpaceCh :
    l.reverse.dropWhile isSpaceCh <:+ l.reverse)

theorem pyStrip_noLead (s : Str) : noLead (pyStrip s) := by
  intro c hc
  have hpre : pyStrip s <+: s.dropWhile isSpaceCh := by
    unfold pyStrip
    rw [← List.reverse_suffix]
    simpa using List.dropWhile_suffix (l := (s.dropWhile isSpaceCh).reverse) isSpaceCh
  obtain ⟨r, hr⟩ := hpre
  have hh : (s.dropWhile isSpaceCh).head? = some c := by
    rw [← hr]
    cases hps : pyStrip s with
    | nil => rw [hps] at hc; simp at hc
    | cons d u =>
      rw [hps] at hc
      simp only [List.head?_cons, Option.some.injEq] at hc
      simp [hc]
  exact noLead_of_dropWhile s c hh

theorem noLead_take {l : Str} (h : noLead l) (i : Nat) : noLead (l.take i) := by
  intro c hc
  cases i with
  | zero => simp at hc
  | succ n =>
    cases l with
    | nil => simp at hc
    | cons d t =>
      simp only [List.take_succ_cons, List.head?_cons, Option.some.injEq] at hc
      exact hc ▸ h d rfl

theorem clean_ws_noLead (s : Str) : noLead (clean_ws s) := pyStrip_noLead _

theorem cut_at_tail_markers_prefix_of_noLead {p : Str} (h : noLead p) :
    cut_at_tail_markers p <+: p := by
  unfold cut_at_tail_markers
  cases firstTailIdx p with
  | none => exact pyStrip_prefix_of_noLead h
  | some i =>
    exact (pyStrip_prefix_of_noLead (noLead_take h i)).trans (List.take_prefix i p)

/-! ### Bridging the claim's literal markers to the source's regex -/

theorem litPat_eq (s : String) : litPat s = (S s).map PTok.lit := rfl

theorem patMatch_lit_append (w : Str) (ps : List PTok) (t : Str) :
    patMatch (w.map PTok.lit ++ ps) t
      = (isPrefixCI w t && patMatch ps (t.drop w.length)) := by
  induction w generalizing t with
  | nil => simp [isPrefixCI, lowerStr]
  | cons c w' ih =>
    cases t with
    | nil =>
      simp [patMatch, isPrefixCI, lowerStr]
    | cons d t' =>
      simp only [List.map_cons, List.cons_append, patMatch, List.append_eq]
      rw [ih t']
      simp only [isPrefixCI, lowerStr, List.length_cons, List.take_succ_cons,
        List.map_cons, List.drop_succ_cons]
      by_cases hd : lowerCh d = c
      · simp [hd]
      · simp [hd]

theorem patMatch_lit (w t : Str) :
    patMatch (w.map PTok.lit) t = isPrefixCI w t := by
  have h := patMatch_lit_append w [] t
  simpa [patMatch] using h

theorem isPrefixCI_append_split {u v t : Str}
    (h : isPrefixCI (u ++ v) t = true) :
    isPrefixCI u t = true ∧ isPrefixCI v (t.drop u.length) = true := by
  have hlen : u.length + v.length ≤ t.length := by
    have h2 := isPrefixCI_length h
    simpa using h2
  simp only [isPrefixCI, decide_eq_true_eq] at h ⊢
  rw [List.length_append] at h
  constructor
  · have h2 := congrArg (List.take u.length) h
    rw [List.take_left] at h2
    simp only [lowerStr] at h2 ⊢
    rw [← List.map_take, List.take_take,
      Nat.min_eq_left (Nat.le_add_right _ _)] at h2
    exact h2
  · have h2 := congrArg (List.drop u.length) h
    rw [List.drop_left] at h2
    simp only [lowerStr] at h2 ⊢
    rw [← List.map_drop, List.drop_take,
      show u.length + v.length - u.length = v.length by omega] at h2
    exact h2

theorem self_mem_wsSuffixes (s : Str) : s ∈ wsSuffixes s := by
  cases s <;> simp [wsSuffixes]

/-- A literal case-insensitive occurrence of `"cfg scale:"` is an instance
of the `CFG\s*scale:` alternative. -/
theorem cfg_pat_of_lit {t : Str} (h : isPrefixCI (S "cfg scale:") t = true) :
    patMatch (litPat "cfg" ++ [PTok.wsStar] ++ litPat "scale:") t = true := by
  have hsplit : S "cfg scale:" = S "cfg" ++ (' ' :: S "scale:") := by decide
  rw [hsplit] at h
  obtain ⟨h1, h2⟩ := isPrefixCI_append_split h
  rw [List.append_assoc, litPat_eq, patMatch_lit_append]
  simp only [Bool.and_eq_true]
  refine ⟨h1, ?_⟩
  cases ht : t.drop (S "cfg").length with
  | nil =>
    rw [ht] at h2
    have := isPrefixCI_length h2
    simp at this
  | cons d u =>
    rw [ht] at h2
    simp only [isPrefixCI, decide_eq_true_eq] at h2
    rw [show (' ' :: S "scale:").length = (S "scale:").length + 1 from rfl,
      List.take_succ_cons, lowerStr, List.map_cons] at h2
    have hd1 : lowerCh d = ' ' := (List.cons.inj h2).1
    have hd2 : isPrefixCI (S "scale:") u = true := by
      simp only [isPrefixCI, decide_eq_true_eq, lowerStr]
      exact (List.cons.inj h2).2
    simp only [List.singleton_append, patMatch, List.any_eq_true]
    refine ⟨u, ?_, ?_⟩
    · have hsp : isSpaceCh d = true := isSpaceCh_of_lowerCh_space hd1
      simp only [wsSuffixes, hsp, if_true, List.mem_cons]
      exact Or.inr (self_mem_wsSuffixes u)
    · show patMatch (litPat "scale:") u = true
      rw [litPat_eq, patMatch_lit]
      exact hd2

/-- Any claim-listed marker substring occurrence is a `RE_TAIL_ANY` match. -/
theorem tailMatchAt_of_claimMarker {w : Str} (hw : w ∈ claimTailMarkers)
    {s : Str} {i : Nat} (h : isPrefixCI w (s.drop i) = true) :
    tailMatchAt s i = true := by
  simp only [tailMatchAt, List.any_eq_true]
  simp only [claimTailMarkers, List.mem_cons, List.not_mem_nil, or_false] at hw
  rcases hw with rfl | rfl | rfl | rfl | rfl | rfl | rfl | rfl | rfl | rfl | rfl | rfl | rfl | rfl
  · exact ⟨litPat "steps:", by simp [tailPats], by rw [litPat_eq, patMatch_lit]; exact h⟩
  · exact ⟨litPat "sampler:", by simp [tailPats], by rw [litPat_eq, patMatch_lit]; exact h⟩
  · exact ⟨litPat "cfg" ++ [PTok.wsStar] ++ litPat "scale:",
      by simp [tailPats], cfg_pat_of_lit h⟩
  · exact ⟨litPat "seed:", by simp [tailPats], by rw [litPat_eq, patMatch_lit]; exact h⟩
  · exact ⟨litPat "size:", by simp [tailPats], by rw [litPat_eq, patMatch_lit]; exact h⟩
  · exact ⟨litPat "model hash:", by simp [tailPats], by rw [litPat_eq, patMatch_lit]; exact h⟩
  · exact ⟨litPat "model:", by simp [tailPats], by rw [litPat_eq, patMatch_lit]; exact h⟩
  · exact ⟨litPat "denoising strength:", by simp [tailPats], by rw [litPat_eq, patMatch_lit]; exact h⟩
  · exact ⟨litPat "hires", by simp [tailPats], by rw [litPat_eq, patMatch_lit]; exact h⟩
  · exact ⟨litPat "clip skip:", by simp [tailPats], by rw [litPat_eq, patMatch_lit]; exact h⟩
  · exact ⟨litPat "created date:", by simp [tailPats], by rw [litPat_eq, patMatch_lit]; exact h⟩
  · exact ⟨litPat "civitai resources:", by simp [tailPats], by rw [litPat_eq, patMatch_lit]; exact h⟩
  · exact ⟨litPat "civitai metadata:", by simp [tailPats], by rw [litPat_eq, patMatch_lit]; exact h⟩
  · exact ⟨litPat "hashes:", by simp [tailPats], by rw [litPat_eq, patMatch_lit]; exact h⟩

/-! ### Assembling the separation contract -/

theorem cutOptTail_some {o : Option Str} {out : Str} (h : cutOptTail o = some out) :
    ∃ s, o = some s ∧ out = cut_at_tail_markers s ∧ out ≠ [] := by
  cases o with
  | none => simp [cutOptTail] at h
  | some s =>
    have he : cutOptTail (some s) =
        if cut_at_tail_markers s ≠ [] then some (cut_at_tail_markers s)
        else Option.none := rfl
    rw [he] at h
    by_cases hc : cut_at_tail_markers s ≠ []
    · rw [if_pos hc] at h
      exact ⟨s, rfl, (Option.some.inj h).symm, (Option.some.inj h) ▸ hc⟩
    · rw [if_neg hc] at h
      cases h

theorem cut_out_no_claimMarker (s : Str) {out : Str}
    (hout : out = cut_at_tail_markers s) :
    ∀ w ∈ claimTailMarkers, ∀ i, isPrefixCI w (out.drop i) = false := by
  intro w hw i
  by_contra hb
  have hT : isPrefixCI w (out.drop i) = true := by
    revert hb; cases isPrefixCI w (out.drop i) <;> simp
  have h1 := tailMatchAt_of_claimMarker hw hT
  rw [hout] at h1
  rw [cut_at_tail_markers_clean s i] at h1
  cases h1

theorem cleanPNInput_noLead {v : PyVal} {p : Str}
    (h : cleanPNInput v = some p) : noLead p := by
  cases v with
  | str s =>
    simp only [cleanPNInput] at h
    by_cases hs : pyStrip s ≠ []
    · rw [if_pos hs] at h
      rw [← Option.some.inj h]
      exact clean_ws_noLead s
    · rw [if_neg hs] at h; cases h
  | none => cases h
  | bool b => cases h
  | int n => cases h
  | float f => cases h
  | list xs => cases h
  | dict d => cases h

theorem negFree_pos_out {p0 n0 : Option Str} {out : Str}
    (hnoLead : ∀ p, p0 = some p → noLead p)
    (h : cutOptTail (splitNeg p0 n0).1 = some out) :
    ∀ j, negMatchAt out j = false := by
  intro j
  obtain ⟨s1, hs1, hout, _⟩ := cutOptTail_some h
  by_contra hb
  have hT : negMatchAt out j = true := by
    revert hb; cases negMatchAt out j <;> simp
  cases hp0 : p0 with
  | none => rw [hp0] at hs1; simp [splitNeg] at hs1
  | some p =>
    have hnl : noLead p := hnoLead p hp0
    rw [hp0] at hs1
    cases hidx : firstNegIdx p with
    | none =>
      simp only [splitNeg, hidx] at hs1
      have hps : p = s1 := Option.some.inj hs1
      have hpre : out <+: p := by
        rw [hps, hout]
        exact cut_at_tail_markers_prefix_of_noLead (hps ▸ hnl)
      have h2 := negMatchAt_of_prefix hpre hT
      have hbd := negMatchAt_bound h2
      have h3 := findLeast_none_spec hidx j (Nat.zero_le _) (by omega)
      rw [h3] at h2
      cases h2
    | some idx =>
      simp only [splitNeg, hidx] at hs1
      by_cases hleft : pyStrip (p.take idx) ≠ []
      · rw [if_pos hleft] at hs1
        have hps : pyStrip (p.take idx) = s1 := Option.some.inj hs1
        have hpre1 : out <+: pyStrip (p.take idx) := by
          rw [hout, ← hps]
          exact cut_at_tail_markers_prefix_of_noLead (pyStrip_noLead _)
        have hpre2 : pyStrip (p.take idx) <+: p.take idx :=
          pyStrip_prefix_of_noLead (noLead_take hnl idx)
        have hpre : out <+: p := (hpre1.trans hpre2).trans (List.take_prefix idx p)
        have h2 := negMatchAt_of_prefix hpre hT
        have hbdo := negMatchAt_bound hT
        have hlt : j < idx := by
          have l1 := hpre1.length_le
          have l2 := hpre2.length_le
          have l3 := p.length_take_le idx
          omega
        have h3 := (findLeast_some_spec hidx).2.2 j (Nat.zero_le _) hlt
        rw [h3] at h2
        cases h2
      · rw [if_neg hleft] at hs1
        cases hs1

/-! ### Dictionary lemmas for the dedup invariant -/

section DictLemmas

variable {kappa : Type} {beta : Type} [DecidableEq kappa]

theorem dGet_append_single (d : List (kappa × beta)) (k0 k : kappa) (v : beta) :
    dGet (d ++ [(k0, v)]) k
      = match dGet d k with
        | some w => some w
        | Option.none => if k0 = k then some v else Option.none := by
  induction d with
  | nil => simp [dGet]
  | cons e d ih =>
    obtain ⟨k', w⟩ := e
    by_cases hk : k' = k
    · simp [dGet, hk]
    · simp only [List.cons_append, dGet, if_neg hk]
      exact ih

theorem dMem_of_dGet_some {d : List (kappa × beta)} {k : kappa} {v : beta}
    (h : dGet d k = some v) : dMem d k = true := by
  induction d with
  | nil => simp [dGet] at h
  | cons e d ih =>
    obtain ⟨k', w⟩ := e
    by_cases hk : k' = k
    · simp [dMem, hk]
    · rw [dGet, if_neg hk] at h
      have h2 := ih h
      simp only [dMem, List.any_cons, Bool.or_eq_true]
      simp only [dMem] at h2
      exact Or.inr h2

theorem dGet_dSet_self {d : List (kappa × beta)} {k : kappa}
    (h : dMem d k = true) (v : beta) : dGet (dSet d k v) k = some v := by
  induction d with
  | nil => simp [dMem] at h
  | cons e d ih =>
    obtain ⟨k', w⟩ := e
    by_cases hk : k' = k
    · simp [dSet, hk, dGet]
    · simp only [dMem, List.any_cons, Bool.or_eq_true, decide_eq_true_eq] at h
      rcases h with h | h
      · exact absurd h hk
      · simp only [dSet, if_neg hk, dGet, hk, if_false]
        exact ih (by simpa [dMem] using h)

theorem dGet_dSet_ne {d : List (kappa × beta)} {k k' : kappa}
    (h : k' ≠ k) (v : beta) : dGet (dSet d k v) k' = dGet d k' := by
  induction d with
  | nil => simp [dSet, dGet, Ne.symm h]
  | cons e d ih =>
    obtain ⟨k0, w⟩ := e
    by_cases hk : k0 = k
    · subst hk
      simp only [dSet, if_pos rfl, dGet]
      rw [if_neg (Ne.symm h), if_neg (Ne.symm h)]
    · simp only [dSet, if_neg hk, dGet]
      by_cases hk' : k0 = k'
      · simp [hk']
      · rw [if_neg hk', if_neg hk']
        exact ih

theorem map_fst_dSet {d : List (kappa × beta)} {k : kappa}
    (h : dMem d k = true) (v : beta) :
    (dSet d k v).map Prod.fst = d.map Prod.fst := by
  induction d with
  | nil => simp [dMem] at h
  | cons e d ih =>
    obtain ⟨k0, w⟩ := e
    by_cases hk : k0 = k
    · simp [dSet, hk]
    · simp only [dMem, List.any_cons, Bool.or_eq_true, decide_eq_true_eq] at h
      rcases h with h | h
      · exact absurd h hk
      · simp only [dSet, if_neg hk, List.map_cons]
        rw [ih (by simpa [dMem] using h)]

theorem dGet_of_mem_nodup {d : List (kappa × beta)} {k : kappa} {v : beta}
    (hnd : (d.map Prod.fst).Nodup) (h : (k, v) ∈ d) : dGet d k = some v := by
  induction d with
  | nil => simp at h
  | cons e d ih =>
    obtain ⟨k0, w⟩ := e
    simp only [List.map_cons, List.nodup_cons] at hnd
    rcases List.mem_cons.mp h with h | h
    · obtain ⟨rfl, rfl⟩ := Prod.mk.inj h.symm
      simp [dGet]
    · have hne : k0 ≠ k := by
        intro he
        subst he
        exact hnd.1 (List.mem_map.mpr ⟨(k0, v), h, rfl⟩)
      rw [dGet, if_neg hne]
      exact ih hnd.2 h

end DictLemmas

/-! ### `dedupKeepFirst` and group-merge lemmas -/

theorem mem_foldl_dKF {α : Type} [DecidableEq α] (xs : List α) :
    ∀ (acc : List α) (x : α),
      (x ∈ xs.foldl (fun acc y => if y ∈ acc then acc else acc ++ [y]) acc
        ↔ x ∈ acc ∨ x ∈ xs) := by
  induction xs with
  | nil => intro acc x; simp
  | cons y ys ih =>
    intro acc x
    simp only [List.foldl_cons]
    by_cases hy : y ∈ acc
    · rw [if_pos hy, ih]
      constructor
      · rintro (h | h)
        · exact Or.inl h
        · exact Or.inr (List.mem_cons_of_mem y h)
      · rintro (h | h)
        · exact Or.inl h
        · rcases List.mem_cons.mp h with rfl | h
          · exact Or.inl hy
          · exact Or.inr h
    · rw [if_neg hy, ih]
      constructor
      · rintro (h | h)
        · rcases List.mem_append.mp h with h | h
          · exact Or.inl h
          · rcases List.mem_singleton.mp h with rfl
            exact Or.inr (List.mem_cons_self _ _)
        · exact Or.inr (List.mem_cons_of_mem y h)
      · rintro (h | h)
        · exact Or.inl (List.mem_append.mpr (Or.inl h))
        · rcases List.mem_cons.mp h with rfl | h
          · exact Or.inl (List.mem_append.mpr (Or.inr (List.mem_singleton.mpr rfl)))
          · exact Or.inr h

theorem mem_dKF {α : Type} [DecidableEq α] {xs : List α} {x : α} :
    x ∈ dedupKeepFirst xs ↔ x ∈ xs := by
  rw [dedupKeepFirst, mem_foldl_dKF]
  simp

theorem dKF_append_single {α : Type} [DecidableEq α] (xs : List α) (x : α) :
    dedupKeepFirst (xs ++ [x])
      = if x ∈ xs then dedupKeepFirst xs else dedupKeepFirst xs ++ [x] := by
  rw [dedupKeepFirst, List.foldl_append]
  simp only [List.foldl_cons, List.foldl_nil]
  rw [show (xs.foldl (fun acc y => if y ∈ acc then acc else acc ++ [y]) [])
      = dedupKeepFirst xs from rfl]
  by_cases hx : x ∈ xs
  · rw [if_pos hx, if_pos (mem_dKF.mpr hx)]
  · rw [if_neg hx, if_neg (fun h => hx (mem_dKF.mp h))]

theorem dKF_nodup {α : Type} [DecidableEq α] (xs : List α) :
    (dedupKeepFirst xs).Nodup := by
  induction xs using List.reverseRecOn with
  | nil => simp [dedupKeepFirst]
  | append_singleton ys y ih =>
    rw [dKF_append_single]
    by_cases hy : y ∈ ys
    · rwa [if_pos hy]
    · rw [if_neg hy]
      refine List.Nodup.append ih (List.nodup_singleton y) ?_
      intro a ha hb
      rcases List.mem_singleton.mp hb with rfl
      exact hy (mem_dKF.mp ha)

theorem mergeGroupOpt_eq_none_iff {g : List RItem} :
    mergeGroupOpt g = Option.none ↔ g = [] := by
  cases g <;> simp [mergeGroupOpt]

theorem mergeGroupOpt_append_single {g : List RItem} {cur : RItem}
    (h : mergeGroupOpt g = some cur) (it : RItem) :
    mergeGroupOpt (g ++ [it]) = some (mergeDup cur it) := by
  cases g with
  | nil => simp [mergeGroupOpt] at h
  | cons base rest =>
    simp only [mergeGroupOpt, Option.some.injEq] at h
    simp only [List.cons_append, mergeGroupOpt, List.foldl_append,
      List.foldl_cons, List.foldl_nil, h]

theorem mergeDup_kind_name (cur it : RItem) :
    (mergeDup cur it).kind = cur.kind ∧ (mergeDup cur it).name = cur.name :=
  ⟨rfl, rfl⟩

theorem rkey_foldl_mergeDup (g : List RItem) (base : RItem) :
    rkey (g.foldl mergeDup base) = rkey base := by
  induction g generalizing base with
  | nil => rfl
  | cons it g ih =>
    rw [List.foldl_cons, ih]
    unfold rkey
    rw [(mergeDup_kind_name base it).1, (mergeDup_kind_name base it).2]

theorem rkey_of_mergeGroupOpt {g : List RItem} {v : RItem} {k : Str × Str}
    (h : mergeGroupOpt g = some v) (hall : ∀ x ∈ g, rkey x = k) :
    rkey v = k := by
  cases g with
  | nil => simp [mergeGroupOpt] at h
  | cons base rest =>
    simp only [mergeGroupOpt, Option.some.injEq] at h
    rw [← h, rkey_foldl_mergeDup]
    exact hall base (List.mem_cons_self _ _)

/-- The loop invariant of `dedupe_resources`: after any prefix, the `seen`
map lists the valid keys in first-occurrence order, and each key maps to the
fold of `mergeDup` over its whole group so far. -/
theorem dedupe_state_spec (items : List RItem) :
    ((items.foldl dedupeStep []).map Prod.fst
        = dedupKeepFirst ((validItems items).map rkey))
    ∧ ∀ k, dGet (items.foldl dedupeStep []) k
        = mergeGroupOpt ((validItems items).filter (fun it => rkey it = k)) := by
  induction items using List.reverseRecOn with
  | nil => exact ⟨rfl, fun _ => rfl⟩
  | append_singleton pre it ih =>
    obtain ⟨ih1, ih2⟩ := ih
    rw [List.foldl_append, List.foldl_cons, List.foldl_nil]
    have hv : validItems (pre ++ [it])
        = validItems pre ++ validItems [it] := List.filter_append _ _
    by_cases hvalid : (it.kind.truthy && it.name.truthy) = true
    · have hv1 : validItems [it] = [it] := by
        simp [validItems, List.filter, hvalid]
      have hstep : dedupeStep (pre.foldl dedupeStep []) it
          = match dGet (pre.foldl dedupeStep []) (rkey it) with
            | Option.none => pre.foldl dedupeStep [] ++ [(rkey it, it)]
            | some cur => dSet (pre.foldl dedupeStep []) (rkey it)
                (mergeDup cur it) := by
        simp only [dedupeStep]
        rw [if_neg]
        simp only [Bool.and_eq_true] at hvalid
        simp [hvalid.1, hvalid.2]
      cases hg : dGet (pre.foldl dedupeStep []) (rkey it) with
      | none =>
        rw [hstep, hg]
        have hempty : (validItems pre).filter (fun x => rkey x = rkey it) = [] := by
          apply mergeGroupOpt_eq_none_iff.mp
          rw [← ih2 (rkey it)]
          exact hg
        have hnotmem : rkey it ∉ (validItems pre).map rkey := by
          intro hmem
          obtain ⟨x, hx, hrk⟩ := List.mem_map.mp hmem
          have hxm : x ∈ (validItems pre).filter (fun x => rkey x = rkey it) :=
            List.mem_filter.mpr ⟨hx, by simp [hrk]⟩
          rw [hempty] at hxm
          simp at hxm
        constructor
        · rw [List.map_append, List.map_cons, List.map_nil, hv, List.map_append,
            hv1, List.map_cons, List.map_nil, dKF_append_single,
            if_neg hnotmem, ih1]
        · intro k
          rw [hv, hv1, List.filter_append]
          by_cases hk : rkey it = k
          · rw [dGet_append_single, ← hk, hg, hempty, List.nil_append]
            simp [mergeGroupOpt, List.filter_cons]
          · have hfil : [it].filter (fun x => rkey x = k) = [] := by
              simp [List.filter_cons, hk]
            rw [hfil, List.append_nil, dGet_append_single]
            cases hgk : dGet (pre.foldl dedupeStep []) k with
            | none =>
              rw [← ih2 k, hgk]
              simp [hk]
            | some w =>
              rw [← ih2 k, hgk]
      | some cur =>
        rw [hstep, hg]
        have hmg : mergeGroupOpt
            ((validItems pre).filter (fun x => rkey x = rkey it)) = some cur := by
          rw [← ih2 (rkey it)]; exact hg
        have hmem : dMem (pre.foldl dedupeStep []) (rkey it) = true :=
          dMem_of_dGet_some hg
        have hmem_key : rkey it ∈ (validItems pre).map rkey := by
          rcases hfe : (validItems pre).filter (fun x => rkey x = rkey it)
            with _ | ⟨base, rest⟩
          · rw [hfe] at hmg; simp [mergeGroupOpt] at hmg
          · have hbm : base ∈ (validItems pre).filter
                (fun x => rkey x = rkey it) := by
              rw [hfe]; exact List.mem_cons_self _ _
            have h2 := List.mem_filter.mp hbm
            exact List.mem_map.mpr ⟨base, h2.1, by simpa using h2.2⟩
        constructor
        · rw [map_fst_dSet hmem, hv, hv1, List.map_append, List.map_cons,
            List.map_nil, dKF_append_single, if_pos hmem_key, ih1]
        · intro k
          rw [hv, hv1, List.filter_append]
          by_cases hk : k = rkey it
          · rw [hk, dGet_dSet_self hmem]
            have hfil : [it].filter (fun x => rkey x = rkey it) = [it] := by
              simp [List.filter_cons]
            rw [hfil]
            exact (mergeGroupOpt_append_single hmg it).symm
          · rw [dGet_dSet_ne hk]
            have hne : rkey it ≠ k := fun h => hk h.symm
            have hfil : [it].filter (fun x => rkey x = k) = [] := by
              simp [List.filter_cons, hne]
            rw [hfil, List.append_nil]
            exact ih2 k
    · have hv1 : validItems [it] = [] := by
        simp [validItems, List.filter_cons, Bool.of_not_eq_true hvalid]
      have hstep : dedupeStep (pre.foldl dedupeStep []) it
          = pre.foldl dedupeStep [] := by
        simp only [dedupeStep]
        rw [if_pos]
        revert hvalid
        cases it.kind.truthy <;> cases it.name.truthy <;> simp
      rw [hstep, hv, hv1, List.append_nil]
      exact ⟨ih1, ih2⟩

/-- **C3** (corrected).  `dedupe_resources` dedupes by `(str(kind),
str(name))`: output entries appear in first-occurrence order of the valid
keys, and each output entry is the fold of the duplicate-merge over its
whole group, where the merge adopts a duplicate's non-`None` weight only
when the base's weight is `None` and adds only **new** `extra` keys
(`setdefault`).  The original claim's "colliding extra values are
accumulated into a list" is amended to: a colliding extra key keeps the
base's existing value (see the counterexample).  The spec's concrete
example (weight adopted, disjoint extras merged) holds. -/
theorem C3_dedupe_resources :
    (∀ items : List RItem,
      ((dedupe_resources items).map rkey
          = dedupKeepFirst ((validItems items).map rkey))
      ∧ ∀ it', it' ∈ dedupe_resources items →
          mergeGroupOpt ((validItems items).filter (fun it => rkey it = rkey it'))
            = some it')
    ∧ dedupe_resources
        [ { kind := .str (S "lora"), name := .str (S "style"),
            weight := .none, extra := .dict [(S "a", .int 1)] }
        , { kind := .str (S "lora"), name := .str (S "style"),
            weight := .float (.finite (mkRat 1 2)), extra := .dict [(S "b", .int 2)] } ]
      = [ { kind := .str (S "lora"), name := .str (S "style"),
            weight := .float (.finite (mkRat 1 2)),
            extra := .dict [(S "a", .int 1), (S "b", .int 2)] } ] := by
  constructor
  · intro items
    obtain ⟨h1, h2⟩ := dedupe_state_spec items
    have hnd : ((items.foldl dedupeStep []).map Prod.fst).Nodup := by
      rw [h1]; exact dKF_nodup _
    have hkey : ∀ e ∈ items.foldl dedupeStep [], rkey e.2 = e.1 := by
      intro e he
      obtain ⟨k, v⟩ := e
      have hget := dGet_of_mem_nodup hnd he
      have hmg := h2 k
      rw [hget] at hmg
      refine rkey_of_mergeGroupOpt hmg.symm ?_
      intro x hx
      have := (List.mem_filter.mp hx).2
      simpa using this
    constructor
    · show ((items.foldl dedupeStep []).map (·.2)).map rkey = _
      rw [List.map_map]
      refine Eq.trans ?_ h1
      apply List.map_congr_left
      intro e he
      exact hkey e he
    · intro it' hit
      obtain ⟨e, he, hev⟩ := List.mem_map.mp hit
      have hget := dGet_of_mem_nodup hnd he
      have hrk : rkey it' = e.1 := by rw [← hev]; exact hkey e he
      rw [hrk, ← h2 e.1, hget, hev]
  · decide

/-- **C3** witness: the general characterization applied at the spec's
concrete dedup example. -/
theorem C3_dedupe_resources_witness :
    mergeGroupOpt ((validItems
        [ { kind := .str (S "lora"), name := .str (S "style"),
            weight := .none, extra := .dict [(S "a", .int 1)] }
        , { kind := .str (S "lora"), name := .str (S "style"),
            weight := .float (.finite (mkRat 1 2)), extra := .dict [(S "b", .int 2)] } ]).filter
          (fun it => rkey it = rkey
            { kind := .str (S "lora"), name := .str (S "style"),
              weight := .float (.finite (mkRat 1 2)),
              extra := .dict [(S "a", .int 1), (S "b", .int 2)] }))
      = some
        { kind := .str (S "lora"), name := .str (S "style"),
          weight := .float (.finite (mkRat 1 2)),
          extra := .dict [(S "a", .int 1), (S "b", .int 2)] } := by
  have h := C3_dedupe_resources
  refine (h.1 _).2 _ ?_
  rw [h.2]
  exact List.mem_singleton.mpr rfl

/-- **C3** counterexample to the claim as stated: two duplicates whose
`extra` dicts collide on key `a` merge to the **base's** value `{a: 1}` —
the colliding values are *not* accumulated into a list `{a: [1, 2]}`
(the source uses `dict.setdefault`, which never touches existing keys). -/
theorem C3_counterexample :
    dedupe_resources
      [ { kind := .str (S "lora"), name := .str (S "style"),
          weight := .none, extra := .dict [(S "a", .int 1)] }
      , { kind := .str (S "lora"), name := .str (S "style"),
          weight := .none, extra := .dict [(S "a", .int 2)] } ]
      = [ { kind := .str (S "lora"), name := .str (S "style"),
            weight := .none, extra := .dict [(S "a", .int 1)] } ]
    ∧ PyVal.dict [(S "a", .int 1)]
        ≠ PyVal.dict [(S "a", .list [.int 1, .int 2])] := by
  exact ⟨by decide, by decide⟩

/-! ### Upsert and rewrite-pass theorems -/

theorem mvLookup_map_update {table : List MVRow} {mvid : Int} {old : MVRow}
    (h : mvLookup table mvid = some old) (f : MVRow → MVRow)
    (hf : (f old).model_version_id = mvid) :
    mvLookup (table.map (fun r =>
        if r.model_version_id = mvid then f r else r)) mvid = some (f old) := by
  induction table with
  | nil => simp [mvLookup] at h
  | cons r rest ih =>
    by_cases hr : r.model_version_id = mvid
    · have hold : r = old := by
        simp only [mvLookup, List.find?_cons, decide_eq_true hr] at h
        exact Option.some.inj h
      subst hold
      simp only [List.map_cons, if_pos hr, mvLookup, List.find?_cons,
        decide_eq_true hf]
    · have h2 : mvLookup rest mvid = some old := by
        simp only [mvLookup, List.find?_cons, decide_eq_false hr] at h
        exact h
      simp only [List.map_cons, if_neg hr, mvLookup, List.find?_cons,
        decide_eq_false hr]
      exact ih h2

/-- **C9** (confirmed).  `upsert_mv` on an existing `model_version_id`
updates exactly that row: every one of `kind`, `name`, `urn`, `sha256`,
`extra_json` takes the newly imported value when it is non-null and
otherwise keeps the existing value (`COALESCE(excluded, existing)`), and
every other row of the table is unchanged. -/
theorem C9_upsert_mv_coalesce :
    ∀ (table : List MVRow) (mvid : Int) (kind name urn sha : Option Str)
      (extra : Option (List (Str × PyVal))) (old : MVRow),
      mvLookup table mvid = some old →
      (mvLookup (upsert_mv table mvid kind name urn sha extra) mvid
        = some { model_version_id := mvid
                 kind := kind.orElse (fun _ => old.kind)
                 name := name.orElse (fun _ => old.name)
                 urn := urn.orElse (fun _ => old.urn)
                 sha256 := sha.orElse (fun _ => old.sha256)
                 extra_json := (extra.map (fun d => pyJsonDumps (.dict d))).orElse
                     (fun _ => old.extra_json) })
      ∧ ∀ r ∈ table, r.model_version_id ≠ mvid →
          r ∈ upsert_mv table mvid kind name urn sha extra := by
  intro table mvid kind name urn sha extra old h
  have hany : (table.any (fun r => r.model_version_id = mvid)) = true := by
    have hmem := List.mem_of_find?_eq_some h
    have hpred := List.find?_some h
    simp only [List.any_eq_true]
    exact ⟨old, hmem, hpred⟩
  constructor
  · simp only [upsert_mv, if_pos hany]
    exact mvLookup_map_update h _ rfl
  · intro r hr hne
    simp only [upsert_mv, if_pos hany]
    refine List.mem_map.mpr ⟨r, hr, ?_⟩
    rw [if_neg hne]

/-- **C9** witness: a sparse second import (only `name` non-null) on top of
a richer row keeps the earlier `kind` and adopts the new `name`. -/
theorem C9_upsert_mv_coalesce_witness :
    mvLookup (upsert_mv [{ model_version_id := 123, kind := some (S "checkpoint") }]
        123 Option.none (some (S "foo")) Option.none Option.none Option.none) 123
      = some { model_version_id := 123, kind := some (S "checkpoint")
               name := some (S "foo") } := by
  have h := (C9_upsert_mv_coalesce
      [{ model_version_id := 123, kind := some (S "checkpoint") }]
      123 Option.none (some (S "foo")) Option.none Option.none Option.none
      { model_version_id := 123, kind := some (S "checkpoint") } (by decide)).1
  rw [h]
  rfl

/-- **C8** (corrected).  The rewrite pass never deletes a row: an
unselected row, an unparseable reference, or a reference absent from the
lookup table leaves the row completely unchanged.  A resolved row is
overwritten as follows: `kind` becomes the resolved kind, with a falsy
resolved kind written as the literal `"unknown"`; `name` falls back
urn → name → original reference; `hash` takes the resolved `sha256` when
truthy and otherwise **keeps the row's original hash** (the claim's
"overwritten with the resolved values" does not hold for a null resolved
sha256 — see the counterexample); the `resource_ref` trace block is merged
into `extra_json` non-destructively with collisions accumulated into a
list; `image_id` and `weight` are untouched. -/
theorem C8_rewrite_resources :
    ∀ (mvTable : List MVRow) (rows : List ResRow),
      (rewrite_resources mvTable rows).length = rows.length
      ∧ ∀ (i : Nat) (r : ResRow), rows[i]? = some r →
        ((resSelected r = false → (rewrite_resources mvTable rows)[i]? = some r)
        ∧ (rowMvidRef r = Option.none →
            (rewrite_resources mvTable rows)[i]? = some r)
        ∧ (∀ mvid, rowMvidRef r = some mvid →
            mvLookup mvTable (mvid : Int) = Option.none →
            (rewrite_resources mvTable rows)[i]? = some r)
        ∧ (∀ mvid mv, resSelected r = true → rowMvidRef r = some mvid →
            mvLookup mvTable (mvid : Int) = some mv →
            (rewrite_resources mvTable rows)[i]? = some
              { r with
                kind := some (pyOrStr mv.kind (S "unknown"))
                name := some (pyOrStr mv.urn
                  (pyOrStr mv.name (S "modelVersionId:" ++ PyVal.intRepr (mvid : Int))))
                hash := orFalsyStr mv.sha256 r.hash
                extra_json := some (merge_extra_json r.extra_json
                  [(S "resource_ref", .dict
                    [ (S "original_kind", optStrVal r.kind)
                    , (S "original_name", optStrVal r.name)
                    , (S "original_hash", optStrVal r.hash)
                    , (S "model_version_id", .int (mvid : Int)) ])]) })) := by
  intro mvTable rows
  refine ⟨by simp [rewrite_resources], ?_⟩
  intro i r hi
  have hmap : (rewrite_resources mvTable rows)[i]?
      = some (rewriteRow mvTable r) := by
    simp [rewrite_resources, List.getElem?_map, hi]
  refine ⟨?_, ?_, ?_, ?_⟩
  · intro hsel
    rw [hmap]
    simp [rewriteRow, hsel]
  · intro hparse
    rw [hmap]
    by_cases hsel : resSelected r
    · simp [rewriteRow, hsel, hparse]
    · simp [rewriteRow, hsel]
  · intro mvid hparse hlook
    rw [hmap]
    by_cases hsel : resSelected r
    · simp [rewriteRow, hsel, hparse, hlook]
    · simp [rewriteRow, hsel]
  · intro mvid mv hsel hparse hlook
    rw [hmap]
    simp [rewriteRow, hsel, hparse, hlook]

/-- **C8** witness: the resolved rewrite applied to a lookup row carrying
kind, urn and sha256, matching the repository's own test scenario. -/
theorem C8_rewrite_resources_witness :
    (rewrite_resources
        [ { model_version_id := 123, kind := some (S "checkpoint")
            name := some (S "foo"), urn := some (S "urn:civitai:model:1:version:123")
            sha256 := some (S "cc") } ]
        [ { image_id := some (S "img1"), kind := some (S "resource_ref")
            name := some (S "modelVersionId:123"), weight := some (mkRat 1 1) } ])[0]?
      = some
        { image_id := some (S "img1")
          kind := some (S "checkpoint")
          name := some (S "urn:civitai:model:1:version:123")
          hash := some (S "cc")
          extra_json := some (merge_extra_json Option.none
            [(S "resource_ref", .dict
              [ (S "original_kind", optStrVal (some (S "resource_ref")))
              , (S "original_name", optStrVal (some (S "modelVersionId:123")))
              , (S "original_hash", optStrVal Option.none)
              , (S "model_version_id", .int 123) ])])
          weight := some (mkRat 1 1) } := by
  have h := ((C8_rewrite_resources
      [ { model_version_id := 123, kind := some (S "checkpoint")
          name := some (S "foo"), urn := some (S "urn:civitai:model:1:version:123")
          sha256 := some (S "cc") } ]
      [ { image_id := some (S "img1"), kind := some (S "resource_ref")
          name := some (S "modelVersionId:123"), weight := some (mkRat 1 1) } ]).2
      0 { image_id := some (S "img1"), kind := some (S "resource_ref")
          name := some (S "modelVersionId:123"), weight := some (mkRat 1 1) } rfl).2.2.2
      123
      { model_version_id := 123, kind := some (S "checkpoint")
        name := some (S "foo"), urn := some (S "urn:civitai:model:1:version:123")
        sha256 := some (S "cc") }
      (by decide) (by decide) (by decide)
  rw [h]
  decide

/-- **C8** counterexample to the claim as stated: a lookup entry with a
null `sha256` does **not** overwrite the row's hash with the (null)
resolved value — the original hash `"abc"` survives. -/
theorem C8_counterexample :
    (rewrite_resources
        [ { model_version_id := 5, kind := some (S "checkpoint") } ]
        [ { kind := some (S "resource_ref"), name := some (S "modelVersionId:5")
            hash := some (S "abc") } ]).map (fun r => r.hash)
      = [some (S "abc")]
    ∧ (MVRow.sha256 { model_version_id := 5, kind := some (S "checkpoint") }
        = Option.none) := by
  exact ⟨by decide, by decide⟩

/-- **C4** (corrected).  For all string-or-`None` inputs, neither output of
`enforce_pos_neg_separation` contains any tail-marker substring (matched
case-insensitively anywhere), any field that becomes empty is returned as
`None` (a returned string is never empty), and the documented concrete
example holds.  The original claim's assertion that the positive output
never contains the text `"Negative prompt:"` is amended to: the positive
output never contains an occurrence of that marker at a word boundary
(the source regex is `\bNegative prompt:`, so an occurrence directly
preceded by a word character is not split off — see the counterexample). -/
theorem C4_separation_contract :
    (∀ pos neg : PyVal,
      (∀ o, (enforce_pos_neg_separation pos neg).1 = some o →
          o ≠ [] ∧ (∀ w ∈ claimTailMarkers, ∀ i, isPrefixCI w (o.drop i) = false)
            ∧ ∀ j, negMatchAt o j = false)
      ∧ (∀ o, (enforce_pos_neg_separation pos neg).2 = some o →
          o ≠ [] ∧ ∀ w ∈ claimTailMarkers, ∀ i, isPrefixCI w (o.drop i) = false))
    ∧ enforce_pos_neg_separation
        (.str (S "A cat. Negative prompt: blurry Steps: 30, Sampler: Euler")) .none
      = (some (S "A cat."), some (S "blurry")) := by
  refine ⟨fun pos neg => ⟨fun o ho => ?_, fun o ho => ?_⟩, ?_⟩
  · obtain ⟨s1, hs1, hout, hne⟩ := cutOptTail_some ho
    refine ⟨hne, cut_out_no_claimMarker s1 hout, ?_⟩
    exact negFree_pos_out (fun p hp => cleanPNInput_noLead hp) ho
  · obtain ⟨s1, hs1, hout, hne⟩ := cutOptTail_some ho
    exact ⟨hne, cut_out_no_claimMarker s1 hout⟩
  · decide

/-- **C4** witness: the general contract applied at the documented example. -/
theorem C4_separation_contract_witness :
    S "A cat." ≠ [] ∧ isPrefixCI (S "steps:") ((S "A cat.").drop 0) = false := by
  have h := C4_separation_contract
  have h2 := (h.1
      (.str (S "A cat. Negative prompt: blurry Steps: 30, Sampler: Euler")) .none).1
      (S "A cat.") (by rw [h.2])
  exact ⟨h2.1, h2.2.1 (S "steps:") (by simp [claimTailMarkers]) 0⟩

/-- **C4** counterexample to the claim as stated: on input
`"xNegative prompt: blurry"` the `\b` in `RE_NEG_MARKER` does not fire
(`x` is a word character), so the positive output still contains the
literal marker text `"Negative prompt:"` (at offset 1). -/
theorem C4_counterexample :
    (enforce_pos_neg_separation (.str (S "xNegative prompt: blurry")) .none).1
        = some (S "xNegative prompt: blurry")
    ∧ isPrefixCI negLit ((S "xNegative prompt: blurry").drop 1) = true := by
  constructor
  · decide
  · decide


/-! ### KSampler widget heuristic theorems -/

theorem optOr_none {α : Type} (a : Option α) : optOr a Option.none = a := by
  cases a <;> rfl

theorem KOut_ext {a b : KOut} (h1 : a.sampler = b.sampler)
    (h2 : a.scheduler = b.scheduler) (h3 : a.seed = b.seed)
    (h4 : a.steps = b.steps) (h5 : a.cfg_scale = b.cfg_scale) : a = b := by
  cases a
  cases b
  simp only [KOut.mk.injEq]
  exact ⟨h1, h2, h3, h4, h5⟩

theorem kfold1_sampler (values : List PyVal) :
    ∀ o : KOut, (values.foldl kstep1 o).sampler
      = optOr o.sampler ((strValsOf values).find? looks_like_sampler) := by
  induction values with
  | nil => intro o; exact (optOr_none _).symm
  | cons v vs ih =>
    intro o
    rw [List.foldl_cons, ih]
    cases v
    case str s =>
      by_cases hp : looks_like_sampler s = true <;> cases ho : o.sampler <;>
        simp [kstep1, strValsOf, List.filterMap_cons, List.find?_cons, hp, ho, optOr]
    all_goals simp [kstep1, strValsOf, List.filterMap_cons]

theorem kfold1_scheduler (values : List PyVal) :
    ∀ o : KOut, (values.foldl kstep1 o).scheduler
      = optOr o.scheduler ((strValsOf values).find? isSchedulerKey) := by
  induction values with
  | nil => intro o; exact (optOr_none _).symm
  | cons v vs ih =>
    intro o
    rw [List.foldl_cons, ih]
    cases v
    case str s =>
      by_cases hp : isSchedulerKey s = true <;> cases ho : o.scheduler <;>
        simp [kstep1, strValsOf, List.filterMap_cons, List.find?_cons, hp, ho, optOr]
    all_goals simp [kstep1, strValsOf, List.filterMap_cons]

theorem kfold1_seed (values : List PyVal) :
    ∀ o : KOut, (values.foldl kstep1 o).seed = o.seed := by
  induction values with
  | nil => intro o; rfl
  | cons v vs ih =>
    intro o
    rw [List.foldl_cons, ih]
    cases v <;> rfl

theorem kfold1_steps (values : List PyVal) :
    ∀ o : KOut, (values.foldl kstep1 o).steps = o.steps := by
  induction values with
  | nil => intro o; rfl
  | cons v vs ih =>
    intro o
    rw [List.foldl_cons, ih]
    cases v <;> rfl

theorem kfold1_cfg (values : List PyVal) :
    ∀ o : KOut, (values.foldl kstep1 o).cfg_scale = o.cfg_scale := by
  induction values with
  | nil => intro o; rfl
  | cons v vs ih =>
    intro o
    rw [List.foldl_cons, ih]
    cases v <;> rfl

theorem kstep2_sampler (o : KOut) (v : PyVal) :
    (kstep2 o v).sampler = o.sampler := by
  cases hti : to_int' v <;>
    simp [kstep2, hti, apply_ite KOut.sampler]

theorem kstep2_scheduler (o : KOut) (v : PyVal) :
    (kstep2 o v).scheduler = o.scheduler := by
  cases hti : to_int' v <;>
    simp [kstep2, hti, apply_ite KOut.scheduler]

theorem kstep2_cfg (o : KOut) (v : PyVal) :
    (kstep2 o v).cfg_scale = o.cfg_scale := by
  cases hti : to_int' v <;>
    simp [kstep2, hti, apply_ite KOut.cfg_scale]

theorem kfold2_sampler (values : List PyVal) :
    ∀ o : KOut, (values.foldl kstep2 o).sampler = o.sampler := by
  induction values with
  | nil => intro o; rfl
  | cons v vs ih =>
    intro o
    rw [List.foldl_cons, ih, kstep2_sampler]

theorem kfold2_scheduler (values : List PyVal) :
    ∀ o : KOut, (values.foldl kstep2 o).scheduler = o.scheduler := by
  induction values with
  | nil => intro o; rfl
  | cons v vs ih =>
    intro o
    rw [List.foldl_cons, ih, kstep2_scheduler]

theorem kfold2_cfg (values : List PyVal) :
    ∀ o : KOut, (values.foldl kstep2 o).cfg_scale = o.cfg_scale := by
  induction values with
  | nil => intro o; rfl
  | cons v vs ih =>
    intro o
    rw [List.foldl_cons, ih, kstep2_cfg]

theorem kfold2_seed (values : List PyVal) :
    ∀ o : KOut, (values.foldl kstep2 o).seed
      = optOr o.seed ((intValsOf values).find? seedPred) := by
  induction values with
  | nil => intro o; exact (optOr_none _).symm
  | cons v vs ih =>
    intro o
    rw [List.foldl_cons, ih]
    cases hti : to_int' v with
    | none => simp [kstep2, hti, intValsOf, List.filterMap_cons]
    | some i =>
      by_cases h1 : seedPred i = true <;> cases ho : o.seed <;>
        simp [kstep2, hti, intValsOf, List.filterMap_cons, List.find?_cons,
          h1, ho, optOr, apply_ite KOut.seed]

theorem kfold2_steps (values : List PyVal) :
    ∀ o : KOut, (values.foldl kstep2 o).steps
      = optOr o.steps ((intValsOf values).find? stepsPred) := by
  induction values with
  | nil => intro o; exact (optOr_none _).symm
  | cons v vs ih =>
    intro o
    rw [List.foldl_cons, ih]
    cases hti : to_int' v with
    | none => simp [kstep2, hti, intValsOf, List.filterMap_cons]
    | some i =>
      by_cases h2 : stepsPred i = true
      · have h1 : seedPred i = false := by
          simp only [stepsPred, Bool.and_eq_true, decide_eq_true_eq] at h2
          simp only [seedPred, decide_eq_false_iff_not]
          omega
        cases ho : o.steps <;>
          simp [kstep2, hti, intValsOf, List.filterMap_cons, List.find?_cons,
            h1, h2, ho, optOr, apply_ite KOut.steps]
      · simp [kstep2, hti, intValsOf, List.filterMap_cons, List.find?_cons,
          h2, optOr, apply_ite KOut.steps]

theorem kstep3_seed (o : KOut) (v : PyVal) : (kstep3 o v).seed = o.seed := by
  cases hf : to_float' v with
  | none => simp [kstep3, hf]
  | some f => cases f <;> simp [kstep3, hf, apply_ite KOut.seed]

theorem kstep3_steps (o : KOut) (v : PyVal) : (kstep3 o v).steps = o.steps := by
  cases hf : to_float' v with
  | none => simp [kstep3, hf]
  | some f => cases f <;> simp [kstep3, hf, apply_ite KOut.steps]

theorem kstep3_sampler (o : KOut) (v : PyVal) :
    (kstep3 o v).sampler = o.sampler := by
  cases hf : to_float' v with
  | none => simp [kstep3, hf]
  | some f => cases f <;> simp [kstep3, hf, apply_ite KOut.sampler]

theorem kstep3_scheduler (o : KOut) (v : PyVal) :
    (kstep3 o v).scheduler = o.scheduler := by
  cases hf : to_float' v with
  | none => simp [kstep3, hf]
  | some f => cases f <;> simp [kstep3, hf, apply_ite KOut.scheduler]

theorem kfold3_sampler (values : List PyVal) :
    ∀ o : KOut, (values.foldl kstep3 o).sampler = o.sampler := by
  induction values with
  | nil => intro o; rfl
  | cons v vs ih =>
    intro o
    rw [List.foldl_cons, ih, kstep3_sampler]

theorem kfold3_scheduler (values : List PyVal) :
    ∀ o : KOut, (values.foldl kstep3 o).scheduler = o.scheduler := by
  induction values with
  | nil => intro o; rfl
  | cons v vs ih =>
    intro o
    rw [List.foldl_cons, ih, kstep3_scheduler]

theorem kfold3_seed (values : List PyVal) :
    ∀ o : KOut, (values.foldl kstep3 o).seed = o.seed := by
  induction values with
  | nil => intro o; rfl
  | cons v vs ih =>
    intro o
    rw [List.foldl_cons, ih, kstep3_seed]

theorem kfold3_steps (values : List PyVal) :
    ∀ o : KOut, (values.foldl kstep3 o).steps = o.steps := by
  induction values with
  | nil => intro o; rfl
  | cons v vs ih =>
    intro o
    rw [List.foldl_cons, ih, kstep3_steps]

theorem kstep3_cfg_eq (o : KOut) (v : PyVal) (q : ℚ)
    (hf : to_float' v = some (.finite q)) :
    (kstep3 o v).cfg_scale
      = if cfgPred o.steps o.seed q && o.cfg_scale.isNone
          then some (.finite q) else o.cfg_scale := by
  simp only [kstep3, hf, cfgPred]
  by_cases h1 : PyFloat.ratLeB (mkRat 1 10) q = true <;>
  by_cases h2 : PyFloat.ratLeB q 30 = true <;>
  by_cases hA : (o.steps == some (PyFloat.ratTrunc q)) = true <;>
  by_cases hB : (o.seed == some (PyFloat.ratTrunc q)) = true <;>
  cases hC : o.cfg_scale <;>
    simp [h1, h2, hA, hB, hC]

theorem kstep3_skip (o : KOut) (v : PyVal)
    (hf : ∀ q : ℚ, to_float' v ≠ some (.finite q)) : kstep3 o v = o := by
  unfold kstep3
  cases hv : to_float' v with
  | none => rfl
  | some f => cases f with
    | finite q => exact absurd hv (hf q)
    | inf => rfl
    | ninf => rfl
    | nan => rfl

theorem kfold3_cfg (values : List PyVal) :
    ∀ o : KOut, (values.foldl kstep3 o).cfg_scale
      = optOr o.cfg_scale
          (((finFloatsOf values).find? (cfgPred o.steps o.seed)).map PyFloat.finite) := by
  induction values with
  | nil => intro o; exact (optOr_none _).symm
  | cons v vs ih =>
    intro o
    rw [List.foldl_cons, ih, kstep3_steps, kstep3_seed]
    cases hf : to_float' v with
    | none =>
      have hst : kstep3 o v = o := kstep3_skip o v (by simp [hf])
      have hff : finFloatsOf (v :: vs) = finFloatsOf vs := by
        simp [finFloatsOf, List.filterMap_cons, hf]
      rw [hst, hff]
    | some f =>
      cases f with
      | finite q =>
        have hff : finFloatsOf (v :: vs) = q :: finFloatsOf vs := by
          simp [finFloatsOf, List.filterMap_cons, hf]
        rw [hff, List.find?_cons, kstep3_cfg_eq o v q hf]
        cases hp : cfgPred o.steps o.seed q <;> cases hc : o.cfg_scale <;>
          simp [hp, hc, optOr]
      | inf =>
        have hst : kstep3 o v = o := kstep3_skip o v (by simp [hf])
        have hff : finFloatsOf (v :: vs) = finFloatsOf vs := by
          simp [finFloatsOf, List.filterMap_cons, hf]
        rw [hst, hff]
      | ninf =>
        have hst : kstep3 o v = o := kstep3_skip o v (by simp [hf])
        have hff : finFloatsOf (v :: vs) = finFloatsOf vs := by
          simp [finFloatsOf, List.filterMap_cons, hf]
        rw [hst, hff]
      | nan =>
        have hst : kstep3 o v = o := kstep3_skip o v (by simp [hf])
        have hff : finFloatsOf (v :: vs) = finFloatsOf vs := by
          simp [finFloatsOf, List.filterMap_cons, hf]
        rw [hst, hff]

/-- The stateful three-pass widget heuristic equals its declarative
first-match description. -/
theorem kwidget_eq (values : List PyVal) :
    parse_ksampler_widgets values = kwidgetSpec values := by
  have h1sam : (values.foldl kstep1 ({} : KOut)).sampler
      = (strValsOf values).find? looks_like_sampler := kfold1_sampler values {}
  have h1sch : (values.foldl kstep1 ({} : KOut)).scheduler
      = (strValsOf values).find? isSchedulerKey := kfold1_scheduler values {}
  have h1seed := kfold1_seed values ({} : KOut)
  have h1steps := kfold1_steps values ({} : KOut)
  have h1cfg := kfold1_cfg values ({} : KOut)
  have h2seed : (values.foldl kstep2 (values.foldl kstep1 {})).seed
      = (intValsOf values).find? seedPred := by
    rw [kfold2_seed, h1seed]; rfl
  have h2steps : (values.foldl kstep2 (values.foldl kstep1 {})).steps
      = (intValsOf values).find? stepsPred := by
    rw [kfold2_steps, h1steps]; rfl
  apply KOut_ext
  · rw [show parse_ksampler_widgets values
        = values.foldl kstep3 (values.foldl kstep2 (values.foldl kstep1 {}))
        from rfl,
      kfold3_sampler, kfold2_sampler, h1sam]
    rfl
  · rw [show parse_ksampler_widgets values
        = values.foldl kstep3 (values.foldl kstep2 (values.foldl kstep1 {}))
        from rfl,
      kfold3_scheduler, kfold2_scheduler, h1sch]
    rfl
  · rw [show parse_ksampler_widgets values
        = values.foldl kstep3 (values.foldl kstep2 (values.foldl kstep1 {}))
        from rfl,
      kfold3_seed, h2seed]
    rfl
  · rw [show parse_ksampler_widgets values
        = values.foldl kstep3 (values.foldl kstep2 (values.foldl kstep1 {}))
        from rfl,
      kfold3_steps, h2steps]
    rfl
  · rw [show parse_ksampler_widgets values
        = values.foldl kstep3 (values.foldl kstep2 (values.foldl kstep1 {}))
        from rfl,
      kfold3_cfg, h2seed, h2steps, kfold2_cfg, h1cfg]
    rfl

/-- **C5** (corrected).  The stateful widget heuristic is exactly the
declarative first-match classification `kwidgetSpec` — with the amended
cfg rule: a float in `[0.1, 30]` becomes `cfg_scale` only when its `int()`
**truncation** differs from the already-assigned `steps` and `seed` (the
claim's "not equal to the already-assigned steps or seed" is false for
non-integer floats, see the counterexample).  The documented
CheckpointLoaderSimple + KSamplerAdvanced example extracts exactly
`model="model.safetensors"`, `seed=123456789`, `steps=20`,
`cfg_scale=7.0`, `sampler="euler"`, `scheduler="simple"`. -/
theorem C5_extractor_heuristic :
    (∀ values : List PyVal, parse_ksampler_widgets values = kwidgetSpec values)
    ∧ extract_comfyui_params C5graph
      = { model := some (S "model.safetensors")
          sampler := some (S "euler")
          scheduler := some (S "simple")
          seed := some 123456789
          steps := some 20
          cfg_scale := some (.finite (mkRat 7 1)) } := by
  exact ⟨kwidget_eq, by decide⟩

/-- **C5** counterexample to the claim as stated: in
`widgets_values = [5, 5.5]` the float `5.5` lies in `[0.1, 30]` and is
**not equal** to the assigned `steps = 5`, so the claim classifies it as
`cfg_scale = 5.5`; the source compares `int(5.5) == 5` and skips it, so no
`cfg_scale` is produced. -/
theorem C5_counterexample :
    (parse_ksampler_widgets [.int 5, .float (.finite (mkRat 11 2))]).steps
        = some 5
    ∧ (parse_ksampler_widgets [.int 5, .float (.finite (mkRat 11 2))]).cfg_scale
        = Option.none
    ∧ (PyFloat.ratLeB (mkRat 1 10) (mkRat 11 2)
        && PyFloat.ratLeB (mkRat 11 2) (mkRat 30 1)) = true
    ∧ PyFloat.finite (mkRat 11 2) ≠ PyFloat.finite (mkRat 5 1) := by
  exact ⟨by decide, by decide, by decide, by decide⟩

theorem foldl_skipBool {β : Type} (step : β → PyVal → β)
    (hstep : ∀ (o : β) (b : Bool), step o (.bool b) = o) (values : List PyVal) :
    ∀ o : β, (values.filter (fun v => !v.isBool)).foldl step o
      = values.foldl step o := by
  induction values with
  | nil => intro o; rfl
  | cons v vs ih =>
    intro o
    cases v
    case bool b =>
      rw [List.filter_cons, if_neg (by simp [PyVal.isBool]), List.foldl_cons, hstep]
      exact ih o
    all_goals
      rw [List.filter_cons, if_pos (by simp [PyVal.isBool]), List.foldl_cons,
        List.foldl_cons]
      exact ih _

/-- **C10** (confirmed).  Boolean widget entries are invisible to the
KSampler widget heuristic: the tolerant coercers return `None` on
booleans (despite `bool` being an `int` subtype in Python, `_to_int` and
`_to_float` reject it first), a boolean is not a string, and therefore
deleting every boolean entry from `widgets_values` leaves
`parse_ksampler_widgets` unchanged — a leading `True`/`False` flag such as
KSamplerAdvanced's `add_noise` is never classified as seed, steps or
cfg_scale. -/
theorem C10_bools_never_classified :
    (∀ b : Bool, to_int' (.bool b) = Option.none
      ∧ to_float' (.bool b) = Option.none)
    ∧ ∀ values : List PyVal,
        parse_ksampler_widgets (values.filter (fun v => !v.isBool))
          = parse_ksampler_widgets values := by
  refine ⟨fun b => ⟨rfl, rfl⟩, fun values => ?_⟩
  show (values.filter (fun v => !v.isBool)).foldl kstep3 _ = _
  rw [foldl_skipBool kstep1 (fun o b => rfl) values,
    foldl_skipBool kstep2 (fun o b => rfl) values,
    foldl_skipBool kstep3 (fun o b => rfl) values]
  rfl

/-! ### Tokenizer theorems -/

theorem mem_of_getLast' {α : Type} {l : List α} {a : α}
    (h : l.getLast? = some a) : a ∈ l := by
  rw [List.getLast?_eq_some_iff] at h
  obtain ⟨l2, rfl⟩ := h
  simp

theorem dSet_map_fst {κ β : Type} [DecidableEq κ] (d : List (κ × β)) (k : κ)
    (v : β) :
    (dSet d k v).map Prod.fst
      = if k ∈ d.map Prod.fst then d.map Prod.fst
        else d.map Prod.fst ++ [k] := by
  induction d with
  | nil => simp [dSet]
  | cons e rest ih =>
    by_cases he : e.1 = k
    · rw [show (e :: rest) = ((e.1, e.2) :: rest) from rfl, dSet]
      rw [if_pos he]
      simp [he]
    · rw [show (e :: rest) = ((e.1, e.2) :: rest) from rfl, dSet]
      rw [if_neg he]
      have hne : ¬ k = e.1 := fun hc => he hc.symm
      simp only [List.map_cons, List.mem_cons, hne, false_or, ih]
      by_cases hk : k ∈ rest.map Prod.fst
      · rw [if_pos hk, if_pos hk]
      · rw [if_neg hk, if_neg hk, List.cons_append]

theorem dSet_mem {κ β : Type} [DecidableEq κ] {d : List (κ × β)} {k : κ}
    {v : β} (hnd : (d.map Prod.fst).Nodup) (p : κ × β) :
    p ∈ dSet d k v ↔ (p = (k, v) ∨ (p ∈ d ∧ p.1 ≠ k)) := by
  induction d with
  | nil =>
    simp only [dSet, List.mem_singleton, List.not_mem_nil, false_and, or_false]
  | cons e rest ih =>
    have hnd2 : (rest.map Prod.fst).Nodup := (List.nodup_cons.mp hnd).2
    have hnotin : e.1 ∉ rest.map Prod.fst := (List.nodup_cons.mp hnd).1
    by_cases he : e.1 = k
    · rw [show (e :: rest) = ((e.1, e.2) :: rest) from rfl, dSet, if_pos he]
      constructor
      · intro hp
        rcases List.mem_cons.mp hp with rfl | hp
        · exact Or.inl (by rw [he])
        · refine Or.inr ⟨List.mem_cons_of_mem _ hp, ?_⟩
          intro hc
          exact hnotin (he ▸ hc ▸ List.mem_map_of_mem Prod.fst hp)
      · rintro (rfl | ⟨hp, hne⟩)
        · exact he ▸ List.mem_cons_self _ _
        · rcases List.mem_cons.mp hp with rfl | hp
          · exact absurd he hne
          · exact List.mem_cons_of_mem _ hp
    · rw [show (e :: rest) = ((e.1, e.2) :: rest) from rfl, dSet, if_neg he]
      constructor
      · intro hp
        rcases List.mem_cons.mp hp with rfl | hp
        · exact Or.inr ⟨List.mem_cons_self _ _, he⟩
        · rcases (ih hnd2).mp hp with rfl | ⟨hp2, hne⟩
          · exact Or.inl rfl
          · exact Or.inr ⟨List.mem_cons_of_mem _ hp2, hne⟩
      · rintro (rfl | ⟨hp, hne⟩)
        · exact List.mem_cons_of_mem _ ((ih hnd2).mpr (Or.inl rfl))
        · rcases List.mem_cons.mp hp with rfl | hp2
          · exact List.mem_cons_self _ _
          · exact List.mem_cons_of_mem _ ((ih hnd2).mpr (Or.inr ⟨hp2, hne⟩))

theorem tloop_eq_filterMap (toks : List Str) :
    ∀ init, toks.foldl tloopStep init
      = (toks.filterMap tokEntry).foldl tstep init := by
  induction toks with
  | nil => intro init; rfl
  | cons x xs ih =>
    intro init
    cases hf : tokEntry x <;>
      simp [List.filterMap_cons, hf, ih, tloopStep]

theorem tokenize_eq_fold (s : Str) :
    tokenize_prompt s = ((tokStream s).foldl tstep []).map (·.2) := by
  rw [tokenize_prompt, tokStream, tloop_eq_filterMap]

theorem tokEntry_norm (raw : Str) (e : Tok) (h : tokEntry raw = some e) :
    e.t_norm ≠ S "break" := by
  simp only [tokEntry] at h
  by_cases h1 : pyStrip (parse_weighted_token raw).1 = []
  · rw [if_pos h1] at h
    exact Option.noConfusion h
  · rw [if_neg h1] at h
    by_cases h2 : token_norm (pyStrip (parse_weighted_token raw).1) = S "break"
    · rw [if_pos h2] at h
      exact Option.noConfusion h
    · rw [if_neg h2] at h
      obtain rfl := Option.some.inj h
      exact h2

theorem tfold_spec (es : List Tok) :
    ((es.foldl tstep []).map Prod.fst = dedupKeepFirst (es.map (·.t_norm)))
    ∧ (∀ p ∈ es.foldl tstep [], p.2.t_norm = p.1
        ∧ some p.2 = ((es.filter (fun e => e.t_norm = p.1)).getLast?)) := by
  induction es using List.reverseRecOn with
  | nil =>
    refine ⟨rfl, ?_⟩
    intro p hp
    simp at hp
  | append_singleton ys y ih =>
    obtain ⟨iha, ihb⟩ := ih
    have hnd : ((ys.foldl tstep []).map Prod.fst).Nodup := by
      rw [iha]; exact dKF_nodup _
    have hfold : (ys ++ [y]).foldl tstep []
        = dSet (ys.foldl tstep []) y.t_norm y := by
      rw [List.foldl_append]; rfl
    constructor
    · rw [hfold, dSet_map_fst, iha, List.map_append, List.map_cons,
        List.map_nil, dKF_append_single]
      by_cases hy : y.t_norm ∈ ys.map (fun e => e.t_norm)
      · rw [if_pos (mem_dKF.mpr hy), if_pos hy]
      · rw [if_neg (fun hc => hy (mem_dKF.mp hc)), if_neg hy]
    · intro p hp
      rw [hfold] at hp
      rcases (dSet_mem hnd p).mp hp with rfl | ⟨hpD, hne⟩
      · refine ⟨rfl, ?_⟩
        rw [List.filter_append]
        have hpred : (List.filter (fun e => decide (e.t_norm = y.t_norm)) [y])
            = [y] := by simp
        rw [hpred, List.getLast?_concat]
      · obtain ⟨hkey, hlast⟩ := ihb p hpD
        refine ⟨hkey, ?_⟩
        rw [List.filter_append]
        have hpred : (List.filter (fun e => decide (e.t_norm = p.1)) [y])
            = [] := by
          simp [Ne.symm hne]
        rw [hpred, List.append_nil]
        exact hlast

/-- **C7** (confirmed).  `tokenize_prompt` yields exactly one record per
distinct normalized token text, in first-appearance order of each unique
normalized key (`dedupKeepFirst`); each surviving record is the **last**
occurrence of its key in the token stream (so its weight — and raw text —
come from the last occurrence, single forward pass with
overwrite-on-duplicate semantics); and no record's normalized form is the
literal word `break`. -/
theorem C7_tokenize_prompt :
    ∀ s : Str,
      ((tokenize_prompt s).map (fun e => e.t_norm)
          = dedupKeepFirst ((tokStream s).map (fun e => e.t_norm)))
      ∧ ((tokenize_prompt s).map (fun e => e.t_norm)).Nodup
      ∧ (∀ rec ∈ tokenize_prompt s,
          some rec
            = ((tokStream s).filter (fun e => e.t_norm = rec.t_norm)).getLast?)
      ∧ (∀ rec ∈ tokenize_prompt s, rec.t_norm ≠ S "break") := by
  intro s
  have hfold := tokenize_eq_fold s
  obtain ⟨ha, hb⟩ := tfold_spec (tokStream s)
  have hmap : (tokenize_prompt s).map (fun e => e.t_norm)
      = dedupKeepFirst ((tokStream s).map (fun e => e.t_norm)) := by
    rw [hfold, List.map_map]
    refine Eq.trans ?_ ha
    apply List.map_congr_left
    intro p hp
    exact (hb p hp).1
  refine ⟨hmap, hmap ▸ dKF_nodup _, ?_, ?_⟩
  · intro rec hrec
    rw [hfold] at hrec
    obtain ⟨p, hpD, rfl⟩ := List.mem_map.mp hrec
    obtain ⟨hkey, hlast⟩ := hb p hpD
    rw [hkey]
    exact hlast
  · intro rec hrec
    rw [hfold] at hrec
    obtain ⟨p, hpD, rfl⟩ := List.mem_map.mp hrec
    obtain ⟨hkey, hlast⟩ := hb p hpD
    have hmem : p.2 ∈ (tokStream s).filter (fun e => e.t_norm = p.1) :=
      mem_of_getLast' hlast.symm
    obtain ⟨raw, _hraw, hE⟩ :=
      List.mem_filterMap.mp (List.mem_of_mem_filter hmem)
    exact tokEntry_norm raw p.2 hE

/-- **C7** witness: the contract evaluated at a concrete prompt — the
duplicate key `a` keeps its first position but carries the last
occurrence's weight. -/
theorem C7_tokenize_prompt_witness :
    some (⟨S "a", S "a", .finite (mkRat 1 2)⟩ : Tok)
      = ((tokStream (S "A, (b:1.2), BREAK, (a:0.5)")).filter
          (fun e => e.t_norm = S "a")).getLast? := by
  exact (C7_tokenize_prompt (S "A, (b:1.2), BREAK, (a:0.5)")).2.2.1
    ⟨S "a", S "a", .finite (mkRat 1 2)⟩ (by decide)

/-! ### `normalize_record` precedence theorems -/

theorem optOr_none_left {α : Type} (x : Option α) : optOr Option.none x = x := rfl

theorem optOr_assoc {α : Type} (a b c : Option α) :
    optOr (optOr a b) c = optOr a (optOr b c) := by
  cases a <;> rfl

theorem fillInt_eq_optOr (a b : Option Int) : fillInt a b = optOr a b := by
  cases a <;> cases b <;> rfl

theorem fillFloat_eq_optOr (a b : Option PyFloat) :
    fillFloat a b = optOr a b := by
  cases a <;> cases b <;> rfl

theorem fillK_none (x : Option Str) : fillK Option.none x = x := by
  cases x <;> rfl

theorem dGet_dSet_eq {κ β : Type} [DecidableEq κ] (d : List (κ × β))
    (k : κ) (v : β) : dGet (dSet d k v) k = some v := by
  induction d with
  | nil => simp [dSet, dGet]
  | cons e rest ih =>
    obtain ⟨k0, w⟩ := e
    by_cases hk : k0 = k
    · simp [dSet, dGet, hk]
    · simp [dSet, dGet, hk, ih]

theorem dGet_putKVStr_ne (kv : List (Str × PyVal)) (fld k : Str)
    (o : Option Str) (h : ¬ fld = k) :
    dGet (putKVStr kv fld o) k = dGet kv k := by
  cases o with
  | none => rfl
  | some sv =>
    by_cases hs : sv = []
    · simp [putKVStr, hs]
    · simp only [putKVStr, if_neg hs]
      exact dGet_dSet_ne (fun hc => h hc.symm) _

theorem dGet_putKVInt_ne (kv : List (Str × PyVal)) (fld k : Str)
    (o : Option Int) (h : ¬ fld = k) :
    dGet (putKVInt kv fld o) k = dGet kv k := by
  cases o with
  | none => rfl
  | some n => exact dGet_dSet_ne (fun hc => h hc.symm) _

theorem dGet_putKVFloat_ne (kv : List (Str × PyVal)) (fld k : Str)
    (o : Option PyFloat) (h : ¬ fld = k) :
    dGet (putKVFloat kv fld o) k = dGet kv k := by
  cases o with
  | none => rfl
  | some f => exact dGet_dSet_ne (fun hc => h hc.symm) _

theorem dGet_putKVSoftware_ne (exif : List (Str × PyVal))
    (kv : List (Str × PyVal)) (k : Str) (h : ¬ S "software" = k) :
    dGet (putKVSoftware exif kv) k = dGet kv k := by
  unfold putKVSoftware
  split
  · split
    · rfl
    · exact dGet_dSet_ne (fun hc => h hc.symm) _
  · rfl

theorem buildKV_kvOrRec_prompt (exif : List (Str × PyVal)) (r : NRec)
    (h : dGet r.kv (S "prompt") = Option.none) :
    kvOrRec (buildKVList exif r) (S "prompt") (optStrVal r.prompt)
      = optStrVal r.prompt := by
  have hg : dGet (buildKVList exif r) (S "prompt")
      = dGet (putKVStr r.kv (S "prompt") r.prompt) (S "prompt") := by
    unfold buildKVList
    rw [dGet_putKVSoftware_ne _ _ _ (by decide),
      dGet_putKVInt_ne _ _ _ _ (by decide),
      dGet_putKVInt_ne _ _ _ _ (by decide),
      dGet_putKVStr_ne _ _ _ _ (by decide),
      dGet_putKVStr_ne _ _ _ _ (by decide),
      dGet_putKVStr_ne _ _ _ _ (by decide),
      dGet_putKVStr_ne _ _ _ _ (by decide),
      dGet_putKVInt_ne _ _ _ _ (by decide),
      dGet_putKVFloat_ne _ _ _ _ (by decide),
      dGet_putKVInt_ne _ _ _ _ (by decide),
      dGet_putKVStr_ne _ _ _ _ (by decide)]
  unfold kvOrRec
  rw [hg]
  cases hp : r.prompt with
  | none => rw [show putKVStr r.kv (S "prompt") Option.none = r.kv from rfl, h]
  | some p =>
    rw [show putKVStr r.kv (S "prompt") (some p)
      = (if p = [] then r.kv else dSet r.kv (S "prompt") (.str p)) from rfl]
    by_cases hs : p = []
    · rw [if_pos hs, h]
    · rw [if_neg hs, dGet_dSet_eq]
      rfl

theorem buildKV_kvOrRec_neg (exif : List (Str × PyVal)) (r : NRec)
    (h : dGet r.kv (S "negative_prompt") = Option.none) :
    kvOrRec (buildKVList exif r) (S "negative_prompt")
        (optStrVal r.negative_prompt)
      = optStrVal r.negative_prompt := by
  have hg : dGet (buildKVList exif r) (S "negative_prompt")
      = dGet (putKVStr (putKVStr r.kv (S "prompt") r.prompt)
          (S "negative_prompt") r.negative_prompt) (S "negative_prompt") := by
    unfold buildKVList
    rw [dGet_putKVSoftware_ne _ _ _ (by decide),
      dGet_putKVInt_ne _ _ _ _ (by decide),
      dGet_putKVInt_ne _ _ _ _ (by decide),
      dGet_putKVStr_ne _ _ _ _ (by decide),
      dGet_putKVStr_ne _ _ _ _ (by decide),
      dGet_putKVStr_ne _ _ _ _ (by decide),
      dGet_putKVStr_ne _ _ _ _ (by decide),
      dGet_putKVInt_ne _ _ _ _ (by decide),
      dGet_putKVFloat_ne _ _ _ _ (by decide),
      dGet_putKVInt_ne _ _ _ _ (by decide)]
  have h2 : dGet (putKVStr r.kv (S "prompt") r.prompt) (S "negative_prompt")
      = Option.none := by
    rw [dGet_putKVStr_ne _ _ _ _ (by decide), h]
  unfold kvOrRec
  rw [hg]
  cases hp : r.negative_prompt with
  | none =>
    rw [show putKVStr (putKVStr r.kv (S "prompt") r.prompt)
        (S "negative_prompt") Option.none
      = putKVStr r.kv (S "prompt") r.prompt from rfl, h2]
  | some p =>
    rw [show putKVStr (putKVStr r.kv (S "prompt") r.prompt)
        (S "negative_prompt") (some p)
      = (if p = [] then putKVStr r.kv (S "prompt") r.prompt
         else dSet (putKVStr r.kv (S "prompt") r.prompt)
           (S "negative_prompt") (.str p)) from rfl]
    by_cases hs : p = []
    · rw [if_pos hs, h2]
    · rw [if_neg hs, dGet_dSet_eq]
      rfl

theorem applyWf_prompt (wfp : Option Str × Option Str) (r : NRec) :
    (applyWf wfp r).prompt = wfOverride wfp.1 r.prompt := by
  unfold applyWf wfOverride
  cases truthyStr wfp.1 <;> cases truthyStr wfp.2 <;> rfl

theorem applyWf_neg (wfp : Option Str × Option Str) (r : NRec) :
    (applyWf wfp r).negative_prompt = wfOverride wfp.2 r.negative_prompt := by
  unfold applyWf wfOverride
  cases truthyStr wfp.1 <;> cases truthyStr wfp.2 <;> rfl

theorem applyWf_scalars (wfp : Option Str × Option Str) (r : NRec) :
    (applyWf wfp r).steps = r.steps ∧ (applyWf wfp r).cfg_scale = r.cfg_scale
    ∧ (applyWf wfp r).seed = r.seed ∧ (applyWf wfp r).sampler = r.sampler
    ∧ (applyWf wfp r).scheduler = r.scheduler
    ∧ (applyWf wfp r).model = r.model ∧ (applyWf wfp r).width = r.width
    ∧ (applyWf wfp r).height = r.height ∧ (applyWf wfp r).kv = r.kv
    ∧ (applyWf wfp r).raw_text_preview = r.raw_text_preview := by
  unfold applyWf
  cases truthyStr wfp.1 <;> cases truthyStr wfp.2 <;>
    exact ⟨rfl, rfl, rfl, rfl, rfl, rfl, rfl, rfl, rfl, rfl⟩

theorem rawFallback_fields (blobs : List (Str × Str)) (r : NRec) :
    (rawFallback blobs r).steps = r.steps
    ∧ (rawFallback blobs r).cfg_scale = r.cfg_scale
    ∧ (rawFallback blobs r).seed = r.seed
    ∧ (rawFallback blobs r).sampler = r.sampler
    ∧ (rawFallback blobs r).scheduler = r.scheduler
    ∧ (rawFallback blobs r).model = r.model
    ∧ (rawFallback blobs r).width = r.width
    ∧ (rawFallback blobs r).height = r.height
    ∧ (rawFallback blobs r).kv = r.kv
    ∧ (rawFallback blobs r).prompt = r.prompt
    ∧ (rawFallback blobs r).negative_prompt = r.negative_prompt := by
  unfold rawFallback
  split
  · split <;> exact ⟨rfl, rfl, rfl, rfl, rfl, rfl, rfl, rfl, rfl, rfl, rfl⟩
  · exact ⟨rfl, rfl, rfl, rfl, rfl, rfl, rfl, rfl, rfl, rfl, rfl⟩

theorem postprocess_fields (r : NRec) :
    ((postprocess_prompts_and_params r).steps = r.steps)
    ∧ ((postprocess_prompts_and_params r).cfg_scale = r.cfg_scale)
    ∧ ((postprocess_prompts_and_params r).seed = r.seed)
    ∧ ((postprocess_prompts_and_params r).sampler = r.sampler)
    ∧ ((postprocess_prompts_and_params r).scheduler = r.scheduler)
    ∧ ((postprocess_prompts_and_params r).model = r.model)
    ∧ ((postprocess_prompts_and_params r).width = r.width)
    ∧ ((postprocess_prompts_and_params r).height = r.height)
    ∧ ((postprocess_prompts_and_params r).prompt
        = truthyStr (enforce_pos_neg_separation
            (kvOrRec r.kv (S "prompt") (optStrVal r.prompt))
            (kvOrRec r.kv (S "negative_prompt")
              (optStrVal r.negative_prompt))).1)
    ∧ ((postprocess_prompts_and_params r).negative_prompt
        = truthyStr (enforce_pos_neg_separation
            (kvOrRec r.kv (S "prompt") (optStrVal r.prompt))
            (kvOrRec r.kv (S "negative_prompt")
              (optStrVal r.negative_prompt))).2) := by
  simp only [postprocess_prompts_and_params]
  cases hp : truthyStr (enforce_pos_neg_separation
      (kvOrRec r.kv (S "prompt") (optStrVal r.prompt))
      (kvOrRec r.kv (S "negative_prompt")
        (optStrVal r.negative_prompt))).1 <;>
  cases hn : truthyStr (enforce_pos_neg_separation
      (kvOrRec r.kv (S "prompt") (optStrVal r.prompt))
      (kvOrRec r.kv (S "negative_prompt")
        (optStrVal r.negative_prompt))).2 <;>
    exact ⟨rfl, rfl, rfl, rfl, rfl, rfl, rfl, rfl, rfl, rfl⟩

theorem normTail_fields (exif : List (Str × PyVal)) (kf : KFRec) (r2 : NRec)
    (hkv : dGet r2.kv (S "prompt") = Option.none)
    (hkvn : dGet r2.kv (S "negative_prompt") = Option.none) :
    ((postprocess_prompts_and_params (buildKV exif
        (rawFallback (extract_candidate_blobs exif)
          (applyWf (extract_comfyui_prompts
            ((applyKeyed r2 kf).workflow_json.getD .none))
            (applyKeyed r2 kf))))).steps = fillInt r2.steps kf.steps)
    ∧ ((postprocess_prompts_and_params (buildKV exif
        (rawFallback (extract_candidate_blobs exif)
          (applyWf (extract_comfyui_prompts
            ((applyKeyed r2 kf).workflow_json.getD .none))
            (applyKeyed r2 kf))))).seed = fillInt r2.seed kf.seed)
    ∧ ((postprocess_prompts_and_params (buildKV exif
        (rawFallback (extract_candidate_blobs exif)
          (applyWf (extract_comfyui_prompts
            ((applyKeyed r2 kf).workflow_json.getD .none))
            (applyKeyed r2 kf))))).cfg_scale
        = fillFloat r2.cfg_scale kf.cfg_scale)
    ∧ ((postprocess_prompts_and_params (buildKV exif
        (rawFallback (extract_candidate_blobs exif)
          (applyWf (extract_comfyui_prompts
            ((applyKeyed r2 kf).workflow_json.getD .none))
            (applyKeyed r2 kf))))).sampler = fillK r2.sampler kf.sampler)
    ∧ ((postprocess_prompts_and_params (buildKV exif
        (rawFallback (extract_candidate_blobs exif)
          (applyWf (extract_comfyui_prompts
            ((applyKeyed r2 kf).workflow_json.getD .none))
            (applyKeyed r2 kf))))).scheduler = fillK r2.scheduler kf.scheduler)
    ∧ ((postprocess_prompts_and_params (buildKV exif
        (rawFallback (extract_candidate_blobs exif)
          (applyWf (extract_comfyui_prompts
            ((applyKeyed r2 kf).workflow_json.getD .none))
            (applyKeyed r2 kf))))).model = fillK r2.model kf.model)
    ∧ ((postprocess_prompts_and_params (buildKV exif
        (rawFallback (extract_candidate_blobs exif)
          (applyWf (extract_comfyui_prompts
            ((applyKeyed r2 kf).workflow_json.getD .none))
            (applyKeyed r2 kf))))).width = fillInt r2.width kf.width)
    ∧ ((postprocess_prompts_and_params (buildKV exif
        (rawFallback (extract_candidate_blobs exif)
          (applyWf (extract_comfyui_prompts
            ((applyKeyed r2 kf).workflow_json.getD .none))
            (applyKeyed r2 kf))))).height = fillInt r2.height kf.height)
    ∧ ((postprocess_prompts_and_params (buildKV exif
        (rawFallback (extract_candidate_blobs exif)
          (applyWf (extract_comfyui_prompts
            ((applyKeyed r2 kf).workflow_json.getD .none))
            (applyKeyed r2 kf))))).prompt
        = truthyStr (enforce_pos_neg_separation
          (optStrVal (wfOverride (extract_comfyui_prompts
              (r2.workflow_json.getD .none)).1 (fillK r2.prompt kf.prompt)))
          (optStrVal (wfOverride (extract_comfyui_prompts
              (r2.workflow_json.getD .none)).2
            (fillK r2.negative_prompt kf.negative_prompt)))).1)
    ∧ ((postprocess_prompts_and_params (buildKV exif
        (rawFallback (extract_candidate_blobs exif)
          (applyWf (extract_comfyui_prompts
            ((applyKeyed r2 kf).workflow_json.getD .none))
            (applyKeyed r2 kf))))).negative_prompt
        = truthyStr (enforce_pos_neg_separation
          (optStrVal (wfOverride (extract_comfyui_prompts
              (r2.workflow_json.getD .none)).1 (fillK r2.prompt kf.prompt)))
          (optStrVal (wfOverride (extract_comfyui_prompts
              (r2.workflow_json.getD .none)).2
            (fillK r2.negative_prompt kf.negative_prompt)))).2) := by
  have hk1 : dGet (rawFallback (extract_candidate_blobs exif)
      (applyWf (extract_comfyui_prompts
        ((applyKeyed r2 kf).workflow_json.getD .none))
        (applyKeyed r2 kf))).kv (S "prompt") = Option.none := by
    rw [(rawFallback_fields _ _).2.2.2.2.2.2.2.2.1,
      (applyWf_scalars _ _).2.2.2.2.2.2.2.2.1]
    exact hkv
  have hk2 : dGet (rawFallback (extract_candidate_blobs exif)
      (applyWf (extract_comfyui_prompts
        ((applyKeyed r2 kf).workflow_json.getD .none))
        (applyKeyed r2 kf))).kv (S "negative_prompt") = Option.none := by
    rw [(rawFallback_fields _ _).2.2.2.2.2.2.2.2.1,
      (applyWf_scalars _ _).2.2.2.2.2.2.2.2.1]
    exact hkvn
  refine ⟨?_, ?_, ?_, ?_, ?_, ?_, ?_, ?_, ?_, ?_⟩
  · rw [(postprocess_fields _).1]
    simp only [buildKV]
    rw [(rawFallback_fields _ _).1, (applyWf_scalars _ _).1]
    rfl
  · rw [(postprocess_fields _).2.2.1]
    simp only [buildKV]
    rw [(rawFallback_fields _ _).2.2.1, (applyWf_scalars _ _).2.2.1]
    rfl
  · rw [(postprocess_fields _).2.1]
    simp only [buildKV]
    rw [(rawFallback_fields _ _).2.1, (applyWf_scalars _ _).2.1]
    rfl
  · rw [(postprocess_fields _).2.2.2.1]
    simp only [buildKV]
    rw [(rawFallback_fields _ _).2.2.2.1, (applyWf_scalars _ _).2.2.2.1]
    rfl
  · rw [(postprocess_fields _).2.2.2.2.1]
    simp only [buildKV]
    rw [(rawFallback_fields _ _).2.2.2.2.1, (applyWf_scalars _ _).2.2.2.2.1]
    rfl
  · rw [(postprocess_fields _).2.2.2.2.2.1]
    simp only [buildKV]
    rw [(rawFallback_fields _ _).2.2.2.2.2.1,
      (applyWf_scalars _ _).2.2.2.2.2.1]
    rfl
  · rw [(postprocess_fields _).2.2.2.2.2.2.1]
    simp only [buildKV]
    rw [(rawFallback_fields _ _).2.2.2.2.2.2.1,
      (applyWf_scalars _ _).2.2.2.2.2.2.1]
    rfl
  · rw [(postprocess_fields _).2.2.2.2.2.2.2.1]
    simp only [buildKV]
    rw [(rawFallback_fields _ _).2.2.2.2.2.2.2.1,
      (applyWf_scalars _ _).2.2.2.2.2.2.2.1]
    rfl
  · rw [(postprocess_fields _).2.2.2.2.2.2.2.2.1]
    simp only [buildKV]
    rw [buildKV_kvOrRec_prompt _ _ hk1, buildKV_kvOrRec_neg _ _ hk2,
      (rawFallback_fields _ _).2.2.2.2.2.2.2.2.2.1,
      (rawFallback_fields _ _).2.2.2.2.2.2.2.2.2.2,
      applyWf_prompt, applyWf_neg]
    rfl
  · rw [(postprocess_fields _).2.2.2.2.2.2.2.2.2]
    simp only [buildKV]
    rw [buildKV_kvOrRec_prompt _ _ hk1, buildKV_kvOrRec_neg _ _ hk2,
      (rawFallback_fields _ _).2.2.2.2.2.2.2.2.2.1,
      (rawFallback_fields _ _).2.2.2.2.2.2.2.2.2.2,
      applyWf_prompt, applyWf_neg]
    rfl

/-- **C1** (corrected).  Per-field precedence of `normalize_record`, for
every EXIF object on which it succeeds: each scalar generation field is
filled independently by the first non-null source, but the order is
**JSON-graph before A1111 text** (the claim's "A1111 > JSON-graph" is
reversed — see the counterexample); `width`/`height` consult the explicit
EXIF dimension tags first; prompts chain A1111 > keyed, are overridden by
a truthy node-graph prompt, and then pass through
`enforce_pos_neg_separation`.  String fields use the source's exact
unset/value guards (`fillStr`/`fillK`). -/
theorem C1_normalize_precedence :
    ∀ (exif : List (Str × PyVal)) (r : NRec),
      normalize_record exif = .ok r →
      ∀ pa, a1111Of (extract_candidate_blobs exif) = .ok pa →
      ∀ kf, extract_keyed_fields exif = .ok kf →
      ∀ w0, dimInt (first_present exif dimWidthKeys) = .ok w0 →
      ∀ h0, dimInt (first_present exif dimHeightKeys) = .ok h0 →
      (r.steps = optOr ((firstComfyRec (extract_candidate_blobs exif)).bind
          (fun c => c.steps.bind tryIntFloat))
        (optOr (pa.bind A1Rec.steps) kf.steps))
      ∧ (r.seed = optOr ((firstComfyRec (extract_candidate_blobs exif)).bind
          (fun c => c.seed.bind tryIntFloat))
        (optOr (pa.bind A1Rec.seed) kf.seed))
      ∧ (r.cfg_scale
          = optOr ((firstComfyRec (extract_candidate_blobs exif)).bind
            (fun c => optOr (c.cfg_scale.bind pyFloatOf) (c.cfg.bind pyFloatOf)))
          (optOr (pa.bind A1Rec.cfg_scale) kf.cfg_scale))
      ∧ (r.sampler = fillK (fillStr
          ((firstComfyRec (extract_candidate_blobs exif)).bind CRec.sampler)
          (pa.bind A1Rec.sampler)) kf.sampler)
      ∧ (r.scheduler = fillK (fillStr
          ((firstComfyRec (extract_candidate_blobs exif)).bind CRec.scheduler)
          (pa.bind A1Rec.scheduler)) kf.scheduler)
      ∧ (r.model = fillK (fillStr
          ((firstComfyRec (extract_candidate_blobs exif)).bind CRec.model)
          (pa.bind A1Rec.model)) kf.model)
      ∧ (r.width = optOr w0
          (optOr ((firstComfyRec (extract_candidate_blobs exif)).bind
              (fun c => c.width.bind tryIntFloat))
            (optOr (pa.bind A1Rec.width) kf.width)))
      ∧ (r.height = optOr h0
          (optOr ((firstComfyRec (extract_candidate_blobs exif)).bind
              (fun c => c.height.bind tryIntFloat))
            (optOr (pa.bind A1Rec.height) kf.height)))
      ∧ (r.prompt = truthyStr (enforce_pos_neg_separation
          (optStrVal (wfOverride
            (extract_comfyui_prompts
              (((firstComfyRec (extract_candidate_blobs exif)).map
                CRec.workflow_json).getD .none)).1
            (fillK (fillStr Option.none (pa.bind A1Rec.prompt)) kf.prompt)))
          (optStrVal (wfOverride
            (extract_comfyui_prompts
              (((firstComfyRec (extract_candidate_blobs exif)).map
                CRec.workflow_json).getD .none)).2
            (fillK (fillStr Option.none (pa.bind A1Rec.negative_prompt))
              kf.negative_prompt)))).1)
      ∧ (r.negative_prompt = truthyStr (enforce_pos_neg_separation
          (optStrVal (wfOverride
            (extract_comfyui_prompts
              (((firstComfyRec (extract_candidate_blobs exif)).map
                CRec.workflow_json).getD .none)).1
            (fillK (fillStr Option.none (pa.bind A1Rec.prompt)) kf.prompt)))
          (optStrVal (wfOverride
            (extract_comfyui_prompts
              (((firstComfyRec (extract_candidate_blobs exif)).map
                CRec.workflow_json).getD .none)).2
            (fillK (fillStr Option.none (pa.bind A1Rec.negative_prompt))
              kf.negative_prompt)))).2) := by
  intro exif r h pa hpa kf hkf w0 hw0 h0 hh0
  simp only [normalize_record, hw0, hh0, hpa, hkf] at h
  obtain rfl := (Except.ok.inj h).symm
  have hwfkey : ¬ S "workflow_json" = S "prompt" := by decide
  have hwfkey2 : ¬ S "workflow_json" = S "negative_prompt" := by decide
  have hr0 : ∀ (a b : Option Int), dGet (NRec.kv { width := a, height := b })
      (S "prompt") = Option.none := fun _ _ => rfl
  rcases pa with _ | p <;> cases hc : firstComfyRec (extract_candidate_blobs exif) <;>
    simp only [hc]
  case none.none =>
    obtain ⟨h1, h2, h3, h4, h5, h6, h7, h8, h9, h10⟩ :=
      normTail_fields exif kf ({ width := w0, height := h0 } : NRec) rfl rfl
    refine ⟨?_, ?_, ?_, ?_, ?_, ?_, ?_, ?_, ?_, ?_⟩ <;>
      (simp only [h1, h2, h3, h4, h5, h6, h7, h8, h9, h10]
       simp [fillInt_eq_optOr, fillFloat_eq_optOr, optOr_assoc,
         optOr_none_left, fillK_none, optOr, fillStr])
  case none.some c =>
    obtain ⟨h1, h2, h3, h4, h5, h6, h7, h8, h9, h10⟩ :=
      normTail_fields exif kf
        (applyComfy ({ width := w0, height := h0 } : NRec) c)
        (by simp only [applyComfy, dSet, dGet]
            rw [if_neg hwfkey])
        (by simp only [applyComfy, dSet, dGet]
            rw [if_neg hwfkey2])
    refine ⟨?_, ?_, ?_, ?_, ?_, ?_, ?_, ?_, ?_, ?_⟩ <;>
      (simp only [h1, h2, h3, h4, h5, h6, h7, h8, h9, h10]
       simp [applyComfy, fillInt_eq_optOr, fillFloat_eq_optOr, optOr_assoc,
         optOr_none_left, fillK_none, fillStr])
  case some.none =>
    obtain ⟨h1, h2, h3, h4, h5, h6, h7, h8, h9, h10⟩ :=
      normTail_fields exif kf
        (applyA1111 ({ width := w0, height := h0 } : NRec) p) rfl rfl
    refine ⟨?_, ?_, ?_, ?_, ?_, ?_, ?_, ?_, ?_, ?_⟩ <;>
      (simp only [h1, h2, h3, h4, h5, h6, h7, h8, h9, h10]
       simp [applyA1111, fillInt_eq_optOr, fillFloat_eq_optOr, optOr_assoc,
         optOr_none_left, fillK_none, fillStr])
  case some.some c =>
    obtain ⟨h1, h2, h3, h4, h5, h6, h7, h8, h9, h10⟩ :=
      normTail_fields exif kf
        (applyA1111 (applyComfy ({ width := w0, height := h0 } : NRec) c) p)
        (by simp only [applyA1111, applyComfy, dSet, dGet]
            rw [if_neg hwfkey])
        (by simp only [applyA1111, applyComfy, dSet, dGet]
            rw [if_neg hwfkey2])
    refine ⟨?_, ?_, ?_, ?_, ?_, ?_, ?_, ?_, ?_, ?_⟩ <;>
      (simp only [h1, h2, h3, h4, h5, h6, h7, h8, h9, h10]
       simp [applyA1111, applyComfy, fillInt_eq_optOr, fillFloat_eq_optOr,
         optOr_assoc, optOr_none_left, fillK_none, fillStr])

/-- **C1** witness: the precedence law applied to the concrete two-source
input `C1exif` gives `steps = 20` from the JSON graph. -/
theorem C1_normalize_precedence_witness :
    NRec.steps C1rec
      = optOr ((firstComfyRec (extract_candidate_blobs C1exif)).bind
          (fun c => c.steps.bind tryIntFloat))
        (optOr ((some C1a1).bind A1Rec.steps) (KFRec.steps {})) :=
  (C1_normalize_precedence C1exif C1rec (by decide)
    (some C1a1) (by decide) {} (by decide)
    Option.none (by decide) Option.none (by decide)).1

/-- **C1** counterexample to the claim as stated: on `C1exif` the
embedded JSON graph supplies `steps = 20` and the A1111 text supplies
`Steps: 30`; the final record holds `20` (JSON-graph wins), not the `30`
the claim's "A1111 > JSON-graph" order would give. -/
theorem C1_counterexample :
    (match normalize_record C1exif with
      | .ok r => r.steps
      | .error _ => Option.none) = some 20
    ∧ (match a1111Of (extract_candidate_blobs C1exif) with
      | .ok (some p) => p.steps
      | _ => Option.none) = some 30
    ∧ (some 20 : Option Int) ≠ some 30 :=
  ⟨by decide, by decide, by decide⟩

/-- **C2** refuted (code_bug): the ingest loop's `json.loads` is
unguarded, so a malformed middle line aborts the whole batch — the later
well-formed line is never normalized or ingested; the same stream with
the malformed line removed ingests both records. -/
theorem C2_malformed_line_fatal :
    mainIngest
      [ S "\x7b\"PNG:Prompt\": \"a cat\"\x7d", S "this is not json"
      , S "\x7b\"PNG:Prompt\": \"later line\"\x7d" ]
      = .error (S "json.decoder.JSONDecodeError")
    ∧ (match mainIngest
        [ S "\x7b\"PNG:Prompt\": \"a cat\"\x7d"
        , S "\x7b\"PNG:Prompt\": \"later line\"\x7d" ] with
      | .ok rs => rs.length
      | .error _ => 0) = 2 :=
  ⟨by decide, by decide⟩

/-- **C6** refuted (code_bug): the extraction pipeline is not total.
`parse_a1111_parameters` raises `ValueError` on a CFG group such as
`1.2.3` (accepted by `[0-9.]+`, rejected by `float`);
`extract_keyed_fields` raises on a non-finite numeric steps value
(`int(nan)`); and `normalize_record` propagates both, plus the
`str.isdigit`/`int()` mismatch on superscript digits in a dimension
tag. -/
theorem C6_totality_refuted :
    parse_a1111_parameters (S "CFG scale: 1.2.3")
      = .error (S "ValueError: could not convert string to float")
    ∧ extract_keyed_fields [(S "EXIF:Steps", .float .nan)]
      = .error (S "ValueError: cannot convert float NaN to integer")
    ∧ normalize_record [(S "PNG:Parameters", .str (S "CFG scale: 1.2.3"))]
      = .error (S "ValueError: could not convert string to float")
    ∧ normalize_record [(S "File:ImageWidth", .str (S "²"))]
      = .error (S "ValueError: invalid literal for int() with base 10") :=
  ⟨by decide, by decide, by decide, by decide⟩

end Simage

